import Mathlib

/-!
# PAM decoder (`graphics/image_pam.cpp`)

A shallow embedding of `image_pam::parse` and of the library calls it makes
(`std::ifstream::getline`, `tellg`, `seekg`, `read`, `std::regex_match` on the six
patterns of `reg_values`, `std::stoi`), followed by theorems about it.

Bytes and characters are natural numbers (`'\n'` is 10, `'P'` is 80, ...), the file is the
list of its bytes, `uint16_t` stores reduce modulo `2^16` and `size_t` products modulo `2^64`.
Every `diffassert_msg` that fires throws; the embedding records which one did.
-/

set_option autoImplicit false

namespace ImagePam

/-! ## Data model -/

/-- The struct `image_pam::header`: five `uint16_t` fields (tupltype: RGB is 1, RGB_ALPHA is 2). -/
structure header where
  width : Nat
  height : Nat
  depth : Nat
  maxval : Nat
  tupltype : Nat
deriving DecidableEq, Repr

/-- The class `image_pam`: the header, the owned buffer (`none` is the null pointer) and its size. -/
structure image_pam where
  hdr : header
  data : Option (List Nat)
  size : Nat
deriving DecidableEq, Repr

/-- The `uint16_t*` targets of the table `reg_values`. -/
inductive Field
  | width
  | height
  | depth
  | maxval
  | tupltype
deriving DecidableEq, Repr

/-- The assertion that fired. Each constructor is one `diffassert_msg` site of `parse`
(source line in brackets); all of them end in `throw false`. -/
inductive Failure
  /-- Site [9], `ifs.is_open()`. -/
  | FileOpenError
  /-- Site [26], the first two characters of the first line. -/
  | MagicMismatch
  /-- Site [74], `matched_any`; carries `some.data()`. -/
  | HeaderSyntaxError (line : List Nat)
  /-- Site [65], `std::stoi` threw; carries `some.data()`. -/
  | HeaderValueError (line : List Nat)
  /-- Site [57], the TUPLTYPE argument is neither RGB nor RGB_ALPHA; carries `some.data()`. -/
  | UnsupportedTupleType (line : List Nat)
  /-- Site [78], `getline` left the stream failed. -/
  | UnexpectedEof
  /-- Sites [85]-[89], a header field is zero. -/
  | MissingHeaderField (f : Field)
  /-- Site [91], `hdr.maxval == 255`. -/
  | UnsupportedMaxval
  /-- Site [103], `expected_size == (last-cur)`; carries both numbers. -/
  | SizeMismatch (expected : Nat) (actual : Int)
deriving DecidableEq, Repr

/-- Ways the embedding itself can stop short of the code: a loop given too little fuel, or an
array access outside its allocation (undefined behaviour in the source). -/
inductive Stuck
  | fuel
  | bounds
deriving DecidableEq, Repr

/-- What a call of `parse` leaves behind: the instance, and the assertion that threw, if any. -/
structure Outcome where
  self : image_pam
  thrown : Option Failure
deriving DecidableEq, Repr

/-! ## Machine arithmetic -/

/-- Conversion to `uint16_t`. -/
def uint16_t (n : Nat) : Nat := n % 65536

/-- Conversion to (64-bit) `size_t`. -/
def size_t (n : Nat) : Nat := n % 2 ^ 64

/-- The product of two non-negative `int` operands converted to `size_t`: the low 32 bits,
sign-extended to 64. -/
def int_mul_to_size_t (a b : Nat) : Nat :=
  let r := (a * b) % 2 ^ 32
  if r < 2 ^ 31 then r else 2 ^ 64 - 2 ^ 32 + r

/-- The assignment `*p.second = v` through a `uint16_t*` into `hdr`. -/
def header.assign (h : header) : Field → Nat → header
  | .width, v => { h with width := uint16_t v }
  | .height, v => { h with height := uint16_t v }
  | .depth, v => { h with depth := uint16_t v }
  | .maxval, v => { h with maxval := uint16_t v }
  | .tupltype, v => { h with tupltype := uint16_t v }

/-! ## The input stream -/

/-- A `std::ifstream` opened in binary mode: the file's bytes, the get position and the
state bits. -/
structure ifstream where
  buf : List Nat
  pos : Nat
  eofbit : Bool
  failbit : Bool
deriving DecidableEq, Repr

/-- The member `good()`: no state bit is set. -/
def ifstream.good (s : ifstream) : Bool := !s.eofbit && !s.failbit

/-- The member `fail()`; `operator bool` is its negation. -/
def ifstream.fail (s : ifstream) : Bool := s.failbit

/-- What the extraction loop of `getline` did. -/
structure Extracted where
  stored : List Nat
  gcount : Nat
  eof : Bool
  fail : Bool
deriving DecidableEq, Repr

/-- The extraction loop of `getline(s, count)` on the unread bytes, with `room` characters still
storable (`count - 1` at the start). The tests are made in the order of the standard: end of
file, then the delimiter (extracted, counted, not stored), then a full buffer. -/
def getlineChars : List Nat → Nat → Extracted
  | [], _ => ⟨[], 0, true, false⟩
  | c :: cs, room =>
    if c = 10 then ⟨[], 1, false, false⟩
    else
      match room with
      | 0 => ⟨[], 0, false, true⟩
      | room + 1 =>
        let r := getlineChars cs room
        ⟨c :: r.stored, r.gcount + 1, r.eof, r.fail⟩

/-- The call `ifs.getline(some.data(), count)`: the new stream and the characters stored before
the terminating NUL. When the sentry fails (stream not good) nothing is extracted and failbit
is set; when nothing is extracted failbit is set. -/
def ifstream.getline (s : ifstream) (count : Nat) : ifstream × List Nat :=
  if s.good then
    let r := getlineChars (s.buf.drop s.pos) (count - 1)
    ({ s with pos := s.pos + r.gcount, eofbit := r.eof, failbit := r.fail || r.gcount == 0 },
      r.stored)
  else ({ s with failbit := true }, [])

/-- The call `ifs.tellg()`: its sentry sets failbit on a stream that is not good, and the
result is then `pos_type(-1)`. -/
def ifstream.tellg (s : ifstream) : ifstream × Int :=
  if s.good then (s, (s.pos : Int)) else ({ s with failbit := true }, -1)

/-- The call `ifs.seekg(0, std::ios::end)`: clears eofbit, then moves unless the stream failed. -/
def ifstream.seekg_end (s : ifstream) : ifstream :=
  if s.failbit then { s with eofbit := false }
  else { s with eofbit := false, pos := s.buf.length }

/-- The call `ifs.seekg(p)`: clears eofbit, then moves unless the stream failed; an invalid
position sets failbit. -/
def ifstream.seekg (s : ifstream) (p : Int) : ifstream :=
  if s.failbit then { s with eofbit := false }
  else if 0 ≤ p then { s with eofbit := false, pos := p.toNat }
  else { s with eofbit := false, failbit := true }

/-- The call `ifs.read(dst, n)` into a buffer currently holding `dst`: the new stream and the
buffer afterwards. A short read sets eofbit and failbit. -/
def ifstream.read (s : ifstream) (dst : List Nat) (n : Nat) : ifstream × List Nat :=
  if s.good then
    let got := (s.buf.drop s.pos).take n
    let dst1 := got ++ dst.drop got.length
    if got.length < n then
      ({ s with pos := s.pos + got.length, eofbit := true, failbit := true }, dst1)
    else ({ s with pos := s.pos + n }, dst1)
  else ({ s with failbit := true }, dst)

/-! ## Character classes, patterns and conversions -/

/-- The class `\s` of `std::regex` in the "C" locale. -/
def isspace (c : Nat) : Bool := c == 32 || (9 ≤ c && c ≤ 13)

/-- The class `\d`. -/
def isdigit (c : Nat) : Bool := 48 ≤ c && c ≤ 57

/-- The ECMAScript `.`: any character but a line terminator. -/
def isany (c : Nat) : Bool := c != 10 && c != 13

/-- The text "WIDTH". -/
def WIDTH : List Nat := [87, 73, 68, 84, 72]
/-- The text "HEIGHT". -/
def HEIGHT : List Nat := [72, 69, 73, 71, 72, 84]
/-- The text "DEPTH". -/
def DEPTH : List Nat := [68, 69, 80, 84, 72]
/-- The text "MAXVAL". -/
def MAXVAL : List Nat := [77, 65, 88, 86, 65, 76]
/-- The text "TUPLTYPE". -/
def TUPLTYPE : List Nat := [84, 85, 80, 76, 84, 89, 80, 69]
/-- The text "ENDHDR". -/
def ENDHDR : List Nat := [69, 78, 68, 72, 68, 82]
/-- The text "RGB". -/
def RGB : List Nat := [82, 71, 66]
/-- The text "RGB_ALPHA". -/
def RGB_ALPHA : List Nat := [82, 71, 66, 95, 65, 76, 80, 72, 65]

/-- The three shapes of pattern in `reg_values`. -/
inductive Regex
  /-- The pattern `KW\s(\d+)`. -/
  | kw_space_digits (kw : List Nat)
  /-- The pattern `KW\s(.+)`. -/
  | kw_space_any (kw : List Nat)
  /-- The pattern `(KW)`. -/
  | group (kw : List Nat)
deriving DecidableEq, Repr

/-- Matching the literal `kw` at the start of `s`: what follows it. -/
def afterKeyword : List Nat → List Nat → Option (List Nat)
  | [], s => some s
  | _ :: _, [] => none
  | k :: ks, c :: cs => if k = c then afterKeyword ks cs else none

/-- The call `std::regex_match(some.data(), match, re)` as far as `parse` uses it: `none` when
the whole text does not match, else the text of capture group 1 (`match[1].str()`). -/
def regex_match (s : List Nat) : Regex → Option (List Nat)
  | .kw_space_digits kw =>
    match afterKeyword kw s with
    | some (ws :: arg) =>
      if isspace ws && !arg.isEmpty && arg.all isdigit then some arg else none
    | _ => none
  | .kw_space_any kw =>
    match afterKeyword kw s with
    | some (ws :: arg) =>
      if isspace ws && !arg.isEmpty && arg.all isany then some arg else none
    | _ => none
  | .group kw => if s = kw then some kw else none

/-- The table `reg_values`, in its order; `none` is the `nullptr` of the ENDHDR entry. -/
def reg_values : List (Regex × Option Field) :=
  [ (.kw_space_digits WIDTH, some .width),
    (.kw_space_digits HEIGHT, some .height),
    (.kw_space_digits DEPTH, some .depth),
    (.kw_space_digits MAXVAL, some .maxval),
    (.kw_space_any TUPLTYPE, some .tupltype),
    (.group ENDHDR, none) ]

/-- The string `some.data()` denotes: the stored characters up to the first NUL. -/
def c_str (stored : List Nat) : List Nat := stored.takeWhile (fun c => c != 0)

/-- The value of a string of decimal digits. -/
def decimal (digits : List Nat) : Nat := digits.foldl (fun acc d => acc * 10 + (d - 48)) 0

/-- The call `std::stoi(arg)` on a non-empty string of digits (all that `\d+` captures):
`none` is the `std::out_of_range` thrown above `INT_MAX`. -/
def stoi (arg : List Nat) : Option Nat :=
  if decimal arg ≤ 2147483647 then some (decimal arg) else none

/-- What the body of the `for` loop over `reg_values` does with one line. -/
inductive LineAction
  /-- The ENDHDR entry matched: `goto process_data`. -/
  | goto_process_data
  /-- A field entry matched and `*p.second = v` is executed. -/
  | assign (f : Field) (v : Nat)
  /-- An assertion inside the loop fired. -/
  | threw (e : Failure)
  /-- No entry matched: `matched_any` is still false. -/
  | no_match
deriving DecidableEq, Repr

/-- The branch taken once an entry with a non-null target matched (`match.size() == 2` holds
for every pattern of the table). -/
def onMatch (line arg : List Nat) (f : Field) : LineAction :=
  if f = .tupltype then
    if arg = RGB then .assign f 1
    else if arg = RGB_ALPHA then .assign f 2
    else .threw (.UnsupportedTupleType line)
  else
    match stoi arg with
    | some v => .assign f v
    | none => .threw (.HeaderValueError line)

/-- The `for` loop over the entries of `reg_values`: the first matching entry decides. -/
def forRegValues (line : List Nat) : List (Regex × Option Field) → LineAction
  | [] => .no_match
  | (re, target) :: rest =>
    match regex_match line re with
    | none => forRegValues line rest
    | some arg =>
      match target with
      | none => .goto_process_data
      | some f => onMatch line arg f

/-- The `while (true)` loop of `parse`, from a header and a stream: the header and stream when
the loop is left, and the assertion that fired (`none`: control reached `process_data`). One
unit of fuel is spent per iteration. -/
def headerLoop : Nat → header → ifstream → Except Stuck (header × ifstream × Option Failure)
  | 0, _, _ => .error .fuel
  | fuel + 1, hdr, ifs =>
    let r := ifs.getline 50
    if r.1.fail then .ok (hdr, r.1, some .UnexpectedEof)
    else
      match forRegValues (c_str r.2) reg_values with
      | .goto_process_data => .ok (hdr, r.1, none)
      | .assign f v => headerLoop fuel (hdr.assign f v) r.1
      | .threw e => .ok (hdr, r.1, some e)
      | .no_match => .ok (hdr, r.1, some (.HeaderSyntaxError (c_str r.2)))

/-! ## Validation and transcoding (label `process_data`) -/

/-- The five `!= 0` assertions and the `maxval == 255` assertion, in source order: the first
one that fires. -/
def validate (hdr : header) : Option Failure :=
  if hdr.width = 0 then some (.MissingHeaderField .width)
  else if hdr.height = 0 then some (.MissingHeaderField .height)
  else if hdr.depth = 0 then some (.MissingHeaderField .depth)
  else if hdr.maxval = 0 then some (.MissingHeaderField .maxval)
  else if hdr.tupltype = 0 then some (.MissingHeaderField .tupltype)
  else if hdr.maxval ≠ 255 then some .UnsupportedMaxval
  else none

/-- The local `bytes_per_pixel`. -/
def bytes_per_pixel (hdr : header) : Nat := if hdr.tupltype = 1 then 3 else 4

/-- The local `expected_size = bytes_per_pixel * hdr.width * hdr.height`, in `size_t`. -/
def expected_size (hdr : header) : Nat :=
  size_t (size_t (bytes_per_pixel hdr * hdr.width) * hdr.height)

/-- The local `actual_stride = hdr.width * 4`: an `int` product converted to `size_t`. -/
def actual_stride (hdr : header) : Nat := int_mul_to_size_t hdr.width 4

/-- The value stored in the member `size`: `actual_stride * hdr.height`, in `size_t`. -/
def buffer_size (hdr : header) : Nat := size_t (actual_stride hdr * hdr.height)

/-- The local `stride = hdr.width * bytes_per_pixel`, in `size_t`. -/
def stride (hdr : header) : Nat := size_t (hdr.width * bytes_per_pixel hdr)

/-- The four calls `cur = tellg(); seekg(0, end); last = tellg(); seekg(cur)`: the stream
afterwards and the difference `last - cur`. -/
def measure (ifs : ifstream) : ifstream × Int :=
  let c := ifs.tellg
  let e := c.1.seekg_end.tellg
  (e.1.seekg c.2, e.2 - c.2)

/-- The read `a[i]`; outside the allocation the embedding is stuck. -/
def load (a : List Nat) (i : Nat) : Except Stuck Nat :=
  match a[i]? with
  | some v => .ok v
  | none => .error .bounds

/-- The write `a[i] = v`; outside the allocation the embedding is stuck. -/
def store (a : List Nat) (i v : Nat) : Except Stuck (List Nat) :=
  if i < a.length then .ok (a.set i v) else .error .bounds

/-- The call `memcpy(dst + off, src, n)`. -/
def memcpy (dst : List Nat) (off : Nat) (src : List Nat) (n : Nat) : Except Stuck (List Nat) :=
  if off + n ≤ dst.length ∧ n ≤ src.length then
    .ok (dst.take off ++ (src.take n ++ dst.drop (off + n)))
  else .error .bounds

/-- The inner loop `for (j=0, m=0; j < stride; j += 3, m += 4)` of the RGB branch, from given
`j` and `m`: the buffer `data` afterwards. -/
def pixelLoop : Nat → Nat → Nat → Nat → Nat → List Nat → List Nat → Except Stuck (List Nat)
  | 0, _, _, _, _, _, _ => .error .fuel
  | fuel + 1, j, m, stride, l, stride_data, data =>
    if j < stride then do
      let blue ← load stride_data (j + 2)
      let data ← store data (l + m + 0) blue
      let green ← load stride_data (j + 1)
      let data ← store data (l + m + 1) green
      let red ← load stride_data (j + 0)
      let data ← store data (l + m + 2) red
      let data ← store data (l + m + 3) 255
      pixelLoop fuel (j + 3) (m + 4) stride l stride_data data
    else pure data

/-- The body of the outer loop after the `read`: the RGB branch or the `memcpy` branch. -/
def rowBody (hdr : header) (l : Nat) (stride_data data : List Nat) : Except Stuck (List Nat) :=
  if hdr.tupltype = 1 then pixelLoop (stride hdr + 1) 0 0 (stride hdr) l stride_data data
  else memcpy data l stride_data (stride hdr)

/-- The outer loop `for (i=0, l=0; i < expected_size; i += stride, l += actual_stride)`, from
given `i` and `l`: the buffer `data` afterwards. -/
def rowLoop : Nat → Nat → Nat → header → ifstream → List Nat → List Nat →
    Except Stuck (List Nat)
  | 0, _, _, _, _, _, _ => .error .fuel
  | fuel + 1, i, l, hdr, ifs, stride_data, data =>
    if i < expected_size hdr then
      let r := ifs.read stride_data (stride hdr)
      match rowBody hdr l r.2 data with
      | .error e => .error e
      | .ok data => rowLoop fuel (i + stride hdr) (l + actual_stride hdr) hdr r.1 r.2 data
    else .ok data

/-- The code from the label `process_data` to the end of `parse`. The comparison
`expected_size == (last-cur)` is made on the values: the difference is never negative (both
positions are -1, or `cur` precedes `last`) and a file offset is below `2^63`, so converting
it to `size_t` does not change it. -/
def process_data (self : image_pam) (ifs : ifstream) : Except Stuck Outcome :=
  match validate self.hdr with
  | some e => .ok ⟨self, some e⟩
  | none =>
    let m := measure ifs
    if (expected_size self.hdr : Int) = m.2 then
      let data := List.replicate (buffer_size self.hdr) 0
      let stride_data := List.replicate (stride self.hdr) 0
      match rowLoop (expected_size self.hdr + 1) 0 0 self.hdr m.1 stride_data data with
      | .error e => .error e
      | .ok data => .ok ⟨{ self with size := buffer_size self.hdr, data := some data }, none⟩
    else .ok ⟨self, some (.SizeMismatch (expected_size self.hdr) m.2)⟩

/-! ## The entry point -/

/-- The test `some[0] == 'P' && some[1] == '7'` on the buffer after the first `getline`,
which holds the stored characters followed by a NUL. -/
def magic_ok (stored : List Nat) : Bool :=
  (stored ++ [0]).getD 0 0 == 80 && (stored ++ [0]).getD 1 0 == 55

/-- The header as `memset(&hdr, 0, sizeof(hdr))` leaves it. -/
def header.zero : header := ⟨0, 0, 0, 0, 0⟩

/-- The scanner: the first `getline`, the magic test and the `while (true)` loop, on the bytes
of an opened file. The loop gets more fuel than the file has bytes. -/
def scan (bytes : List Nat) : Except Stuck (header × ifstream × Option Failure) :=
  let r := (ifstream.mk bytes 0 false false).getline 50
  if magic_ok r.2 then headerLoop (bytes.length + 1) header.zero r.1
  else .ok (header.zero, r.1, some .MagicMismatch)

/-- The method `image_pam::parse` on an instance `self`; `file` is the content of the named
file, `none` when it cannot be opened. -/
def parse (self : image_pam) (file : Option (List Nat)) : Except Stuck Outcome :=
  let self := { self with data := none, size := 0 }
  match file with
  | none => .ok ⟨self, some .FileOpenError⟩
  | some bytes =>
    match scan bytes with
    | .error e => .error e
    | .ok (hdr, _, some e) => .ok ⟨{ self with hdr := hdr }, some e⟩
    | .ok (hdr, ifs, none) => process_data { self with hdr := hdr } ifs

/-! ## Sample inputs -/

/-- The text of a string literal as bytes. -/
def ascii (s : String) : List Nat := s.toList.map Char.toNat

/-- A fresh instance (`hdr {}`, null `data`). -/
def fresh : image_pam := ⟨header.zero, none, 0⟩

/-- A 1x1 RGB image with payload 10 20 30 (hexadecimal). -/
def sample_rgb : List Nat :=
  ascii "P7\nWIDTH 1\nHEIGHT 1\nDEPTH 3\nMAXVAL 255\nTUPLTYPE RGB\nENDHDR\n" ++ [0x10, 0x20, 0x30]

/-! ## Allocation failure

The two calls `std::make_unique<uint8_t[]>` of `parse` (source lines 107 and 110) throw
`std::bad_alloc` when the heap refuses the request. `parse` above is the method on a heap that
grants both; `parse_alloc` below is the same code with the heap as a parameter. -/

/-- What leaves `parse` when it does not return: the `false` thrown by an assertion, or the
`std::bad_alloc` thrown by an allocation. -/
inductive Exception
  | assertion (e : Failure)
  | bad_alloc
deriving DecidableEq, Repr

/-- The heap as one call of `parse` meets it: `heap k n` tells whether the allocation number
`k` of the call (0 is the bitmap at [107], 1 is the row buffer at [110]), a request of `n`
bytes, is granted. -/
abbrev Heap := Nat → Nat → Bool

/-- The code from the label `process_data` to the end of `parse`, statement by statement:
`size` is assigned at [106], then the bitmap is allocated (value-initialised, so all zero) and
assigned to `data` at [107], then the row buffer is allocated at [110], then the loop runs. -/
def process_data_alloc (heap : Heap) (self : image_pam) (ifs : ifstream) :
    Except Stuck (image_pam × Option Exception) :=
  match validate self.hdr with
  | some e => .ok (self, some (.assertion e))
  | none =>
    let m := measure ifs
    if (expected_size self.hdr : Int) = m.2 then
      let self := { self with size := buffer_size self.hdr }
      if heap 0 self.size then
        let self := { self with data := some (List.replicate self.size 0) }
        if heap 1 (stride self.hdr) then
          let stride_data := List.replicate (stride self.hdr) 0
          match rowLoop (expected_size self.hdr + 1) 0 0 self.hdr m.1 stride_data
              (List.replicate self.size 0) with
          | .error e => .error e
          | .ok data => .ok ({ self with data := some data }, none)
        else .ok (self, some .bad_alloc)
      else .ok (self, some .bad_alloc)
    else .ok (self, some (.assertion (.SizeMismatch (expected_size self.hdr) m.2)))

/-- The method `image_pam::parse` on an instance `self` and a given heap; `file` is the content
of the named file, `none` when it cannot be opened. -/
def parse_alloc (heap : Heap) (self : image_pam) (file : Option (List Nat)) :
    Except Stuck (image_pam × Option Exception) :=
  let self := { self with data := none, size := 0 }
  match file with
  | none => .ok (self, some (.assertion .FileOpenError))
  | some bytes =>
    match scan bytes with
    | .error e => .error e
    | .ok (hdr, _, some e) => .ok ({ self with hdr := hdr }, some (.assertion e))
    | .ok (hdr, ifs, none) => process_data_alloc heap { self with hdr := hdr } ifs

/-! ## Notions used in the statements -/

/-- The byte the RGB branch writes at offset `t` of an output row, from the input row `sd`. -/
def rowByte (sd : List Nat) (t : Nat) : Nat :=
  if t % 4 = 3 then 255 else sd.getD (3 * (t / 4) + 2 - t % 4) 0

/-- Every field of the header fits its `uint16_t`. -/
def header.Small (h : header) : Prop :=
  h.width < 65536 ∧ h.height < 65536 ∧ h.depth < 65536 ∧ h.maxval < 65536 ∧ h.tupltype < 65536

/-- The byte the transcoder writes at offset `q` of its output, from the input `payload`
read at the same row origin. -/
def outByte (hdr : header) (payload : List Nat) (q : Nat) : Nat :=
  if hdr.tupltype = 1 then rowByte payload q else payload.getD q 0


/-- A 1x1 RGB_ALPHA image with payload 10 20 30 80 (hexadecimal). -/
def sample_rgba : List Nat :=
  ascii "P7\nWIDTH 1\nHEIGHT 1\nDEPTH 4\nMAXVAL 255\nTUPLTYPE RGB_ALPHA\nENDHDR\n" ++
    [0x10, 0x20, 0x30, 0x80]

/-- The value of a header field. -/
def header.get (h : header) : Field → Nat
  | .width => h.width
  | .height => h.height
  | .depth => h.depth
  | .maxval => h.maxval
  | .tupltype => h.tupltype

/-- The 1x1 RGB header with MAXVAL 65535 and a 3-byte payload. -/
def sample_maxval : List Nat :=
  ascii "P7\nWIDTH 1\nHEIGHT 1\nDEPTH 3\nMAXVAL 65535\nTUPLTYPE RGB\nENDHDR\n" ++ [1, 2, 3]

/-- A header without a HEIGHT line, with MAXVAL 7 and no payload. -/
def sample_no_height : List Nat :=
  ascii "P7\nWIDTH 1\nDEPTH 3\nMAXVAL 7\nTUPLTYPE RGB\nENDHDR\n"

/-- The stream is good and its unread bytes are `text`. -/
def Reads (s : ifstream) (text : List Nat) : Prop := s.good = true ∧ s.buf.drop s.pos = text

/-- The dispatch loop takes the text for a field line: a field pattern matches it and its
argument is accepted. -/
def isFieldLine (t : List Nat) : Bool :=
  match forRegValues t reg_values with
  | .assign _ _ => true
  | _ => false

/-- The header after the loop body has handled one line of text. -/
def lineEffect (hdr : header) (t : List Nat) : header :=
  match forRegValues t reg_values with
  | .assign f v => hdr.assign f v
  | _ => hdr

/-- The bytes of a sequence of lines, each followed by its newline. -/
def joinLines (lines : List (List Nat)) : List Nat := (lines.map (fun ln => ln ++ [10])).flatten

/-- The first line of a file: its bytes up to the first newline. -/
def firstLine (file : List Nat) : List Nat := file.takeWhile (fun c => c != 10)

/-- A header with all five field lines and no ENDHDR line. -/
def sample_no_endhdr : List Nat :=
  ascii "P7\nWIDTH 1\nHEIGHT 1\nDEPTH 3\nMAXVAL 255\nTUPLTYPE RGB\n"

/-- A line of fifty letters X. -/
def fiftyX : List Nat := List.replicate 50 88

/-- A header whose second line is fifty letters X, with a complete rest. -/
def sample_long_line : List Nat :=
  ascii "P7\nWIDTH 1\n" ++ fiftyX ++ ascii "\nHEIGHT 1\nDEPTH 3\nMAXVAL 255\nTUPLTYPE RGB\nENDHDR\n" ++
    [1, 2, 3]

/-- A header whose second line is the unknown keyword COMMENT. -/
def sample_unknown : List Nat :=
  ascii "P7\nWIDTH 1\nCOMMENT x\nHEIGHT 1\nENDHDR\n"

/-- A header whose TUPLTYPE line names GRAYSCALE. -/
def sample_grayscale : List Nat :=
  ascii "P7\nWIDTH 1\nTUPLTYPE GRAYSCALE\nENDHDR\n"

/-- The 1x1 RGB image of `sample_rgb` with the first line "P7X" instead of "P7". -/
def sample_p7x : List Nat :=
  ascii "P7X\nWIDTH 1\nHEIGHT 1\nDEPTH 3\nMAXVAL 255\nTUPLTYPE RGB\nENDHDR\n" ++ [0x10, 0x20, 0x30]

/-- The keyword of the pattern whose target is the field. -/
def keyword : Field → List Nat
  | .width => WIDTH
  | .height => HEIGHT
  | .depth => DEPTH
  | .maxval => MAXVAL
  | .tupltype => TUPLTYPE

/-- The pattern of `reg_values` whose target is the field. -/
def fieldPattern : Field → Regex
  | .tupltype => .kw_space_any TUPLTYPE
  | f => .kw_space_digits (keyword f)

/-- The 1x1 RGB image of `sample_rgb` with the line "WIDTH 65537". -/
def sample_width_65537 : List Nat :=
  ascii "P7\nWIDTH 65537\nHEIGHT 1\nDEPTH 3\nMAXVAL 255\nTUPLTYPE RGB\nENDHDR\n" ++
    [0x10, 0x20, 0x30]

/-- The 1x1 RGB image of `sample_rgb` with the line "MAXVAL 65791". -/
def sample_maxval_65791 : List Nat :=
  ascii "P7\nWIDTH 1\nHEIGHT 1\nDEPTH 3\nMAXVAL 65791\nTUPLTYPE RGB\nENDHDR\n" ++
    [0x10, 0x20, 0x30]

/-- The 1x1 RGB image of `sample_rgb` with the line "WIDTH 65536". -/
def sample_width_65536 : List Nat :=
  ascii "P7\nWIDTH 65536\nHEIGHT 1\nDEPTH 3\nMAXVAL 255\nTUPLTYPE RGB\nENDHDR\n" ++
    [0x10, 0x20, 0x30]

/-- The 1x1 RGB image of `sample_rgb` with the line "WIDTH 2147483648". -/
def sample_width_2_31 : List Nat :=
  ascii "P7\nWIDTH 2147483648\nHEIGHT 1\nDEPTH 3\nMAXVAL 255\nTUPLTYPE RGB\nENDHDR\n" ++
    [0x10, 0x20, 0x30]

/-- A 20x1 RGB image whose header has the lines "WIDTH 10" and then "WIDTH 20". -/
def sample_two_widths : List Nat :=
  ascii "P7\nWIDTH 10\nWIDTH 20\nHEIGHT 1\nDEPTH 3\nMAXVAL 255\nTUPLTYPE RGB\nENDHDR\n" ++
    List.replicate 60 7

/-- An instance that holds the bitmap of an earlier decode. -/
def used : image_pam := ⟨⟨1, 1, 3, 255, 1⟩, some [0x30, 0x20, 0x10, 0xFF], 4⟩

/-- The header the loop builds from a run of field lines, starting from the zeroed header. -/
def headerOf (lines : List (List Nat)) : header :=
  lines.foldl (fun h ln => lineEffect h (c_str ln)) header.zero

/-- The field a line of text assigns, if the dispatch loop takes it for a field line. -/
def lineField (t : List Nat) : Option Field :=
  match forRegValues t reg_values with
  | .assign f _ => some f
  | _ => none

/-- The output buffer as a function of header and payload: `4 * width * height` bytes, each
given by `outByte`. -/
def bitmap (hdr : header) (payload : List Nat) : List Nat :=
  (List.range (4 * (hdr.width * hdr.height))).map (outByte hdr payload)

/-- The outcome of the code after `process_data` as a function of the header reached and of
the bytes that follow the terminator line. -/
def outcomeOf (hdr : header) (payload : List Nat) : Outcome :=
  match validate hdr with
  | some e => ⟨⟨hdr, none, 0⟩, some e⟩
  | none =>
    if payload.length = bytes_per_pixel hdr * (hdr.width * hdr.height) then
      ⟨⟨hdr, some (bitmap hdr payload), 4 * (hdr.width * hdr.height)⟩, none⟩
    else
      ⟨⟨hdr, none, 0⟩, some (.SizeMismatch (bytes_per_pixel hdr * (hdr.width * hdr.height))
        payload.length)⟩

/-- The 1x1 RGB image of `sample_rgb` with its five field lines in another order. -/
def sample_rgb_reordered : List Nat :=
  ascii "P7\nTUPLTYPE RGB\nMAXVAL 255\nDEPTH 3\nHEIGHT 1\nWIDTH 1\nENDHDR\n" ++ [0x10, 0x20, 0x30]

/-- Two headers agree in every field but depth, and their depths are both zero or both
non-zero. -/
def sameButDepth (h1 h2 : header) : Prop :=
  h1.width = h2.width ∧ h1.height = h2.height ∧ h1.maxval = h2.maxval ∧
    h1.tupltype = h2.tupltype ∧ (h1.depth = 0 ↔ h2.depth = 0)

/-- A 1x1 RGB image whose header says DEPTH 1. -/
def sample_depth_1 : List Nat :=
  ascii "P7\nWIDTH 1\nHEIGHT 1\nDEPTH 1\nMAXVAL 255\nTUPLTYPE RGB\nENDHDR\n" ++ [0x10, 0x20, 0x30]

/-- A 2x2 RGB_ALPHA image whose 16 payload bytes spell "WIDTH 9", newline, "ENDHDR", newline,
"x". -/
def sample_payload_text : List Nat :=
  ascii "P7\nWIDTH 2\nHEIGHT 2\nDEPTH 4\nMAXVAL 255\nTUPLTYPE RGB_ALPHA\nENDHDR\n" ++
    ascii "WIDTH 9\nENDHDR\nx"

/-- The 1x1 RGB image of `sample_rgb` with the given text as its WIDTH line. -/
def sample_with_line (ln : List Nat) : List Nat :=
  ascii "P7\n" ++ ln ++ ascii "\nHEIGHT 1\nDEPTH 3\nMAXVAL 255\nTUPLTYPE RGB\nENDHDR\n" ++
    [0x10, 0x20, 0x30]

/-- A WIDTH line of 51 characters: the value 1 padded with leading zeros. -/
def longWidthLine : List Nat := ascii "WIDTH " ++ List.replicate 44 48 ++ [49]

/-- A first line of 60 letters X. -/
def sixtyX : List Nat := List.replicate 60 88

end ImagePam

/-! # Sort visualizer (`graphics/sort_visualizer.cpp`)

The method `App::sort` and the two members it works on. Window, drawing and logging code is
left out; `build_array`, which refills the array with random numbers, enters as the array it
leaves. -/

namespace SortVisualizer

/-- The state `App::sort` works on: the member `unsorted` (a `std::array<int, 50>`) and the
static local `i` of `sort`. -/
structure App where
  unsorted : List Int
  i : Nat
deriving DecidableEq, Repr

/-- The loop `for (unsigned j=0; j < unsorted.size(); j++)` of `sort`, from a given `j`: it
breaks when `i == j` and swaps `unsorted[i]` with `unsorted[j]` when `unsorted[j]` is the
greater. One unit of fuel is spent per test of the loop condition; an index outside the array
is stuck. -/
def loop : Nat → Nat → Nat → List Int → Except ImagePam.Stuck (List Int)
  | 0, _, _, _ => .error .fuel
  | fuel + 1, j, i, a =>
    if j < 50 then
      if i = j then .ok a
      else
        match a[j]?, a[i]? with
        | some x, some y =>
          if x > y then loop fuel (j + 1) i ((a.set i x).set j y)
          else loop fuel (j + 1) i a
        | _, _ => .error .bounds
    else .ok a

/-- The method `App::sort`. When `i` has reached the size of the array the pass counter is
reset and `build_array` refills the array: `rebuilt` is the array it leaves. -/
def App.sort (app : App) (rebuilt : List Int) : Except ImagePam.Stuck App :=
  let app1 : App := if app.i ≥ 50 then ⟨rebuilt, 0⟩ else app
  match loop 51 0 app1.i app1.unsorted with
  | .error e => .error e
  | .ok a => .ok ⟨a, (app1.i + 1) % 2 ^ 32⟩

/-- The state after `k` calls of `sort`; `rebuilt n` is what `build_array` would leave if it
ran in call `n`. -/
def calls : Nat → App → (Nat → List Int) → Except ImagePam.Stuck App
  | 0, app, _ => .ok app
  | k + 1, app, rebuilt =>
    match calls k app rebuilt with
    | .error e => .error e
    | .ok app1 => app1.sort (rebuilt k)

/-- The array 5, 4, ..., 1 repeated ten times. -/
def descending : List Int :=
  (List.replicate 10 [5, 4, 3, 2, 1]).flatten

end SortVisualizer

namespace ImagePam

/-- The decimal numeral of `v` as bytes, most significant digit first, without leading
zeros. -/
def numeral (v : Nat) : List Nat := (Nat.digits 10 v).reverse.map (fun d => d + 48)

/-- What an `Outcome` of `parse` is called in the terms of `parse_alloc`. -/
def Outcome.withHeap (o : Outcome) : image_pam × Option Exception :=
  (o.self, o.thrown.map Exception.assertion)

/-- A heap that grants every request. -/
def plenty : Heap := fun _ _ => true

/-- A heap that grants the bitmap and refuses the row buffer. -/
def no_row_buffer : Heap := fun k _ => k == 0

/-- A heap that refuses the bitmap. -/
def no_bitmap : Heap := fun k _ => k != 0

/-- The WIDTH line "WIDTH 1", a NUL byte, then "junk". -/
def widthNulJunk : List Nat := ascii "WIDTH 1" ++ 0 :: ascii "junk"

/-! ## Transcoder lemmas -/

theorem load_eq {a : List Nat} {i : Nat} (h : i < a.length) : load a i = .ok (a.getD i 0) := by
  simp [load, List.getD, List.getElem?_eq_getElem h]

theorem store_eq {a : List Nat} {i : Nat} (v : Nat) (h : i < a.length) :
    store a i v = .ok (a.set i v) := by
  simp [store, h]

/-- One pass of the body of the inner loop. -/
theorem pixelLoop_step (fuel j m stride l : Nat) (sd data : List Nat)
    (hj : j < stride) (hsd : j + 2 < sd.length) (hd : l + m + 3 < data.length) :
    pixelLoop (fuel + 1) j m stride l sd data =
      pixelLoop fuel (j + 3) (m + 4) stride l sd
        ((((data.set (l + m) (sd.getD (j + 2) 0)).set (l + m + 1) (sd.getD (j + 1) 0)).set
          (l + m + 2) (sd.getD j 0)).set (l + m + 3) 255) := by
  rw [pixelLoop]
  rw [if_pos hj, load_eq hsd, load_eq (show j + 1 < sd.length by omega),
    load_eq (show j + 0 < sd.length by omega)]
  simp only [Nat.add_zero, bind, Except.bind]
  rw [store_eq _ (show l + m < data.length by omega)]
  simp only []
  rw [store_eq _ (show l + m + 1 < (data.set (l + m) _).length by simp; omega)]
  simp only []
  rw [store_eq _ (by simp; omega)]
  simp only []
  rw [store_eq _ (by simp; omega)]

theorem pixelLoop_spec (n : Nat) : ∀ (k fuel l : Nat) (sd data : List Nat),
    n < fuel → 3 * (k + n) ≤ sd.length → l + 4 * (k + n) ≤ data.length →
    ∃ out, pixelLoop fuel (3 * k) (4 * k) (3 * (k + n)) l sd data = .ok out ∧
      out.length = data.length ∧
      ∀ q, out[q]? = if l + 4 * k ≤ q ∧ q < l + 4 * (k + n) then some (rowByte sd (q - l))
        else data[q]? := by
  induction n with
  | zero =>
    intro k fuel l sd data hf _ _
    obtain ⟨f, rfl⟩ : ∃ f, fuel = f + 1 := ⟨fuel - 1, by omega⟩
    refine ⟨data, ?_, rfl, ?_⟩
    · rw [pixelLoop]; simp [pure, Except.pure]
    · intro q
      rw [if_neg (by omega)]
  | succ n ih =>
    intro k fuel l sd data hf hsd hd
    obtain ⟨f, rfl⟩ : ∃ f, fuel = f + 1 := ⟨fuel - 1, by omega⟩
    rw [pixelLoop_step f (3 * k) (4 * k) _ l sd data (by omega) (by omega) (by omega)]
    have e1 : 3 * k + 3 = 3 * (k + 1) := by ring
    have e2 : 4 * k + 4 = 4 * (k + 1) := by ring
    have e3 : 3 * (k + (n + 1)) = 3 * (k + 1 + n) := by ring
    rw [e1, e2, e3]
    generalize hD : ((((data.set (l + 4 * k) (sd.getD (3 * k + 2) 0)).set (l + 4 * k + 1)
      (sd.getD (3 * k + 1) 0)).set (l + 4 * k + 2) (sd.getD (3 * k) 0)).set
      (l + 4 * k + 3) 255) = D
    have hDlen : D.length = data.length := by subst hD; simp
    obtain ⟨out, ho, hlen, hq⟩ := ih (k + 1) f l sd D (by omega) (by omega) (by omega)
    refine ⟨out, ho, by omega, ?_⟩
    intro q
    rw [hq q]
    by_cases h1 : l + 4 * (k + 1) ≤ q ∧ q < l + 4 * (k + 1 + n)
    · rw [if_pos h1, if_pos (by omega)]
    · rw [if_neg h1]
      subst hD
      simp only [List.getElem?_set, List.length_set]
      by_cases h2 : l + 4 * k ≤ q ∧ q < l + 4 * (k + (n + 1))
      · rw [if_pos h2]
        have hq4 : (q - l) / 4 = k := by omega
        obtain h | h | h | h : q = l + 4 * k ∨ q = l + 4 * k + 1 ∨ q = l + 4 * k + 2 ∨
            q = l + 4 * k + 3 := by omega
        · subst h
          have hm : (l + 4 * k - l) % 4 = 0 := by omega
          simp [rowByte, hq4, hm]
          omega
        · subst h
          have hm : (l + 4 * k + 1 - l) % 4 = 1 := by omega
          simp [rowByte, hq4, hm]
          omega
        · subst h
          have hm : (l + 4 * k + 2 - l) % 4 = 2 := by omega
          simp [rowByte, hq4, hm]
          omega
        · subst h
          have hm : (l + 4 * k + 3 - l) % 4 = 3 := by omega
          simp [rowByte, hq4, hm]
          omega
      · rw [if_neg h2, if_neg (by omega), if_neg (by omega), if_neg (by omega),
          if_neg (by omega)]

/-! ## Size arithmetic -/

theorem bytes_per_pixel_cases (hdr : header) :
    bytes_per_pixel hdr = 3 ∧ hdr.tupltype = 1 ∨ bytes_per_pixel hdr = 4 ∧ hdr.tupltype ≠ 1 := by
  unfold bytes_per_pixel
  split <;> simp_all

theorem stride_eq (hdr : header) (hs : hdr.Small) :
    stride hdr = bytes_per_pixel hdr * hdr.width := by
  obtain ⟨hw, -⟩ := hs
  unfold stride size_t
  rcases bytes_per_pixel_cases hdr with ⟨h, -⟩ | ⟨h, -⟩ <;> rw [h] <;> omega

theorem actual_stride_eq (hdr : header) (hs : hdr.Small) : actual_stride hdr = 4 * hdr.width := by
  obtain ⟨hw, -⟩ := hs
  unfold actual_stride int_mul_to_size_t
  simp only
  split <;> omega

theorem mul_small (hdr : header) (hs : hdr.Small) : hdr.width * hdr.height ≤ 65535 * 65535 :=
  Nat.mul_le_mul (by have := hs.1; omega) (by have := hs.2.1; omega)

theorem expected_size_eq (hdr : header) (hs : hdr.Small) :
    expected_size hdr = bytes_per_pixel hdr * (hdr.width * hdr.height) := by
  have hm := mul_small hdr hs
  obtain ⟨hw, -⟩ := hs
  unfold expected_size size_t
  rcases bytes_per_pixel_cases hdr with ⟨h, -⟩ | ⟨h, -⟩ <;> rw [h]
  · rw [Nat.mod_eq_of_lt (show 3 * hdr.width < 2 ^ 64 by omega), Nat.mul_assoc]
    omega
  · rw [Nat.mod_eq_of_lt (show 4 * hdr.width < 2 ^ 64 by omega), Nat.mul_assoc]
    omega

theorem buffer_size_eq (hdr : header) (hs : hdr.Small) :
    buffer_size hdr = 4 * (hdr.width * hdr.height) := by
  have hm := mul_small hdr hs
  unfold buffer_size size_t
  rw [actual_stride_eq hdr hs, Nat.mul_assoc]
  omega

/-! ## The row loop -/

theorem rowBody_spec (hdr : header) (hs : hdr.Small) (l : Nat) (sd data : List Nat)
    (hsd : sd.length = bytes_per_pixel hdr * hdr.width)
    (hd : l + 4 * hdr.width ≤ data.length) :
    ∃ out, rowBody hdr l sd data = .ok out ∧ out.length = data.length ∧
      ∀ q, out[q]? = if l ≤ q ∧ q < l + 4 * hdr.width then some (outByte hdr sd (q - l))
        else data[q]? := by
  unfold rowBody
  rw [stride_eq hdr hs]
  rcases bytes_per_pixel_cases hdr with ⟨hb, ht⟩ | ⟨hb, ht⟩
  · rw [if_pos ht, hb]
    rw [hb] at hsd
    obtain ⟨out, ho, hlen, hq⟩ := pixelLoop_spec hdr.width 0 (3 * hdr.width + 1) l sd data
      (by omega) (by omega) (by omega)
    simp only [Nat.mul_zero, Nat.zero_add, Nat.add_zero] at ho hq
    refine ⟨out, ho, hlen, ?_⟩
    intro q
    rw [hq q]
    simp [outByte, ht]
  · rw [if_neg ht, hb]
    rw [hb] at hsd
    unfold memcpy
    rw [if_pos ⟨by omega, by omega⟩]
    refine ⟨_, rfl, ?_, ?_⟩
    · simp only [List.length_append, List.length_take, List.length_drop]
      omega
    · intro q
      have hout : outByte hdr sd (q - l) = sd.getD (q - l) 0 := by simp [outByte, ht]
      rw [hout, List.take_of_length_le (by omega : sd.length ≤ 4 * hdr.width)]
      simp only [List.getElem?_append, List.length_take, List.getElem?_take,
        List.getElem?_drop]
      by_cases h1 : q < l
      · rw [if_pos (by omega), if_pos h1, if_neg (by omega)]
      · rw [if_neg (by omega)]
        by_cases h2 : q < l + 4 * hdr.width
        · rw [if_pos (by omega), if_pos ⟨by omega, h2⟩]
          have h3 : q - min l data.length < sd.length := by omega
          rw [List.getD_eq_getElem?_getD, show q - min l data.length = q - l by omega]
          rw [show q - min l data.length = q - l by omega] at h3
          rw [List.getElem?_eq_getElem h3]
          rfl
        · rw [if_neg (by omega), if_neg (by omega)]
          congr 1
          omega

theorem getD_window (buf rest : List Nat) (p0 off len j : Nat) (hj : j < len)
    (hlen : p0 + off + len ≤ buf.length) :
    (((buf.drop (p0 + off)).take len) ++ rest).getD j 0 = (buf.drop p0).getD (off + j) 0 := by
  simp only [List.getD_eq_getElem?_getD]
  rw [List.getElem?_append_left (by simp only [List.length_take, List.length_drop]; omega),
    List.getElem?_take_of_lt hj, List.getElem?_drop, List.getElem?_drop, Nat.add_assoc]

theorem read_row (ifs : ifstream) (sd : List Nat) (n : Nat) (hg : ifs.good = true)
    (hn : ifs.pos + n ≤ ifs.buf.length) (hsd : sd.length = n) :
    ifs.read sd n = ({ ifs with pos := ifs.pos + n },
      (ifs.buf.drop ifs.pos).take n ++ sd.drop n) := by
  have hl : ((ifs.buf.drop ifs.pos).take n).length = n := by
    simp only [List.length_take, List.length_drop]; omega
  unfold ifstream.read
  rw [if_pos hg]
  simp only [hl, Nat.lt_irrefl, if_false]

theorem rowLoop_spec (hdr : header) (hs : hdr.Small) (hw : 0 < hdr.width) (p0 : Nat) (n : Nat) :
    ∀ (a fuel : Nat) (ifs : ifstream) (sd data : List Nat),
    n < fuel → hdr.width * hdr.height = a + n * hdr.width →
    ifs.good = true →
    ifs.buf.length = p0 + bytes_per_pixel hdr * (hdr.width * hdr.height) →
    ifs.pos = p0 + bytes_per_pixel hdr * a →
    sd.length = bytes_per_pixel hdr * hdr.width →
    data.length = 4 * (hdr.width * hdr.height) →
    ∃ out, rowLoop fuel (bytes_per_pixel hdr * a) (4 * a) hdr ifs sd data = .ok out ∧
      out.length = data.length ∧
      ∀ q, out[q]? = if 4 * a ≤ q ∧ q < 4 * (hdr.width * hdr.height) then
        some (outByte hdr (ifs.buf.drop p0) q) else data[q]? := by
  induction n with
  | zero =>
    intro a fuel ifs sd data hf hT _ _ _ _ _
    obtain ⟨f, rfl⟩ : ∃ f, fuel = f + 1 := ⟨fuel - 1, by omega⟩
    refine ⟨data, ?_, rfl, ?_⟩
    · rw [rowLoop, expected_size_eq hdr hs, hT]
      simp
    · intro q
      rw [if_neg (by omega)]
  | succ n ih =>
    intro a fuel ifs sd data hf hT hg hbuf hpos hsd hdata
    obtain ⟨f, rfl⟩ : ∃ f, fuel = f + 1 := ⟨fuel - 1, by omega⟩
    have hT2 : hdr.width * hdr.height = a + hdr.width + n * hdr.width := by
      rw [hT, Nat.succ_mul]; omega
    have hB : bytes_per_pixel hdr = 3 ∨ bytes_per_pixel hdr = 4 := by
      rcases bytes_per_pixel_cases hdr with ⟨h, -⟩ | ⟨h, -⟩ <;> simp [h]
    have hBW : bytes_per_pixel hdr * (hdr.width * hdr.height) =
        bytes_per_pixel hdr * a + bytes_per_pixel hdr * hdr.width +
          bytes_per_pixel hdr * (n * hdr.width) := by
      rw [hT2]; ring
    have hlt : bytes_per_pixel hdr * a < bytes_per_pixel hdr * (hdr.width * hdr.height) := by
      rw [hBW]
      have : 0 < bytes_per_pixel hdr * hdr.width := Nat.mul_pos (by omega) hw
      omega
    rw [rowLoop, if_pos (by rw [expected_size_eq hdr hs]; exact hlt), stride_eq hdr hs,
      actual_stride_eq hdr hs]
    rw [read_row ifs sd _ hg (by rw [hbuf, hpos, hBW]; omega) hsd]
    simp only
    obtain ⟨out1, ho1, hlen1, hq1⟩ := rowBody_spec hdr hs (4 * a)
      ((ifs.buf.drop ifs.pos).take (bytes_per_pixel hdr * hdr.width) ++
        sd.drop (bytes_per_pixel hdr * hdr.width)) data
      (by simp only [List.length_append, List.length_take, List.length_drop]
          rw [hbuf, hpos, hBW]; omega)
      (by rw [hdata, hT2]; omega)
    rw [ho1]
    simp only
    rw [← Nat.mul_add, ← Nat.mul_add]
    obtain ⟨out, ho, hlen, hq⟩ := ih (a + hdr.width) f
      { ifs with pos := ifs.pos + bytes_per_pixel hdr * hdr.width }
      ((ifs.buf.drop ifs.pos).take (bytes_per_pixel hdr * hdr.width) ++
        sd.drop (bytes_per_pixel hdr * hdr.width)) out1 (by omega) hT2
      (by simpa [ifstream.good] using hg) hbuf
      (by simp only; rw [hpos, Nat.mul_add]; omega)
      (by simp only [List.length_append, List.length_take, List.length_drop]
          rw [hbuf, hpos, hBW]; omega)
      (by omega)
    refine ⟨out, ho, by omega, ?_⟩
    intro q
    rw [hq q, hq1 q]
    by_cases h1 : 4 * (a + hdr.width) ≤ q ∧ q < 4 * (hdr.width * hdr.height)
    · rw [if_pos h1, if_pos (by omega)]
    · rw [if_neg h1]
      by_cases h2 : 4 * a ≤ q ∧ q < 4 * a + 4 * hdr.width
      · rw [if_pos h2, if_pos (by rw [hT2]; omega)]
        congr 1
        rw [hpos]
        unfold outByte
        rcases bytes_per_pixel_cases hdr with ⟨hb, ht⟩ | ⟨hb, ht⟩
        · rw [if_pos ht, if_pos ht, hb]
          unfold rowByte
          have hm : (q - 4 * a) % 4 = q % 4 := by omega
          rw [hm]
          split
          · rfl
          · rw [getD_window _ _ _ _ _ _ (by omega) (by rw [hbuf, hBW, hb]; omega)]
            congr 1
            omega
        · rw [if_neg ht, if_neg ht, hb]
          rw [getD_window _ _ _ _ _ _ (by omega) (by rw [hbuf, hBW, hb]; omega)]
          congr 1
          omega
      · rw [if_neg h2, if_neg (by rw [hT2] at h1 ⊢; omega)]
/-! ## The stream -/

/-- A line that `getline` delivers without setting a state bit ends at a newline. -/
theorem getlineChars_good (rest : List Nat) : ∀ (room : Nat),
    (getlineChars rest room).eof = false → (getlineChars rest room).fail = false →
    rest = (getlineChars rest room).stored ++ 10 :: rest.drop (getlineChars rest room).gcount ∧
      10 ∉ (getlineChars rest room).stored ∧
      (getlineChars rest room).gcount = (getlineChars rest room).stored.length + 1 := by
  induction rest with
  | nil => intro room h; simp [getlineChars] at h
  | cons c cs ih =>
    intro room he hf
    unfold getlineChars at he hf ⊢
    by_cases hc : c = 10
    · simp [hc]
    · simp only [hc, if_false] at he hf ⊢
      cases room with
      | zero => simp at hf
      | succ room =>
        simp only at he hf ⊢
        obtain ⟨h1, h2, h3⟩ := ih room he hf
        refine ⟨?_, ?_, ?_⟩
        · simp only [List.cons_append, List.drop_succ_cons]
          rw [← h1]
        · simp only [List.mem_cons, not_or]
          exact ⟨fun h => hc h.symm, h2⟩
        · simp [h3]

theorem getlineChars_gcount_le (rest : List Nat) : ∀ (room : Nat),
    (getlineChars rest room).gcount ≤ rest.length := by
  induction rest with
  | nil => intro room; simp [getlineChars]
  | cons c cs ih =>
    intro room
    unfold getlineChars
    by_cases hc : c = 10
    · simp [hc]
    · simp only [hc, if_false]
      cases room with
      | zero => simp
      | succ room => simpa using ih room

/-- When `getline` meets the end of the file it has consumed all of it. -/
theorem getlineChars_eof (rest : List Nat) : ∀ (room : Nat),
    (getlineChars rest room).eof = true → (getlineChars rest room).gcount = rest.length := by
  induction rest with
  | nil => intro room _; simp [getlineChars]
  | cons c cs ih =>
    intro room
    unfold getlineChars
    by_cases hc : c = 10
    · simp [hc]
    · simp only [hc, if_false]
      cases room with
      | zero => simp
      | succ room => intro h; simpa using ih room h

theorem getline_buf (s : ifstream) (count : Nat) : (s.getline count).1.buf = s.buf := by
  unfold ifstream.getline
  split <;> rfl

theorem getline_pos_le (s : ifstream) (count : Nat) (h : s.pos ≤ s.buf.length) :
    (s.getline count).1.pos ≤ s.buf.length := by
  unfold ifstream.getline
  split
  · have := getlineChars_gcount_le (s.buf.drop s.pos) (count - 1)
    simp only [List.length_drop] at this
    simp only
    omega
  · exact h

theorem getline_not_good (s : ifstream) (count : Nat) (h : s.good = false) :
    (s.getline count).1.fail = true := by
  simp [ifstream.getline, h, ifstream.fail]

/-- A successful `getline` on a stream that stays good read a whole line and its newline. -/
theorem getline_good (s : ifstream) (count : Nat) (hp : s.pos ≤ s.buf.length)
    (hg : (s.getline count).1.good = true) :
    s.buf.take (s.getline count).1.pos = s.buf.take s.pos ++ ((s.getline count).2 ++ [10]) ∧
      10 ∉ (s.getline count).2 := by
  unfold ifstream.getline at hg ⊢
  by_cases hs : s.good = true
  · simp only [hs, if_true] at hg ⊢
    simp only [ifstream.good, Bool.and_eq_true, Bool.not_eq_true', Bool.or_eq_false_iff] at hg
    obtain ⟨h1, h2, h3⟩ := getlineChars_good (s.buf.drop s.pos) (count - 1) hg.1 hg.2.1
    refine ⟨?_, h2⟩
    generalize getlineChars (s.buf.drop s.pos) (count - 1) = e at h1 h2 h3 ⊢
    have hb : s.buf = s.buf.take s.pos ++ (e.stored ++ 10 :: (s.buf.drop s.pos).drop e.gcount) := by
      rw [← h1, List.take_append_drop]
    have hl : (s.buf.take s.pos).length = s.pos := by simp; omega
    conv_lhs => rw [hb]
    rw [List.take_append_eq_append_take, List.take_of_length_le (by omega), hl,
      show s.pos + e.gcount - s.pos = e.stored.length + 1 by omega]
    congr 1
    rw [List.take_append_eq_append_take, List.take_of_length_le (by omega)]
    simp
  · rw [if_neg hs] at hg
    simp [ifstream.good] at hg

theorem getline_eof (s : ifstream) (count : Nat) (hp : s.pos ≤ s.buf.length)
    (hs : s.eofbit = true → s.pos = s.buf.length)
    (he : (s.getline count).1.eofbit = true) : (s.getline count).1.pos = s.buf.length := by
  unfold ifstream.getline at he ⊢
  by_cases hg : s.good = true
  · simp only [hg, if_true] at he ⊢
    have := getlineChars_eof _ _ he
    simp only [List.length_drop] at this
    omega
  · simp only [hg] at he ⊢
    exact hs he
/-! ## The header loop -/

theorem onMatch_ne_goto (line arg : List Nat) (f : Field) :
    onMatch line arg f ≠ .goto_process_data := by
  unfold onMatch
  split
  · split
    · simp
    · split <;> simp
  · split <;> simp

theorem onMatch_ne_no_match (line arg : List Nat) (f : Field) :
    onMatch line arg f ≠ .no_match := by
  unfold onMatch
  split
  · split
    · simp
    · split <;> simp
  · split <;> simp

/-- Only the text ENDHDR sends control to `process_data`. -/
theorem forRegValues_goto (t : List Nat) (h : forRegValues t reg_values = .goto_process_data) :
    t = ENDHDR := by
  simp only [reg_values, forRegValues] at h
  repeat' split at h
  all_goals first
    | exact absurd h (onMatch_ne_goto _ _ _)
    | skip
  all_goals (simp only [regex_match] at *; split at * <;> simp_all)

theorem assign_small (hdr : header) (f : Field) (v : Nat) (hs : hdr.Small) :
    (hdr.assign f v).Small := by
  obtain ⟨h1, h2, h3, h4, h5⟩ := hs
  have hv : uint16_t v < 65536 := Nat.mod_lt _ (by decide)
  cases f <;> exact ⟨by first | exact hv | assumption, by first | exact hv | assumption,
    by first | exact hv | assumption, by first | exact hv | assumption,
    by first | exact hv | assumption⟩

theorem headerLoop_succ (fuel : Nat) (hdr : header) (s : ifstream) :
    headerLoop (fuel + 1) hdr s =
      if (s.getline 50).1.fail then .ok (hdr, (s.getline 50).1, some .UnexpectedEof)
      else
        match forRegValues (c_str (s.getline 50).2) reg_values with
        | .goto_process_data => .ok (hdr, (s.getline 50).1, none)
        | .assign f v => headerLoop fuel (hdr.assign f v) (s.getline 50).1
        | .threw e => .ok (hdr, (s.getline 50).1, some e)
        | .no_match => .ok (hdr, (s.getline 50).1,
            some (.HeaderSyntaxError (c_str (s.getline 50).2))) := by
  rw [headerLoop]

/-- What holds when the header loop hands over to `process_data`. -/
theorem headerLoop_inv (fuel : Nat) : ∀ (hdr : header) (s : ifstream) (hdr1 : header)
    (s1 : ifstream), headerLoop fuel hdr s = .ok (hdr1, s1, none) →
    s.pos ≤ s.buf.length → (s.eofbit = true → s.pos = s.buf.length) → hdr.Small →
    s1.buf = s.buf ∧ s1.fail = false ∧ s1.pos ≤ s.buf.length ∧ hdr1.Small ∧
      (s1.eofbit = true → s1.pos = s.buf.length) ∧
      (s1.good = true → ∃ head line, s.buf.take s1.pos = head ++ (line ++ [10]) ∧
        c_str line = ENDHDR ∧ 10 ∉ line) := by
  induction fuel with
  | zero => intro hdr s hdr1 s1 h; simp [headerLoop] at h
  | succ fuel ih =>
    intro hdr s hdr1 s1 h hp he hs
    rw [headerLoop_succ] at h
    by_cases hf : (s.getline 50).1.fail = true
    · rw [if_pos hf] at h
      simp at h
    · rw [if_neg hf] at h
      cases hA : forRegValues (c_str (s.getline 50).2) reg_values with
      | goto_process_data =>
        rw [hA] at h
        simp only [Except.ok.injEq, Prod.mk.injEq] at h
        obtain ⟨rfl, rfl, -⟩ := h
        refine ⟨getline_buf s 50, by simpa using hf, getline_pos_le s 50 hp, hs,
          getline_eof s 50 hp he, ?_⟩
        intro hg
        obtain ⟨h1, h2⟩ := getline_good s 50 hp hg
        exact ⟨_, _, h1, forRegValues_goto _ hA, h2⟩
      | assign f v =>
        rw [hA] at h
        simp only at h
        obtain ⟨h1, h2, h3, h4, h5, h6⟩ := ih _ _ _ _ h
          (by rw [getline_buf]; exact getline_pos_le s 50 hp)
          (by rw [getline_buf]; exact getline_eof s 50 hp he) (assign_small hdr f v hs)
        rw [getline_buf] at h1 h3 h5 h6
        exact ⟨h1, h2, h3, h4, h5, h6⟩
      | threw e => rw [hA] at h; simp at h
      | no_match => rw [hA] at h; simp at h
/-! ## Validation, the size check and the whole transcoder -/

theorem validate_none (hdr : header) (h : validate hdr = none) :
    hdr.width ≠ 0 ∧ hdr.height ≠ 0 ∧ hdr.depth ≠ 0 ∧ hdr.maxval = 255 ∧ hdr.tupltype ≠ 0 := by
  have h1 : hdr.width ≠ 0 := by intro h0; simp [validate, h0] at h
  have h2 : hdr.height ≠ 0 := by intro h0; simp [validate, h0, h1] at h
  have h3 : hdr.depth ≠ 0 := by intro h0; simp [validate, h0, h1, h2] at h
  have h4 : hdr.maxval ≠ 0 := by intro h0; simp [validate, h0, h1, h2, h3] at h
  have h5 : hdr.tupltype ≠ 0 := by intro h0; simp [validate, h0, h1, h2, h3, h4] at h
  have h6 : hdr.maxval = 255 := by
    by_contra h0
    simp [validate, h0, h1, h2, h3, h4, h5] at h
  exact ⟨h1, h2, h3, h6, h5⟩

theorem measure_good (s : ifstream) (hg : s.good = true) :
    measure s = (s, (s.buf.length : Int) - s.pos) := by
  obtain ⟨buf, pos, e, f⟩ := s
  simp only [ifstream.good, Bool.and_eq_true, Bool.not_eq_true'] at hg
  obtain ⟨rfl, rfl⟩ := hg
  simp [measure, ifstream.tellg, ifstream.seekg_end, ifstream.seekg, ifstream.good]

theorem measure_not_good (s : ifstream) (hg : s.good = false) : (measure s).2 = 0 := by
  obtain ⟨buf, pos, e, f⟩ := s
  simp only [measure, ifstream.tellg, hg]
  simp [ifstream.seekg_end, ifstream.good]

theorem expected_size_pos (hdr : header) (hs : hdr.Small) (hv : validate hdr = none) :
    hdr.height ≤ expected_size hdr ∧ 0 < expected_size hdr := by
  obtain ⟨hw, hh, -⟩ := validate_none hdr hv
  rw [expected_size_eq hdr hs]
  have h1 : hdr.height ≤ hdr.width * hdr.height := Nat.le_mul_of_pos_left _ (by omega)
  have h2 : hdr.width * hdr.height ≤ bytes_per_pixel hdr * (hdr.width * hdr.height) :=
    Nat.le_mul_of_pos_left _ (by rcases bytes_per_pixel_cases hdr with ⟨h, -⟩ | ⟨h, -⟩ <;> omega)
  omega

/-- The transcoder on a validated header and a payload of the expected size: it is never
stuck, and every byte of its output is determined by the payload. -/
theorem transcode_spec (hdr : header) (hs : hdr.Small) (hv : validate hdr = none)
    (ifs : ifstream) (hg : ifs.good = true)
    (hlen : ifs.buf.length = ifs.pos + bytes_per_pixel hdr * (hdr.width * hdr.height)) :
    ∃ out, rowLoop (expected_size hdr + 1) 0 0 hdr ifs (List.replicate (stride hdr) 0)
        (List.replicate (buffer_size hdr) 0) = .ok out ∧
      out.length = 4 * (hdr.width * hdr.height) ∧
      ∀ q, q < 4 * (hdr.width * hdr.height) →
        out[q]? = some (outByte hdr (ifs.buf.drop ifs.pos) q) := by
  obtain ⟨hw, hh, -⟩ := validate_none hdr hv
  obtain ⟨out, ho, hl, hq⟩ := rowLoop_spec hdr hs (by omega) ifs.pos hdr.height 0
    (expected_size hdr + 1) ifs (List.replicate (stride hdr) 0)
    (List.replicate (buffer_size hdr) 0) (by have := expected_size_pos hdr hs hv; omega)
    (by rw [Nat.zero_add, Nat.mul_comm]) hg hlen (by simp)
    (by simp [stride_eq hdr hs]) (by simp [buffer_size_eq hdr hs])
  simp only [Nat.mul_zero] at ho hq
  refine ⟨out, ho, by simpa [buffer_size_eq hdr hs] using hl, ?_⟩
  intro q hlt
  rw [hq q, if_pos ⟨Nat.zero_le _, hlt⟩]

/-- The code after `process_data` on a validated header: it returns normally exactly when the
stream is good and holds the expected number of bytes, and throws at the size check otherwise. -/
theorem process_data_spec (self : image_pam) (ifs : ifstream) (hs : self.hdr.Small)
    (hv : validate self.hdr = none) :
    (ifs.good = true ∧
        ifs.buf.length = ifs.pos + bytes_per_pixel self.hdr * (self.hdr.width * self.hdr.height) ∧
        ∃ out, process_data self ifs =
            .ok ⟨⟨self.hdr, some out, 4 * (self.hdr.width * self.hdr.height)⟩, none⟩ ∧
          out.length = 4 * (self.hdr.width * self.hdr.height) ∧
          ∀ q, q < 4 * (self.hdr.width * self.hdr.height) →
            out[q]? = some (outByte self.hdr (ifs.buf.drop ifs.pos) q)) ∨
      (¬ (ifs.good = true ∧ ifs.buf.length =
          ifs.pos + bytes_per_pixel self.hdr * (self.hdr.width * self.hdr.height)) ∧
        process_data self ifs =
          .ok ⟨self, some (.SizeMismatch (expected_size self.hdr) (measure ifs).2)⟩) := by
  have hpos := expected_size_pos self.hdr hs hv
  by_cases hg : ifs.good = true
  · by_cases hl : ifs.buf.length =
        ifs.pos + bytes_per_pixel self.hdr * (self.hdr.width * self.hdr.height)
    · left
      refine ⟨hg, hl, ?_⟩
      obtain ⟨out, ho, hlen, hq⟩ := transcode_spec self.hdr hs hv ifs hg hl
      refine ⟨out, ?_, hlen, hq⟩
      unfold process_data
      rw [hv]
      simp only
      rw [measure_good ifs hg, if_pos (by rw [expected_size_eq _ hs, hl]; push_cast; ring)]
      simp only
      rw [ho, buffer_size_eq _ hs]
    · right
      refine ⟨fun h => hl h.2, ?_⟩
      unfold process_data
      rw [hv]
      simp only
      rw [if_neg]
      rw [measure_good ifs hg, expected_size_eq _ hs]
      intro h
      apply hl
      have : (ifs.buf.length : Int) = ifs.pos +
          bytes_per_pixel self.hdr * (self.hdr.width * self.hdr.height) := by
        simp only at h; push_cast at h; omega
      exact_mod_cast this
  · right
    refine ⟨fun h => hg h.1, ?_⟩
    unfold process_data
    rw [hv]
    simp only
    rw [if_neg]
    rw [measure_not_good ifs (by simpa using hg)]
    intro h
    have : expected_size self.hdr = 0 := by exact_mod_cast h
    omega

/-! ## The whole of `parse` -/

theorem scan_inv (file : List Nat) (hdr : header) (ifs : ifstream)
    (h : scan file = .ok (hdr, ifs, none)) :
    ifs.buf = file ∧ ifs.fail = false ∧ ifs.pos ≤ file.length ∧ hdr.Small ∧
      (ifs.eofbit = true → ifs.pos = file.length) ∧
      (ifs.good = true → ∃ head line, file.take ifs.pos = head ++ (line ++ [10]) ∧
        c_str line = ENDHDR ∧ 10 ∉ line) := by
  unfold scan at h
  simp only at h
  split at h
  · have hz : header.zero.Small := by simp [header.Small, header.zero]
    have hb := getline_buf (ifstream.mk file 0 false false) 50
    have hp := getline_pos_le (ifstream.mk file 0 false false) 50 (Nat.zero_le _)
    have he := getline_eof (ifstream.mk file 0 false false) 50 (Nat.zero_le _) (by simp)
    obtain ⟨h1, h2, h3, h4, h5, h6⟩ := headerLoop_inv _ _ _ _ _ h (by rw [hb]; exact hp)
      (by rw [hb]; exact he) hz
    rw [hb] at h1 h3 h5 h6
    exact ⟨h1, h2, h3, h4, h5, h6⟩
  · simp at h

theorem parse_some (self : image_pam) (file : List Nat) :
    parse self (some file) =
      match scan file with
      | .error e => .error e
      | .ok (hdr, _, some e) => .ok ⟨⟨hdr, none, 0⟩, some e⟩
      | .ok (hdr, ifs, none) => process_data ⟨hdr, none, 0⟩ ifs := rfl

theorem process_data_invalid (self : image_pam) (ifs : ifstream) (e : Failure)
    (hv : validate self.hdr = some e) : process_data self ifs = .ok ⟨self, some e⟩ := by
  unfold process_data
  rw [hv]

/-- What a normal return of `parse` means. -/
theorem parse_ok (self : image_pam) (file : List Nat) (inst : image_pam)
    (h : parse self (some file) = .ok ⟨inst, none⟩) :
    ∃ hdr ifs out, scan file = .ok (hdr, ifs, none) ∧ validate hdr = none ∧ hdr.Small ∧
      ifs.buf = file ∧ ifs.good = true ∧
      file.length = ifs.pos + bytes_per_pixel hdr * (hdr.width * hdr.height) ∧
      inst = ⟨hdr, some out, 4 * (hdr.width * hdr.height)⟩ ∧
      out.length = 4 * (hdr.width * hdr.height) ∧
      ∀ q, q < 4 * (hdr.width * hdr.height) →
        out[q]? = some (outByte hdr (file.drop ifs.pos) q) := by
  rw [parse_some] at h
  cases hsc : scan file with
  | error e => rw [hsc] at h; simp at h
  | ok r =>
    obtain ⟨hdr, ifs, t⟩ := r
    rw [hsc] at h
    cases t with
    | some e => simp at h
    | none =>
      simp only at h
      obtain ⟨hbuf, -, -, hs, -, -⟩ := scan_inv file hdr ifs hsc
      cases hv : validate hdr with
      | some e =>
        rw [process_data_invalid ⟨hdr, none, 0⟩ ifs e hv] at h
        simp at h
      | none =>
        rcases process_data_spec ⟨hdr, none, 0⟩ ifs hs hv with ⟨hg, hl, out, ho, hlen, hq⟩ | ⟨-, hb⟩
        · rw [ho] at h
          simp only [Except.ok.injEq, Outcome.mk.injEq, and_true] at h
          rw [hbuf] at hl hq
          exact ⟨hdr, ifs, out, rfl, hv, hs, hbuf, hg, hl, h.symm, hlen, hq⟩
        · rw [hb] at h
          simp at h

/-- What a normal return says about the file: it ends in a terminator line followed by a
payload of exactly the expected size, and the output is a function of that payload. -/
theorem parse_ok_payload (self : image_pam) (file : List Nat) (inst : image_pam)
    (h : parse self (some file) = .ok ⟨inst, none⟩) :
    ∃ head line payload out, file = head ++ (line ++ [10]) ++ payload ∧
      c_str line = ENDHDR ∧ 10 ∉ line ∧ validate inst.hdr = none ∧ inst.hdr.Small ∧
      payload.length = bytes_per_pixel inst.hdr * (inst.hdr.width * inst.hdr.height) ∧
      inst.data = some out ∧ inst.size = 4 * (inst.hdr.width * inst.hdr.height) ∧
      out.length = 4 * (inst.hdr.width * inst.hdr.height) ∧
      ∀ q, q < 4 * (inst.hdr.width * inst.hdr.height) →
        out[q]? = some (outByte inst.hdr payload q) := by
  obtain ⟨hdr, ifs, out, hsc, hv, hs, -, hg, hl, rfl, hlen, hq⟩ := parse_ok self file inst h
  obtain ⟨-, -, hp, -, -, ht⟩ := scan_inv file hdr ifs hsc
  obtain ⟨head, line, h1, h2, h3⟩ := ht hg
  refine ⟨head, line, file.drop ifs.pos, out, ?_, h2, h3, hv, hs, ?_, rfl, rfl, hlen, hq⟩
  · rw [← h1, List.take_append_drop]
  · simp only [List.length_drop]
    omega

/-! ## Reading forward through the header -/

theorem getlineChars_line (ln rest : List Nat) : ∀ (room : Nat), 10 ∉ ln → ln.length ≤ room →
    getlineChars (ln ++ 10 :: rest) room = ⟨ln, ln.length + 1, false, false⟩ := by
  induction ln with
  | nil => intro room _ _; simp [getlineChars]
  | cons c cs ih =>
    intro room h10 hlen
    simp only [List.mem_cons, not_or] at h10
    obtain ⟨room, rfl⟩ : ∃ r, room = r + 1 := ⟨room - 1, by simp at hlen; omega⟩
    simp only [List.cons_append, getlineChars, if_neg (Ne.symm h10.1), List.append_eq]
    rw [ih room h10.2 (by simpa using hlen)]
    simp

theorem getlineChars_last (ln : List Nat) : ∀ (room : Nat), 10 ∉ ln → ln.length ≤ room →
    getlineChars ln room = ⟨ln, ln.length, true, false⟩ := by
  induction ln with
  | nil => intro room _ _; simp [getlineChars]
  | cons c cs ih =>
    intro room h10 hlen
    simp only [List.mem_cons, not_or] at h10
    obtain ⟨room, rfl⟩ : ∃ r, room = r + 1 := ⟨room - 1, by simp at hlen; omega⟩
    simp only [getlineChars, if_neg (Ne.symm h10.1)]
    rw [ih room h10.2 (by simpa using hlen)]
    simp

theorem getlineChars_long (ln rest : List Nat) : ∀ (room : Nat), 10 ∉ ln → room < ln.length →
    (getlineChars (ln ++ rest) room).fail = true := by
  induction ln with
  | nil => intro room _ h; simp at h
  | cons c cs ih =>
    intro room h10 hlen
    simp only [List.mem_cons, not_or] at h10
    simp only [List.cons_append, getlineChars, if_neg (Ne.symm h10.1), List.append_eq]
    cases room with
    | zero => rfl
    | succ room => exact ih room h10.2 (by simpa using hlen)

theorem reads_drop (s : ifstream) (a b : List Nat) (n : Nat) (h : Reads s (a ++ b))
    (hn : a.length = n) : Reads { s with pos := s.pos + n } b := by
  obtain ⟨hg, hd⟩ := h
  refine ⟨by simpa [ifstream.good] using hg, ?_⟩
  simp only
  rw [← List.drop_drop, hd, ← hn, List.drop_left]

/-- A line shorter than the buffer, followed by its newline, is read whole. -/
theorem getline_line (s : ifstream) (ln rest : List Nat) (h : Reads s (ln ++ 10 :: rest))
    (h10 : 10 ∉ ln) (hlen : ln.length < 50) :
    s.getline 50 = ({ s with pos := s.pos + (ln.length + 1) }, ln) ∧
      Reads { s with pos := s.pos + (ln.length + 1) } rest := by
  have hr := reads_drop s (ln ++ [10]) rest (ln.length + 1) (by simpa using h) (by simp)
  refine ⟨?_, hr⟩
  obtain ⟨hg, hd⟩ := h
  unfold ifstream.getline
  rw [if_pos hg, hd]
  simp only [getlineChars_line ln rest 49 h10 (by omega)]
  obtain ⟨buf, pos, e, f⟩ := s
  simp only [ifstream.good, Bool.and_eq_true, Bool.not_eq_true'] at hg
  simp [hg.1, hg.2]

/-- A last line without newline, shorter than the buffer, is read whole and sets eofbit. -/
theorem getline_last (s : ifstream) (ln : List Nat) (h : Reads s ln) (hne : ln ≠ [])
    (h10 : 10 ∉ ln) (hlen : ln.length < 50) :
    (s.getline 50).2 = ln ∧ (s.getline 50).1.fail = false ∧ (s.getline 50).1.good = false := by
  obtain ⟨hg, hd⟩ := h
  have hl : ln.length ≠ 0 := by simpa using hne
  unfold ifstream.getline
  rw [if_pos hg, hd]
  simp only [getlineChars_last ln 49 h10 (by omega)]
  simp [ifstream.fail, ifstream.good, hl]

/-- A line of 50 characters or more makes `getline` fail. -/
theorem getline_long (s : ifstream) (ln rest : List Nat) (h : Reads s (ln ++ rest))
    (h10 : 10 ∉ ln) (hlen : 50 ≤ ln.length) : (s.getline 50).1.fail = true := by
  obtain ⟨hg, hd⟩ := h
  unfold ifstream.getline
  rw [if_pos hg, hd]
  simp [ifstream.fail, getlineChars_long ln rest 49 h10 (by omega)]

/-- At the end of the file `getline` fails. -/
theorem getline_at_eof (s : ifstream) (h : Reads s []) : (s.getline 50).1.fail = true := by
  obtain ⟨hg, hd⟩ := h
  unfold ifstream.getline
  rw [if_pos hg, hd]
  simp [ifstream.fail, getlineChars]

theorem headerLoop_getline_fail (fuel : Nat) (hdr : header) (s : ifstream)
    (h : (s.getline 50).1.fail = true) :
    headerLoop (fuel + 1) hdr s = .ok (hdr, (s.getline 50).1, some .UnexpectedEof) := by
  rw [headerLoop_succ, if_pos h]

theorem isFieldLine_iff (t : List Nat) :
    isFieldLine t = true ↔ ∃ f v, forRegValues t reg_values = .assign f v := by
  unfold isFieldLine
  cases forRegValues t reg_values <;> simp

/-- The loop body on a field line that `getline` reads whole. -/
theorem headerLoop_field_line (fuel : Nat) (hdr : header) (s : ifstream) (ln rest : List Nat)
    (h : Reads s (ln ++ 10 :: rest)) (h10 : 10 ∉ ln) (hlen : ln.length < 50)
    (hf : isFieldLine (c_str ln) = true) :
    headerLoop (fuel + 1) hdr s =
        headerLoop fuel (lineEffect hdr (c_str ln)) { s with pos := s.pos + (ln.length + 1) } ∧
      Reads { s with pos := s.pos + (ln.length + 1) } rest := by
  obtain ⟨hgl, hr⟩ := getline_line s ln rest h h10 hlen
  refine ⟨?_, hr⟩
  obtain ⟨f, v, hfv⟩ := (isFieldLine_iff _).1 hf
  have hnf : ({ s with pos := s.pos + (ln.length + 1) } : ifstream).fail = false := by
    have := hr.1
    simp only [ifstream.good, Bool.and_eq_true, Bool.not_eq_true'] at this
    exact this.2
  rw [headerLoop_succ, hgl]
  simp only [hnf, Bool.false_eq_true, if_false, hfv, lineEffect]

/-- The loop over a run of field lines, each read whole. -/
theorem headerLoop_lines (lines : List (List Nat)) : ∀ (fuel : Nat) (hdr : header) (s : ifstream)
    (rest : List Nat), Reads s (joinLines lines ++ rest) →
    (∀ ln ∈ lines, 10 ∉ ln ∧ ln.length < 50 ∧ isFieldLine (c_str ln) = true) →
    ∃ s1, headerLoop (fuel + lines.length) hdr s =
        headerLoop fuel (lines.foldl (fun h ln => lineEffect h (c_str ln)) hdr) s1 ∧
      Reads s1 rest ∧ s1.buf = s.buf := by
  induction lines with
  | nil =>
    intro fuel hdr s rest h _
    exact ⟨s, rfl, by simpa [joinLines] using h, rfl⟩
  | cons ln lines ih =>
    intro fuel hdr s rest h hl
    obtain ⟨h10, hlen, hf⟩ := hl ln (List.mem_cons_self _ _)
    have h2 : Reads s (ln ++ 10 :: (joinLines lines ++ rest)) := by
      simpa [joinLines] using h
    obtain ⟨hstep, hr⟩ := headerLoop_field_line (fuel + lines.length) hdr s ln _ h2 h10 hlen hf
    obtain ⟨s1, h3, h4, h5⟩ := ih fuel (lineEffect hdr (c_str ln)) _ rest hr
      (fun l hm => hl l (List.mem_cons_of_mem _ hm))
    refine ⟨s1, ?_, h4, h5⟩
    rw [List.length_cons, ← Nat.add_assoc, hstep, h3, List.foldl_cons]

theorem joinLines_length (lines : List (List Nat)) : lines.length ≤ (joinLines lines).length := by
  induction lines with
  | nil => simp [joinLines]
  | cons ln lines ih =>
    simp only [joinLines, List.map_cons, List.flatten_cons, List.length_append,
      List.length_cons, List.length_nil] at ih ⊢
    omega

/-- The scanner on a file that starts with the line "P7": the magic test passes and the loop
starts on the rest. -/
theorem scan_magic (body : List Nat) :
    ∃ s, scan (80 :: 55 :: 10 :: body) = headerLoop (body.length + 4) header.zero s ∧
      Reads s body ∧ s.buf = 80 :: 55 :: 10 :: body := by
  have hr : Reads (ifstream.mk (80 :: 55 :: 10 :: body) 0 false false)
      ([80, 55] ++ 10 :: body) := ⟨rfl, rfl⟩
  obtain ⟨h1, h2⟩ := getline_line _ [80, 55] body hr (by decide) (by decide)
  refine ⟨_, ?_, h2, rfl⟩
  unfold scan
  simp only [h1]
  rw [if_pos (by rfl)]
  simp
/-- A run of field lines with no terminator: the loop ends in the end-of-file branch. A line
of 50 characters or more gets there at once. -/
theorem headerLoop_no_terminator (lines : List (List Nat)) : ∀ (fuel : Nat) (hdr : header)
    (s : ifstream) (tail : List Nat), Reads s (joinLines lines ++ tail) →
    (∀ ln ∈ lines, 10 ∉ ln ∧ isFieldLine (c_str ln) = true) →
    (tail = [] ∨ (10 ∉ tail ∧ isFieldLine (c_str tail) = true)) →
    lines.length + 2 ≤ fuel →
    ∃ hdr1 s1, headerLoop fuel hdr s = .ok (hdr1, s1, some .UnexpectedEof) := by
  induction lines with
  | nil =>
    intro fuel hdr s tail h _ ht hfuel
    obtain ⟨fuel, rfl⟩ : ∃ f, fuel = f + 2 := ⟨fuel - 2, by simp at hfuel; omega⟩
    have h : Reads s tail := by simpa [joinLines] using h
    by_cases hnil : tail = []
    · subst hnil
      exact ⟨_, _, headerLoop_getline_fail _ hdr s (getline_at_eof s h)⟩
    · obtain ⟨h10, hf⟩ := ht.resolve_left hnil
      by_cases hlen : tail.length < 50
      · obtain ⟨h1, h2, h3⟩ := getline_last s tail h hnil h10 hlen
        obtain ⟨f, v, hfv⟩ := (isFieldLine_iff _).1 hf
        have hstep : headerLoop (fuel + 2) hdr s =
            headerLoop (fuel + 1) (hdr.assign f v) (s.getline 50).1 := by
          rw [headerLoop_succ, h2]
          simp only [Bool.false_eq_true, if_false, h1, hfv]
        rw [hstep]
        exact ⟨_, _, headerLoop_getline_fail _ _ _ (getline_not_good _ 50 h3)⟩
      · exact ⟨_, _, headerLoop_getline_fail _ hdr s
          (getline_long s tail [] (by simpa using h) h10 (by omega))⟩
  | cons ln lines ih =>
    intro fuel hdr s tail h hl ht hfuel
    obtain ⟨fuel, rfl⟩ : ∃ f, fuel = f + 1 := ⟨fuel - 1, by simp at hfuel; omega⟩
    obtain ⟨h10, hf⟩ := hl ln (List.mem_cons_self _ _)
    have h2 : Reads s (ln ++ 10 :: (joinLines lines ++ tail)) := by
      simpa [joinLines] using h
    by_cases hlen : ln.length < 50
    · obtain ⟨hstep, hr⟩ := headerLoop_field_line fuel hdr s ln _ h2 h10 hlen hf
      rw [hstep]
      exact ih fuel _ _ tail hr (fun l hm => hl l (List.mem_cons_of_mem _ hm)) ht
        (by simp at hfuel; omega)
    · exact ⟨_, _, headerLoop_getline_fail _ hdr s (getline_long s ln _ h2 h10 (by omega))⟩

/-- The loop body on a line, read whole, that no pattern of the table matches. -/
theorem headerLoop_unmatched (fuel : Nat) (hdr : header) (s : ifstream) (bad tail : List Nat)
    (h : Reads s (bad ++ tail)) (h10 : 10 ∉ bad) (hlen : bad.length < 50)
    (htail : (∃ rest, tail = 10 :: rest) ∨ (tail = [] ∧ bad ≠ []))
    (hnone : forRegValues (c_str bad) reg_values = .no_match) :
    ∃ s1, headerLoop (fuel + 1) hdr s = .ok (hdr, s1, some (.HeaderSyntaxError (c_str bad))) := by
  have key : (s.getline 50).2 = bad ∧ (s.getline 50).1.fail = false := by
    rcases htail with ⟨rest, rfl⟩ | ⟨rfl, hne⟩
    · obtain ⟨h1, h2⟩ := getline_line s bad rest h h10 hlen
      rw [h1]
      have := h2.1
      simp only [ifstream.good, Bool.and_eq_true, Bool.not_eq_true'] at this
      exact ⟨rfl, this.2⟩
    · obtain ⟨h1, h2, -⟩ := getline_last s bad (by simpa using h) hne h10 hlen
      exact ⟨h1, h2⟩
  refine ⟨(s.getline 50).1, ?_⟩
  rw [headerLoop_succ, key.2]
  simp only [Bool.false_eq_true, if_false, key.1, hnone]

theorem forRegValues_no_match (t : List Nat)
    (h : ∀ e ∈ reg_values, regex_match t e.1 = none) :
    forRegValues t reg_values = .no_match := by
  simp only [reg_values, List.mem_cons, List.mem_singleton, forall_eq_or_imp, forall_eq,
    List.not_mem_nil, false_implies, and_true] at h
  obtain ⟨h1, h2, h3, h4, h5, h6⟩ := h
  simp only [reg_values, forRegValues, h1, h2, h3, h4, h5, h6]


/-- The loop body on a line, read whole with its newline. -/
theorem headerLoop_whole_line (fuel : Nat) (hdr : header) (s : ifstream) (ln rest : List Nat)
    (h : Reads s (ln ++ 10 :: rest)) (h10 : 10 ∉ ln) (hlen : ln.length < 50) :
    ∃ s1, Reads s1 rest ∧ headerLoop (fuel + 1) hdr s =
      match forRegValues (c_str ln) reg_values with
      | .goto_process_data => .ok (hdr, s1, none)
      | .assign f v => headerLoop fuel (hdr.assign f v) s1
      | .threw e => .ok (hdr, s1, some e)
      | .no_match => .ok (hdr, s1, some (.HeaderSyntaxError (c_str ln))) := by
  obtain ⟨hgl, hr⟩ := getline_line s ln rest h h10 hlen
  refine ⟨_, hr, ?_⟩
  have hnf : ({ s with pos := s.pos + (ln.length + 1) } : ifstream).fail = false := by
    have := hr.1
    simp only [ifstream.good, Bool.and_eq_true, Bool.not_eq_true'] at this
    exact this.2
  rw [headerLoop_succ, hgl]
  simp only [hnf, Bool.false_eq_true, if_false]

/-- A text the TUPLTYPE pattern matches is dispatched to the TUPLTYPE entry. -/
theorem forRegValues_tupltype (t tok : List Nat)
    (h : regex_match t (.kw_space_any TUPLTYPE) = some tok) :
    forRegValues t reg_values = onMatch t tok .tupltype := by
  obtain ⟨cs, rfl⟩ : ∃ cs, t = 84 :: cs := by
    cases t with
    | nil => simp [regex_match, afterKeyword, TUPLTYPE] at h
    | cons c cs =>
      by_cases hc : 84 = c
      · exact ⟨cs, by rw [hc]⟩
      · simp [regex_match, afterKeyword, TUPLTYPE, hc] at h
  simp only [reg_values, forRegValues, h]
  simp [regex_match, afterKeyword, WIDTH, HEIGHT, DEPTH, MAXVAL]


/-- The magic test passes exactly on files that begin with the bytes of "P7". -/
theorem magic_ok_iff (file : List Nat) :
    magic_ok ((ifstream.mk file 0 false false).getline 50).2 = true ↔
      ∃ rest, file = 80 :: 55 :: rest := by
  have hg : ((ifstream.mk file 0 false false).getline 50).2 = (getlineChars file 49).stored := by
    simp [ifstream.getline, ifstream.good]
  rw [hg]
  match file with
  | [] => simp [getlineChars, magic_ok]
  | [c] =>
    by_cases h10 : c = 10
    · simp [getlineChars, magic_ok, h10]
    · simp [getlineChars, magic_ok, h10]
  | c :: d :: rest =>
    by_cases h10 : c = 10
    · subst h10; simp [getlineChars, magic_ok]
    · by_cases h11 : d = 10
      · subst h11; simp [getlineChars, magic_ok, h10]
      · simp [getlineChars, magic_ok, h10, h11]

theorem firstLine_magic (file : List Nat) :
    [80, 55] <+: firstLine file ↔ ∃ rest, file = 80 :: 55 :: rest := by
  constructor
  · rintro ⟨t, ht⟩
    match file, ht with
    | [], ht => simp [firstLine] at ht
    | [c], ht =>
      by_cases h10 : c = 10
      · simp [firstLine, List.takeWhile_cons, h10] at ht
      · simp [firstLine, List.takeWhile_cons, h10] at ht
    | c :: d :: rest, ht =>
      by_cases h10 : c = 10
      · simp [firstLine, List.takeWhile_cons, h10] at ht
      · by_cases h11 : d = 10
        · simp [firstLine, List.takeWhile_cons, h10, h11] at ht
        · simp only [firstLine, List.takeWhile_cons, bne_iff_ne, ne_eq, h10, h11,
            not_false_eq_true, if_true, List.cons_append, List.nil_append, List.cons.injEq] at ht
          obtain ⟨rfl, rfl, -⟩ := ht
          exact ⟨rest, rfl⟩
  · rintro ⟨rest, rfl⟩
    exact ⟨firstLine rest, by simp [firstLine, List.takeWhile_cons]⟩

theorem onMatch_ne_magic (line arg : List Nat) (f : Field) :
    onMatch line arg f ≠ .threw .MagicMismatch := by
  unfold onMatch
  split
  · split
    · simp
    · split <;> simp
  · split <;> simp

theorem forRegValues_ne_magic (t : List Nat) :
    ∀ (tbl : List (Regex × Option Field)), forRegValues t tbl ≠ .threw .MagicMismatch := by
  intro tbl
  induction tbl with
  | nil => simp [forRegValues]
  | cons e tbl ih =>
    obtain ⟨re, target⟩ := e
    unfold forRegValues
    split
    · exact ih
    · split
      · simp
      · exact onMatch_ne_magic _ _ _

/-- The header loop never reports a magic mismatch. -/
theorem headerLoop_ne_magic (fuel : Nat) : ∀ (hdr : header) (s : ifstream) (hdr1 : header)
    (s1 : ifstream), headerLoop fuel hdr s ≠ .ok (hdr1, s1, some .MagicMismatch) := by
  induction fuel with
  | zero => intro hdr s hdr1 s1; simp [headerLoop]
  | succ fuel ih =>
    intro hdr s hdr1 s1
    rw [headerLoop_succ]
    split
    · simp
    · have := forRegValues_ne_magic (c_str (s.getline 50).2) reg_values
      split
      · simp
      · exact ih _ _ _ _
      · rename_i e he
        intro h
        simp only [Except.ok.injEq, Prod.mk.injEq, Option.some.injEq] at h
        rw [he, h.2.2] at this
        exact this rfl
      · simp

theorem process_data_ne_magic (self : image_pam) (ifs : ifstream) (inst : image_pam) :
    process_data self ifs ≠ .ok ⟨inst, some .MagicMismatch⟩ := by
  unfold process_data
  split
  · rename_i e he
    intro h
    simp only [Except.ok.injEq, Outcome.mk.injEq, Option.some.injEq] at h
    rw [h.2] at he
    unfold validate at he
    repeat' split at he
    all_goals simp at he
  · simp only
    split
    · split <;> simp
    · simp

/-! ## The embedding is never stuck -/

theorem getline_progress (s : ifstream) (hg : s.good = true)
    (hf : (s.getline 50).1.fail = false) : s.pos < (s.getline 50).1.pos := by
  unfold ifstream.getline at hf ⊢
  rw [if_pos hg] at hf ⊢
  simp only [ifstream.fail, Bool.or_eq_false_iff, beq_eq_false_iff_ne, ne_eq] at hf
  simp only
  omega

/-- The header loop has enough fuel when it has more of it than there are unread bytes. -/
theorem headerLoop_total (fuel : Nat) : ∀ (hdr : header) (s : ifstream), 0 < fuel →
    s.pos ≤ s.buf.length → (s.good = true → s.buf.length - s.pos < fuel) →
    ∃ r, headerLoop fuel hdr s = .ok r := by
  induction fuel with
  | zero => intro hdr s h; omega
  | succ fuel ih =>
    intro hdr s _ hp hfuel
    rw [headerLoop_succ]
    by_cases hf : (s.getline 50).1.fail = true
    · rw [if_pos hf]; exact ⟨_, rfl⟩
    · rw [if_neg hf]
      have hf2 : (s.getline 50).1.fail = false := by simpa using hf
      have hg : s.good = true := by
        by_contra hg
        rw [getline_not_good s 50 (by simpa using hg)] at hf2
        simp at hf2
      have hprog := getline_progress s hg hf2
      have hle := getline_pos_le s 50 hp
      split
      · exact ⟨_, rfl⟩
      · exact ih _ _ (by have := hfuel hg; omega) (by rw [getline_buf]; exact hle)
          (fun _ => by rw [getline_buf]; have := hfuel hg; omega)
      · exact ⟨_, rfl⟩
      · exact ⟨_, rfl⟩

theorem scan_total (file : List Nat) : ∃ r, scan file = .ok r := by
  unfold scan
  simp only
  split
  · apply headerLoop_total _ _ _ (by omega)
    · rw [getline_buf]; exact getline_pos_le _ 50 (Nat.zero_le _)
    · intro _
      rw [getline_buf]
      simp only
      omega
  · exact ⟨_, rfl⟩

/-- The embedding of `parse` always yields an outcome: no loop runs out of fuel and no array
access leaves its allocation. -/
theorem parse_total (self : image_pam) (file : Option (List Nat)) :
    ∃ o, parse self file = .ok o := by
  cases file with
  | none => exact ⟨_, rfl⟩
  | some file =>
    rw [parse_some]
    obtain ⟨⟨hdr, ifs, t⟩, hr⟩ := scan_total file
    rw [hr]
    cases t with
    | some e => exact ⟨_, rfl⟩
    | none =>
      simp only
      obtain ⟨-, -, -, hs, -, -⟩ := scan_inv file hdr ifs hr
      cases hv : validate hdr with
      | some e => exact ⟨_, process_data_invalid ⟨hdr, none, 0⟩ ifs e hv⟩
      | none =>
        rcases process_data_spec ⟨hdr, none, 0⟩ ifs hs hv with ⟨-, -, out, ho, -⟩ | ⟨-, hb⟩
        · exact ⟨_, ho⟩
        · exact ⟨_, hb⟩
/-! ## The field lines of the format -/

theorem c_str_eq_self (t : List Nat) (h : ∀ c ∈ t, c ≠ 0) : c_str t = t := by
  unfold c_str
  rw [List.takeWhile_eq_self_iff]
  intro c hc
  simpa using h c hc

theorem isspace_ne_zero (c : Nat) (h : isspace c = true) : c ≠ 0 := by
  intro h0
  subst h0
  simp [isspace] at h

theorem isdigit_ne_zero (c : Nat) (h : isdigit c = true) : c ≠ 0 := by
  intro h0
  subst h0
  simp [isdigit] at h

/-- A numeric field line of the format, `KEYWORD`, one whitespace character and digits whose
value `std::stoi` accepts, is dispatched to the assignment of that value to its field. -/
theorem forRegValues_numeric (ws : Nat) (digits : List Nat) (hws : isspace ws = true)
    (hne : digits ≠ []) (hd : ∀ d ∈ digits, isdigit d = true)
    (hv : decimal digits ≤ 2147483647) :
    forRegValues (WIDTH ++ ws :: digits) reg_values = .assign .width (decimal digits) ∧
      forRegValues (HEIGHT ++ ws :: digits) reg_values = .assign .height (decimal digits) ∧
      forRegValues (DEPTH ++ ws :: digits) reg_values = .assign .depth (decimal digits) ∧
      forRegValues (MAXVAL ++ ws :: digits) reg_values = .assign .maxval (decimal digits) := by
  have hall : digits.all isdigit = true := by simpa using hd
  have hemp : digits.isEmpty = false := by simpa using hne
  refine ⟨?_, ?_, ?_, ?_⟩ <;>
    simp [reg_values, forRegValues, regex_match, afterKeyword, WIDTH, HEIGHT, DEPTH, MAXVAL,
      hws, hall, hemp, onMatch, stoi, hv]

/-- The two TUPLTYPE lines of the format are dispatched to the assignments of 1 and of 2. -/
theorem forRegValues_rgb (ws : Nat) (hws : isspace ws = true) :
    forRegValues (TUPLTYPE ++ ws :: RGB) reg_values = .assign .tupltype 1 ∧
      forRegValues (TUPLTYPE ++ ws :: RGB_ALPHA) reg_values = .assign .tupltype 2 := by
  constructor <;>
    simp [reg_values, forRegValues, regex_match, afterKeyword, WIDTH, HEIGHT, DEPTH, MAXVAL,
      TUPLTYPE, RGB, RGB_ALPHA, hws, onMatch, isany]
/-- The scanner on a file made of the line "P7", field lines read whole and a terminator
line: it reaches `process_data` with the header the lines build, the stream good and
positioned on the first byte after the terminator's newline. -/
theorem scan_header_lines (lines : List (List Nat)) (term payload : List Nat)
    (hlines : ∀ ln ∈ lines, 10 ∉ ln ∧ ln.length < 50 ∧ isFieldLine (c_str ln) = true)
    (h10 : 10 ∉ term) (hlen : term.length < 50) (hterm : c_str term = ENDHDR) :
    ∃ s, scan (80 :: 55 :: 10 :: (joinLines lines ++ (term ++ 10 :: payload))) =
        .ok (lines.foldl (fun h ln => lineEffect h (c_str ln)) header.zero, s, none) ∧
      Reads s payload ∧
      s.buf = 80 :: 55 :: 10 :: (joinLines lines ++ (term ++ 10 :: payload)) := by
  obtain ⟨s, hs, hr, hb⟩ := scan_magic (joinLines lines ++ (term ++ 10 :: payload))
  have hfuel : (joinLines lines ++ (term ++ 10 :: payload)).length + 4 =
      ((joinLines lines ++ (term ++ 10 :: payload)).length + 3 - lines.length + 1) +
        lines.length := by
    have := joinLines_length lines
    simp only [List.length_append] at this ⊢
    omega
  obtain ⟨s1, h1, h2, hb1⟩ := headerLoop_lines lines
    ((joinLines lines ++ (term ++ 10 :: payload)).length + 3 - lines.length + 1) header.zero s
    (term ++ 10 :: payload) hr hlines
  obtain ⟨hgl, hr2⟩ := getline_line s1 term payload h2 h10 hlen
  refine ⟨{ s1 with pos := s1.pos + (term.length + 1) }, ?_, hr2, by rw [← hb, ← hb1]⟩
  have hnf : ({ s1 with pos := s1.pos + (term.length + 1) } : ifstream).fail = false := by
    have := hr2.1
    simp only [ifstream.good, Bool.and_eq_true, Bool.not_eq_true'] at this
    exact this.2
  have hgo : forRegValues ENDHDR reg_values = .goto_process_data := by decide
  rw [hs, hfuel, h1, headerLoop_succ, hgl]
  simp only [hnf, Bool.false_eq_true, if_false, hterm, hgo]
/-! ## Numeric conversion -/

/-- A numeric field line is dispatched to the conversion branch of its field. -/
theorem forRegValues_keyword (f : Field) (hf : f ≠ .tupltype) (ws : Nat) (digits : List Nat)
    (hws : isspace ws = true) (hne : digits ≠ []) (hd : ∀ d ∈ digits, isdigit d = true) :
    forRegValues (keyword f ++ ws :: digits) reg_values =
      if decimal digits ≤ 2147483647 then .assign f (decimal digits)
      else .threw (.HeaderValueError (keyword f ++ ws :: digits)) := by
  have hall : digits.all isdigit = true := by simpa using hd
  have hemp : digits.isEmpty = false := by simpa using hne
  by_cases hv : decimal digits ≤ 2147483647
  · rw [if_pos hv]
    obtain ⟨h1, h2, h3, h4⟩ := forRegValues_numeric ws digits hws hne hd hv
    cases f
    · exact h1
    · exact h2
    · exact h3
    · exact h4
    · exact absurd rfl hf
  · rw [if_neg hv]
    cases f <;>
      first
      | exact absurd rfl hf
      | simp [keyword, reg_values, forRegValues, regex_match, afterKeyword, WIDTH, HEIGHT,
          DEPTH, MAXVAL, hws, hall, hemp, onMatch, stoi, hv]

theorem assign_get (hdr : header) (f : Field) (v : Nat) : (hdr.assign f v).get f = v % 65536 := by
  cases f <;> rfl

theorem assign_get_ne (hdr : header) (f g : Field) (v : Nat) (h : g ≠ f) :
    (hdr.assign f v).get g = hdr.get g := by
  cases f <;> cases g <;> first | rfl | exact absurd rfl h

theorem keyword_line_no_newline (f : Field) (ws : Nat) (digits : List Nat) (hnl : ws ≠ 10)
    (hd : ∀ d ∈ digits, isdigit d = true) : 10 ∉ keyword f ++ ws :: digits := by
  have h1 : 10 ∉ keyword f := by cases f <;> decide
  have h2 : 10 ∉ digits := by
    intro h
    have := hd 10 h
    simp [isdigit] at this
  simp only [List.mem_append, List.mem_cons, not_or]
  exact ⟨h1, fun h => hnl h.symm, h2⟩

theorem keyword_line_c_str (f : Field) (ws : Nat) (digits : List Nat) (hws : isspace ws = true)
    (hd : ∀ d ∈ digits, isdigit d = true) :
    c_str (keyword f ++ ws :: digits) = keyword f ++ ws :: digits := by
  apply c_str_eq_self
  intro c hc
  simp only [List.mem_append, List.mem_cons] at hc
  rcases hc with h | h | h
  · intro h0
    subst h0
    revert h
    cases f <;> decide
  · subst h
    exact isspace_ne_zero _ hws
  · exact isdigit_ne_zero _ (hd c h)
/-! ## Which line sets which field -/

theorem onMatch_assign (line arg : List Nat) (f g : Field) (v : Nat)
    (h : onMatch line arg f = .assign g v) : g = f := by
  unfold onMatch at h
  split at h
  · split at h
    · simp only [LineAction.assign.injEq] at h; exact h.1.symm
    · split at h
      · simp only [LineAction.assign.injEq] at h; exact h.1.symm
      · simp at h
  · split at h
    · simp only [LineAction.assign.injEq] at h; exact h.1.symm
    · simp at h

/-- An assignment to a field comes from a match of that field's pattern. -/
theorem forRegValues_assign_pattern (t : List Nat) (g : Field) (v : Nat)
    (h : forRegValues t reg_values = .assign g v) : regex_match t (fieldPattern g) ≠ none := by
  simp only [reg_values, forRegValues] at h
  split at h
  · split at h
    · split at h
      · split at h
        · split at h
          · split at h <;> simp at h
          · rename_i arg hm
            have := onMatch_assign _ _ _ _ _ h
            subst this
            simp [fieldPattern, hm]
        · rename_i arg hm
          have := onMatch_assign _ _ _ _ _ h
          subst this
          simp [fieldPattern, keyword, hm]
      · rename_i arg hm
        have := onMatch_assign _ _ _ _ _ h
        subst this
        simp [fieldPattern, keyword, hm]
    · rename_i arg hm
      have := onMatch_assign _ _ _ _ _ h
      subst this
      simp [fieldPattern, keyword, hm]
  · rename_i arg hm
    have := onMatch_assign _ _ _ _ _ h
    subst this
    simp [fieldPattern, keyword, hm]

/-- A line that the pattern of a field does not match leaves the field as it was. -/
theorem lineEffect_get (hdr : header) (t : List Nat) (f : Field)
    (h : regex_match t (fieldPattern f) = none) : (lineEffect hdr t).get f = hdr.get f := by
  unfold lineEffect
  split
  · rename_i g v hg
    have hp := forRegValues_assign_pattern t g v hg
    have hne : f ≠ g := by
      intro hfg
      subst hfg
      exact hp h
    exact assign_get_ne hdr g f v hne
  · rfl

theorem foldl_lineEffect_get (f : Field) (lines : List (List Nat)) : ∀ (hdr : header),
    (∀ ln ∈ lines, regex_match (c_str ln) (fieldPattern f) = none) →
    (lines.foldl (fun h ln => lineEffect h (c_str ln)) hdr).get f = hdr.get f := by
  induction lines with
  | nil => intro hdr _; rfl
  | cons ln lines ih =>
    intro hdr h
    rw [List.foldl_cons, ih _ (fun l hl => h l (List.mem_cons_of_mem _ hl)),
      lineEffect_get hdr _ f (h ln (List.mem_cons_self _ _))]

/-- The code after `process_data` does not touch the header. -/
theorem process_data_hdr (self : image_pam) (ifs : ifstream) (o : Outcome)
    (h : process_data self ifs = .ok o) : o.self.hdr = self.hdr := by
  unfold process_data at h
  split at h
  · simp only [Except.ok.injEq] at h
    rw [← h]
  · simp only at h
    split at h
    · split at h
      · simp at h
      · simp only [Except.ok.injEq] at h
        rw [← h]
    · simp only [Except.ok.injEq] at h
      rw [← h]

/-- The header that `parse` leaves in the instance is the one the scanner built. -/
theorem parse_hdr (self : image_pam) (file : List Nat) (hdr : header) (ifs : ifstream)
    (t : Option Failure) (hscan : scan file = .ok (hdr, ifs, t)) :
    ∃ o, parse self (some file) = .ok o ∧ o.self.hdr = hdr := by
  obtain ⟨o, ho⟩ := parse_total self (some file)
  refine ⟨o, ho, ?_⟩
  rw [parse_some, hscan] at ho
  cases t with
  | some e =>
    simp only [Except.ok.injEq] at ho
    rw [← ho]
  | none => exact process_data_hdr _ _ _ ho
/-! ## Failure, prior state and the header on success -/

/-- When the code after `process_data` throws, the instance is as it was at the label. -/
theorem process_data_thrown (self : image_pam) (ifs : ifstream) (o : Outcome) (e : Failure)
    (h : process_data self ifs = .ok o) (he : o.thrown = some e) : o.self = self := by
  unfold process_data at h
  split at h
  · simp only [Except.ok.injEq] at h
    rw [← h]
  · simp only at h
    split at h
    · split at h
      · simp at h
      · simp only [Except.ok.injEq] at h
        rw [← h] at he
        simp at he
    · simp only [Except.ok.injEq] at h
      rw [← h]

theorem forRegValues_onMatch (t : List Nat) (g : Field) (v : Nat) :
    ∀ (tbl : List (Regex × Option Field)), forRegValues t tbl = .assign g v →
    ∃ arg f, onMatch t arg f = .assign g v := by
  intro tbl
  induction tbl with
  | nil => intro h; simp [forRegValues] at h
  | cons e tbl ih =>
    obtain ⟨re, target⟩ := e
    intro h
    unfold forRegValues at h
    split at h
    · exact ih h
    · split at h
      · simp at h
      · exact ⟨_, _, h⟩

/-- The only values ever assigned to tupltype are 1 and 2. -/
theorem forRegValues_tupltype_value (t : List Nat) (v : Nat)
    (h : forRegValues t reg_values = .assign .tupltype v) : v = 1 ∨ v = 2 := by
  obtain ⟨arg, f, hm⟩ := forRegValues_onMatch t _ v reg_values h
  have hf := onMatch_assign _ _ _ _ _ hm
  subst hf
  unfold onMatch at hm
  simp only [if_true] at hm
  split at hm
  · simp only [LineAction.assign.injEq, true_and] at hm; exact Or.inl hm.symm
  · split at hm
    · simp only [LineAction.assign.injEq, true_and] at hm; exact Or.inr hm.symm
    · simp at hm

theorem assign_tupltype_le (hdr : header) (f : Field) (v : Nat) (t : List Nat)
    (h : forRegValues t reg_values = .assign f v) (hle : hdr.tupltype ≤ 2) :
    (hdr.assign f v).tupltype ≤ 2 := by
  cases f with
  | tupltype =>
    rcases forRegValues_tupltype_value t v h with rfl | rfl <;> simp [header.assign, uint16_t]
  | width => exact hle
  | height => exact hle
  | depth => exact hle
  | maxval => exact hle

/-- The header loop keeps tupltype among 0, 1 and 2. -/
theorem headerLoop_tupltype (fuel : Nat) : ∀ (hdr : header) (s : ifstream) (hdr1 : header)
    (s1 : ifstream) (t : Option Failure), headerLoop fuel hdr s = .ok (hdr1, s1, t) →
    hdr.tupltype ≤ 2 → hdr1.tupltype ≤ 2 := by
  induction fuel with
  | zero => intro hdr s hdr1 s1 t h; simp [headerLoop] at h
  | succ fuel ih =>
    intro hdr s hdr1 s1 t h hle
    rw [headerLoop_succ] at h
    split at h
    · simp only [Except.ok.injEq, Prod.mk.injEq] at h
      rw [← h.1]; exact hle
    · cases hA : forRegValues (c_str (s.getline 50).2) reg_values with
      | goto_process_data =>
        rw [hA] at h
        simp only [Except.ok.injEq, Prod.mk.injEq] at h
        rw [← h.1]; exact hle
      | assign f v =>
        rw [hA] at h
        exact ih _ _ _ _ _ h (assign_tupltype_le hdr f v _ hA hle)
      | threw e =>
        rw [hA] at h
        simp only [Except.ok.injEq, Prod.mk.injEq] at h
        rw [← h.1]; exact hle
      | no_match =>
        rw [hA] at h
        simp only [Except.ok.injEq, Prod.mk.injEq] at h
        rw [← h.1]; exact hle

theorem scan_tupltype (file : List Nat) (hdr : header) (ifs : ifstream) (t : Option Failure)
    (h : scan file = .ok (hdr, ifs, t)) : hdr.tupltype ≤ 2 := by
  unfold scan at h
  simp only at h
  split at h
  · exact headerLoop_tupltype _ _ _ _ _ _ h (by simp [header.zero])
  · simp only [Except.ok.injEq, Prod.mk.injEq] at h
    rw [← h.1]
    simp [header.zero]
/-! ## The outcome as a function of header lines and payload -/

theorem bitmap_eq (hdr : header) (payload out : List Nat)
    (hlen : out.length = 4 * (hdr.width * hdr.height))
    (hq : ∀ q, q < 4 * (hdr.width * hdr.height) → out[q]? = some (outByte hdr payload q)) :
    out = bitmap hdr payload := by
  apply List.ext_getElem?
  intro q
  unfold bitmap
  by_cases h : q < 4 * (hdr.width * hdr.height)
  · rw [hq q h, List.getElem?_map, List.getElem?_range h]
    rfl
  · rw [List.getElem?_eq_none (by omega), List.getElem?_eq_none (by simp; omega)]

/-- The code after `process_data` depends on the stream only through its unread bytes. -/
theorem process_data_payload (hdr : header) (ifs : ifstream) (payload : List Nat)
    (hs : hdr.Small) (hr : Reads ifs payload) (hp : ifs.pos ≤ ifs.buf.length) :
    process_data ⟨hdr, none, 0⟩ ifs = .ok (outcomeOf hdr payload) := by
  obtain ⟨hg, hd⟩ := hr
  have hpl : payload.length = ifs.buf.length - ifs.pos := by rw [← hd, List.length_drop]
  unfold outcomeOf
  cases hv : validate hdr with
  | some e => exact process_data_invalid ⟨hdr, none, 0⟩ ifs e hv
  | none =>
    simp only
    rcases process_data_spec ⟨hdr, none, 0⟩ ifs hs hv with ⟨-, hl, out, ho, hlen, hq⟩ | ⟨hn, hb⟩
    · simp only at hl ho hlen hq
      rw [if_pos (by omega), ho, bitmap_eq hdr payload out hlen (by rw [← hd]; exact hq)]
    · simp only at hn hb
      have hne : payload.length ≠ bytes_per_pixel hdr * (hdr.width * hdr.height) := by
        intro h
        exact hn ⟨hg, by omega⟩
      rw [if_neg hne, hb, measure_good ifs hg, expected_size_eq hdr hs]
      simp only
      congr 4
      omega

/-- The whole of `parse` on a file made of the line "P7", field lines read whole, a terminator
line and a payload. -/
theorem parse_header_lines (self : image_pam) (lines : List (List Nat))
    (term payload : List Nat)
    (hlines : ∀ ln ∈ lines, 10 ∉ ln ∧ ln.length < 50 ∧ isFieldLine (c_str ln) = true)
    (h10 : 10 ∉ term) (hlen : term.length < 50) (hterm : c_str term = ENDHDR) :
    parse self (some (80 :: 55 :: 10 :: (joinLines lines ++ (term ++ 10 :: payload)))) =
      .ok (outcomeOf (headerOf lines) payload) := by
  obtain ⟨s, hs, hr, hb⟩ := scan_header_lines lines term payload hlines h10 hlen hterm
  obtain ⟨-, -, hp, hsm, -, -⟩ := scan_inv _ _ _ hs
  rw [parse_some, hs]
  simp only
  exact process_data_payload _ s payload hsm hr (by rw [hb]; exact hp)
theorem assign_comm (hdr : header) (f g : Field) (v w : Nat) (h : f ≠ g) :
    (hdr.assign f v).assign g w = (hdr.assign g w).assign f v := by
  cases f <;> cases g <;> first | rfl | exact absurd rfl h

/-- Two lines that do not assign the same field can be handled in either order. -/
theorem lineEffect_comm (hdr : header) (a b : List Nat) (h : lineField a ≠ lineField b) :
    lineEffect (lineEffect hdr a) b = lineEffect (lineEffect hdr b) a := by
  unfold lineField at h
  unfold lineEffect
  cases ha : forRegValues a reg_values <;> cases hb : forRegValues b reg_values <;>
    simp only [ha, hb] at h ⊢
  rename_i f v g w
  exact assign_comm hdr f g v w (fun hfg => h (by rw [hfg]))

/-- The header built from field lines that assign pairwise different fields does not depend
on their order. -/
theorem headerOf_perm (lines1 lines2 : List (List Nat)) (hperm : lines1.Perm lines2)
    (hnodup : (lines1.map (fun ln => lineField (c_str ln))).Nodup) :
    headerOf lines1 = headerOf lines2 := by
  unfold headerOf
  apply List.Perm.foldl_eq' hperm
  intro x hx y hy z
  by_cases hxy : x = y
  · rw [hxy]
  · exact lineEffect_comm z _ _
      (fun h => hxy (List.inj_on_of_nodup_map hnodup hx hy h))
/-! ## The depth field -/

theorem sameButDepth_lineEffect (h1 h2 : header) (t : List Nat) (h : sameButDepth h1 h2) :
    sameButDepth (lineEffect h1 t) (lineEffect h2 t) := by
  unfold lineEffect
  cases forRegValues t reg_values with
  | assign f v =>
    obtain ⟨a, b, c, d, e⟩ := h
    cases f <;> simp [sameButDepth, header.assign, a, b, c, d, e]
  | goto_process_data => exact h
  | threw e => exact h
  | no_match => exact h

theorem sameButDepth_foldl (lines : List (List Nat)) : ∀ (h1 h2 : header), sameButDepth h1 h2 →
    sameButDepth (lines.foldl (fun h ln => lineEffect h (c_str ln)) h1)
      (lines.foldl (fun h ln => lineEffect h (c_str ln)) h2) := by
  induction lines with
  | nil => intro h1 h2 h; exact h
  | cons ln lines ih =>
    intro h1 h2 h
    simp only [List.foldl_cons]
    exact ih _ _ (sameButDepth_lineEffect h1 h2 _ h)

/-- Validation, the size check and the transcoder do not look at the value of depth beyond
its being non-zero. -/
theorem outcomeOf_sameButDepth (h1 h2 : header) (payload : List Nat) (h : sameButDepth h1 h2) :
    (outcomeOf h1 payload).thrown = (outcomeOf h2 payload).thrown ∧
      (outcomeOf h1 payload).self.data = (outcomeOf h2 payload).self.data ∧
      (outcomeOf h1 payload).self.size = (outcomeOf h2 payload).self.size ∧
      sameButDepth (outcomeOf h1 payload).self.hdr (outcomeOf h2 payload).self.hdr := by
  obtain ⟨a, b, c, d, e⟩ := h
  have hv : validate h1 = validate h2 := by
    unfold validate
    rw [a, b, c, d]
    by_cases hd : h2.depth = 0
    · simp [hd, e.2 hd]
    · have hd1 : h1.depth ≠ 0 := fun h0 => hd (e.1 h0)
      simp [hd, hd1]
  have hb : bytes_per_pixel h1 = bytes_per_pixel h2 := by unfold bytes_per_pixel; rw [d]
  have hbm : bitmap h1 payload = bitmap h2 payload := by
    unfold bitmap outByte
    rw [a, b, d]
  unfold outcomeOf
  rw [hv, hb, hbm, a, b]
  cases validate h2 with
  | some e1 => exact ⟨rfl, rfl, rfl, a, b, c, d, e⟩
  | none =>
    simp only
    split
    · exact ⟨rfl, rfl, rfl, a, b, c, d, e⟩
    · exact ⟨rfl, rfl, rfl, a, b, c, d, e⟩
/-! ## How many times the transcoder loops run -/

/-- With as many units of fuel as pixels are left in the row, the inner loop runs out of fuel:
it needs one more, for the test that ends it. -/
theorem pixelLoop_short (n : Nat) : ∀ (k fuel l : Nat) (sd data : List Nat),
    fuel ≤ n → 3 * (k + n) ≤ sd.length → l + 4 * (k + n) ≤ data.length →
    pixelLoop fuel (3 * k) (4 * k) (3 * (k + n)) l sd data = .error .fuel := by
  induction n with
  | zero =>
    intro k fuel l sd data hf _ _
    obtain rfl : fuel = 0 := by omega
    rfl
  | succ n ih =>
    intro k fuel l sd data hf hsd hd
    cases fuel with
    | zero => rfl
    | succ f =>
      rw [pixelLoop_step f (3 * k) (4 * k) _ l sd data (by omega) (by omega) (by omega)]
      have e1 : 3 * k + 3 = 3 * (k + 1) := by ring
      have e2 : 4 * k + 4 = 4 * (k + 1) := by ring
      have e3 : 3 * (k + (n + 1)) = 3 * (k + 1 + n) := by ring
      rw [e1, e2, e3]
      exact ih (k + 1) f l sd _ (by omega) (by omega) (by simp; omega)

/-- One pass of the body of the outer loop: a full row is read and written, and the loop goes
on one row further with the stream still good. -/
theorem rowLoop_step (hdr : header) (hs : hdr.Small) (hw : 0 < hdr.width) (p0 n a fuel : Nat)
    (ifs : ifstream) (sd data : List Nat)
    (hT : hdr.width * hdr.height = a + (n + 1) * hdr.width) (hg : ifs.good = true)
    (hbuf : ifs.buf.length = p0 + bytes_per_pixel hdr * (hdr.width * hdr.height))
    (hpos : ifs.pos = p0 + bytes_per_pixel hdr * a)
    (hsd : sd.length = bytes_per_pixel hdr * hdr.width)
    (hdata : data.length = 4 * (hdr.width * hdr.height)) :
    ∃ ifs1 sd1 out1,
      rowLoop (fuel + 1) (bytes_per_pixel hdr * a) (4 * a) hdr ifs sd data =
        rowLoop fuel (bytes_per_pixel hdr * (a + hdr.width)) (4 * (a + hdr.width)) hdr ifs1 sd1
          out1 ∧
      hdr.width * hdr.height = a + hdr.width + n * hdr.width ∧ ifs1.good = true ∧
      ifs1.buf.length = p0 + bytes_per_pixel hdr * (hdr.width * hdr.height) ∧
      ifs1.pos = p0 + bytes_per_pixel hdr * (a + hdr.width) ∧
      sd1.length = bytes_per_pixel hdr * hdr.width ∧
      out1.length = 4 * (hdr.width * hdr.height) := by
  have hT2 : hdr.width * hdr.height = a + hdr.width + n * hdr.width := by
    rw [hT, Nat.succ_mul]; omega
  have hB : bytes_per_pixel hdr = 3 ∨ bytes_per_pixel hdr = 4 := by
    rcases bytes_per_pixel_cases hdr with ⟨h, -⟩ | ⟨h, -⟩ <;> simp [h]
  have hBW : bytes_per_pixel hdr * (hdr.width * hdr.height) =
      bytes_per_pixel hdr * a + bytes_per_pixel hdr * hdr.width +
        bytes_per_pixel hdr * (n * hdr.width) := by
    rw [hT2]; ring
  have hlt : bytes_per_pixel hdr * a < bytes_per_pixel hdr * (hdr.width * hdr.height) := by
    rw [hBW]
    have : 0 < bytes_per_pixel hdr * hdr.width := Nat.mul_pos (by omega) hw
    omega
  obtain ⟨out1, ho1, hlen1, -⟩ := rowBody_spec hdr hs (4 * a)
    ((ifs.buf.drop ifs.pos).take (bytes_per_pixel hdr * hdr.width) ++
      sd.drop (bytes_per_pixel hdr * hdr.width)) data
    (by simp only [List.length_append, List.length_take, List.length_drop]
        rw [hbuf, hpos, hBW]; omega)
    (by rw [hdata, hT2]; omega)
  refine ⟨{ ifs with pos := ifs.pos + bytes_per_pixel hdr * hdr.width },
    (ifs.buf.drop ifs.pos).take (bytes_per_pixel hdr * hdr.width) ++
      sd.drop (bytes_per_pixel hdr * hdr.width), out1, ?_, hT2,
    by simpa [ifstream.good] using hg, hbuf, by simp only; rw [hpos, Nat.mul_add]; omega,
    ?_, by omega⟩
  · rw [rowLoop, if_pos (by rw [expected_size_eq hdr hs]; exact hlt), stride_eq hdr hs,
      actual_stride_eq hdr hs]
    rw [read_row ifs sd _ hg (by rw [hbuf, hpos, hBW]; omega) hsd]
    simp only
    rw [ho1]
    simp only
    rw [← Nat.mul_add, ← Nat.mul_add]
  · simp only [List.length_append, List.length_take, List.length_drop]
    rw [hbuf, hpos, hBW]; omega

/-- With as many units of fuel as rows are left, the outer loop runs out of fuel. -/
theorem rowLoop_short (hdr : header) (hs : hdr.Small) (hw : 0 < hdr.width) (p0 : Nat) (n : Nat) :
    ∀ (a fuel : Nat) (ifs : ifstream) (sd data : List Nat),
    fuel ≤ n → hdr.width * hdr.height = a + n * hdr.width →
    ifs.good = true →
    ifs.buf.length = p0 + bytes_per_pixel hdr * (hdr.width * hdr.height) →
    ifs.pos = p0 + bytes_per_pixel hdr * a →
    sd.length = bytes_per_pixel hdr * hdr.width →
    data.length = 4 * (hdr.width * hdr.height) →
    rowLoop fuel (bytes_per_pixel hdr * a) (4 * a) hdr ifs sd data = .error .fuel := by
  induction n with
  | zero =>
    intro a fuel ifs sd data hf _ _ _ _ _ _
    obtain rfl : fuel = 0 := by omega
    rfl
  | succ n ih =>
    intro a fuel ifs sd data hf hT hg hbuf hpos hsd hdata
    cases fuel with
    | zero => rfl
    | succ f =>
      obtain ⟨ifs1, sd1, out1, hstep, hT2, hg1, hbuf1, hpos1, hsd1, hlen1⟩ :=
        rowLoop_step hdr hs hw p0 n a f ifs sd data hT hg hbuf hpos hsd hdata
      rw [hstep]
      exact ih (a + hdr.width) f ifs1 sd1 out1 (by omega) hT2 hg1 hbuf1 hpos1 hsd1 hlen1
/-! ## Whole-line matching -/

theorem afterKeyword_iff (kw : List Nat) : ∀ (t r : List Nat),
    afterKeyword kw t = some r ↔ t = kw ++ r := by
  induction kw with
  | nil => intro t r; simp [afterKeyword, eq_comm]
  | cons k ks ih =>
    intro t r
    cases t with
    | nil => simp [afterKeyword]
    | cons c cs =>
      by_cases hk : k = c
      · subst hk
        simp [afterKeyword, ih]
      · simp only [afterKeyword, if_neg hk, List.cons_append, List.cons.injEq]
        constructor
        · intro h; simp at h
        · intro h; exact absurd h.1.symm hk

/-- A numeric pattern matches exactly the texts made of its keyword, one whitespace character
and one or more digits, and captures the digits. -/
theorem regex_match_digits_iff (kw t arg : List Nat) :
    regex_match t (.kw_space_digits kw) = some arg ↔
      ∃ ws, t = kw ++ ws :: arg ∧ isspace ws = true ∧ arg ≠ [] ∧
        ∀ d ∈ arg, isdigit d = true := by
  simp only [regex_match]
  constructor
  · intro h
    cases hk : afterKeyword kw t with
    | none => rw [hk] at h; simp at h
    | some r =>
      rw [hk] at h
      cases r with
      | nil => simp at h
      | cons ws a =>
        simp only at h
        split at h
        · rename_i hc
          simp only [Option.some.injEq] at h
          subst h
          simp only [Bool.and_eq_true, Bool.not_eq_true', List.isEmpty_eq_false,
            List.all_eq_true] at hc
          exact ⟨ws, (afterKeyword_iff kw t _).1 hk, hc.1.1, by simpa using hc.1.2, hc.2⟩
        · simp at h
  · rintro ⟨ws, rfl, hws, hne, hd⟩
    rw [(afterKeyword_iff kw _ _).2 rfl]
    have hall : arg.all isdigit = true := by simpa using hd
    have hemp : arg.isEmpty = false := by simpa using hne
    simp [hws, hall, hemp]

theorem fieldPattern_numeric (f : Field) (hf : f ≠ .tupltype) :
    fieldPattern f = .kw_space_digits (keyword f) := by
  cases f <;> first | rfl | exact absurd rfl hf

/-- After a numeric keyword, whatever is not one whitespace character and digits leaves the
text without a match in the table. -/
theorem forRegValues_keyword_unmatched (f : Field) (hf : f ≠ .tupltype) (rest : List Nat)
    (h : regex_match (keyword f ++ rest) (.kw_space_digits (keyword f)) = none) :
    forRegValues (keyword f ++ rest) reg_values = .no_match := by
  cases f <;>
    first
    | exact absurd rfl hf
    | (simp only [keyword] at h
       simp only [keyword, reg_values, forRegValues, h]
       simp [regex_match, afterKeyword, WIDTH, HEIGHT, DEPTH, MAXVAL, TUPLTYPE, ENDHDR])

/-- A text that begins with a whitespace character has no match in the table. -/
theorem forRegValues_leading_space (c : Nat) (t : List Nat) (h : isspace c = true) :
    forRegValues (c :: t) reg_values = .no_match := by
  have hc : c = 32 ∨ (9 ≤ c ∧ c ≤ 13) := by simpa [isspace] using h
  have h1 : ¬ 87 = c := by omega
  have h2 : ¬ 72 = c := by omega
  have h3 : ¬ 68 = c := by omega
  have h4 : ¬ 77 = c := by omega
  have h5 : ¬ 84 = c := by omega
  have h6 : ¬ c = 69 := by omega
  simp [reg_values, forRegValues, regex_match, afterKeyword, WIDTH, HEIGHT, DEPTH, MAXVAL,
    TUPLTYPE, ENDHDR, h1, h2, h3, h4, h5, h6]

/-- The scanner on a file whose first line begins with "P7" and is shorter than 50 characters:
the magic test passes and the loop starts on the rest. -/
theorem scan_magic_line (magic body : List Nat) (hm : [80, 55] <+: magic) (h10 : 10 ∉ magic)
    (hlen : magic.length < 50) :
    ∃ s, scan (magic ++ 10 :: body) =
        headerLoop ((magic ++ 10 :: body).length + 1) header.zero s ∧
      Reads s body := by
  have hr : Reads (ifstream.mk (magic ++ 10 :: body) 0 false false) (magic ++ 10 :: body) :=
    ⟨rfl, rfl⟩
  obtain ⟨h1, h2⟩ := getline_line _ magic body hr h10 hlen
  refine ⟨_, ?_, h2⟩
  obtain ⟨t, rfl⟩ := hm
  have hmo : magic_ok ((ifstream.mk ([80, 55] ++ t ++ 10 :: body) 0 false false).getline 50).2
      = true := (magic_ok_iff _).2 ⟨t ++ 10 :: body, by simp⟩
  unfold scan
  simp only [hmo, if_true]
  rw [h1]


end ImagePam

namespace SortVisualizer

/-! ## One pass of `sort` -/

theorem getD_set (a : List Int) (i t : Nat) (v : Int) (h : i < a.length) :
    (a.set i v).getD t 0 = if i = t then v else a.getD t 0 := by
  simp only [List.getD_eq_getElem?_getD, List.getElem?_set]
  by_cases hit : i = t
  · subst hit
    rw [if_pos rfl, if_pos h, if_pos rfl]
    rfl
  · rw [if_neg hit, if_neg hit]

theorem getElem?_getD (a : List Int) (i : Nat) (h : i < a.length) :
    a[i]? = some (a.getD i 0) := by
  simp [List.getD_eq_getElem?_getD, List.getElem?_eq_getElem h]

theorem count_pos_of_getD (a : List Int) (i : Nat) (h : i < a.length) (b : Int)
    (hb : a.getD i 0 = b) : 0 < a.count b := by
  rw [List.count_pos_iff]
  rw [← hb, List.getD_eq_getElem?_getD, List.getElem?_eq_getElem h]
  exact List.getElem_mem _

/-- Swapping two elements of the array gives a permutation of it. -/
theorem swap_perm (a : List Int) (i j : Nat) (hi : i < a.length) (hj : j < a.length)
    (hij : i ≠ j) :
    ((a.set i (a.getD j 0)).set j (a.getD i 0)).Perm a := by
  rw [List.perm_iff_count]
  intro b
  have hx : a[i] = a.getD i 0 := by
    simp [List.getD_eq_getElem?_getD, List.getElem?_eq_getElem hi]
  have hy : a[j] = a.getD j 0 := by
    simp [List.getD_eq_getElem?_getD, List.getElem?_eq_getElem hj]
  have hj2 : j < (a.set i (a.getD j 0)).length := by simpa using hj
  have hsj : (a.set i (a.getD j 0))[j] = a.getD j 0 := by
    rw [List.getElem_set_ne hij]; exact hy
  rw [List.count_set _ _ _ _ hj2, List.count_set _ _ _ _ hi, hsj, hx]
  have h1 := count_pos_of_getD a i hi
  by_cases hxb : a.getD i 0 = b <;> by_cases hyb : a.getD j 0 = b <;>
    simp only [hxb, hyb, beq_self_eq_true, if_true, beq_iff_eq, if_false] <;>
    first
      | omega
      | (have h2 := h1 b hxb; omega)

/-- The loop of one pass, entered with the first `i` elements in non-decreasing order: it ends
in bounds at the `break`, leaves a permutation of the array, and the first `i + 1` elements
are then in non-decreasing order. -/
theorem loop_spec (i : Nat) (hi : i < 50) (n : Nat) : ∀ (j fuel : Nat) (a : List Int),
    j + n = i → n < fuel → a.length = 50 →
    (∀ s t, s < t → t < i → a.getD s 0 ≤ a.getD t 0) →
    (∀ t, t < j → a.getD t 0 ≤ a.getD i 0) →
    ∃ b, loop fuel j i a = .ok b ∧ b.Perm a ∧ b.length = 50 ∧
      ∀ s t, s < t → t ≤ i → b.getD s 0 ≤ b.getD t 0 := by
  induction n with
  | zero =>
    intro j fuel a hj hf hlen hA hB
    obtain ⟨f, rfl⟩ : ∃ f, fuel = f + 1 := ⟨fuel - 1, by omega⟩
    have hji : j = i := by omega
    subst hji
    refine ⟨a, ?_, List.Perm.refl _, hlen, ?_⟩
    · rw [loop, if_pos hi, if_pos rfl]
    · intro s t hst ht
      by_cases hti : t = j
      · subst hti; exact hB s hst
      · exact hA s t hst (by omega)
  | succ n ih =>
    intro j fuel a hj hf hlen hA hB
    obtain ⟨f, rfl⟩ : ∃ f, fuel = f + 1 := ⟨fuel - 1, by omega⟩
    have hji : j < i := by omega
    have hne : i ≠ j := by omega
    rw [loop, if_pos (by omega), if_neg hne, getElem?_getD a j (by omega),
      getElem?_getD a i (by omega)]
    simp only
    by_cases hgt : a.getD j 0 > a.getD i 0
    · rw [if_pos hgt]
      have hlen1 : (a.set i (a.getD j 0)).length = 50 := by simpa using hlen
      have hg : ∀ t, ((a.set i (a.getD j 0)).set j (a.getD i 0)).getD t 0 =
          if j = t then a.getD i 0 else if i = t then a.getD j 0 else a.getD t 0 := by
        intro t
        rw [getD_set _ j t _ (by omega), getD_set _ i t _ (by omega)]
      obtain ⟨b, hb, hperm, hblen, hsorted⟩ := ih (j + 1) f
        ((a.set i (a.getD j 0)).set j (a.getD i 0)) (by omega) (by omega) (by simpa using hlen)
        (by
          intro s t hst ht
          rw [hg s, hg t]
          by_cases hsj : j = s
          · subst hsj
            rw [if_pos rfl, if_neg (by omega), if_neg (by omega)]
            have := hA j t hst ht
            omega
          · rw [if_neg hsj, if_neg (by omega)]
            by_cases htj : j = t
            · subst htj
              rw [if_pos rfl]
              exact hB s hst
            · rw [if_neg htj, if_neg (by omega)]
              exact hA s t hst ht)
        (by
          intro t ht
          have h2 := hg i
          rw [if_neg (show ¬ j = i by omega), if_pos rfl] at h2
          rw [hg t, h2]
          by_cases htj : j = t
          · rw [if_pos htj]; omega
          · rw [if_neg htj, if_neg (show ¬ i = t by omega)]
            exact hA t j (by omega) hji)
      exact ⟨b, hb, hperm.trans (swap_perm a i j (by omega) (by omega) hne), hblen, hsorted⟩
    · rw [if_neg hgt]
      exact ih (j + 1) f a (by omega) (by omega) hlen hA (by
        intro t ht
        by_cases htj : t = j
        · subst htj; omega
        · exact hB t (by omega))

/-- One call of `sort` with the pass counter below 50 and the first `i` elements in
non-decreasing order. -/
theorem sort_spec (a : List Int) (i : Nat) (rebuilt : List Int) (hi : i < 50)
    (hlen : a.length = 50) (hA : ∀ s t, s < t → t < i → a.getD s 0 ≤ a.getD t 0) :
    ∃ b, App.sort ⟨a, i⟩ rebuilt = .ok ⟨b, i + 1⟩ ∧ b.Perm a ∧ b.length = 50 ∧
      ∀ s t, s < t → t < i + 1 → b.getD s 0 ≤ b.getD t 0 := by
  obtain ⟨b, hb, hperm, hblen, hsorted⟩ := loop_spec i hi i 0 51 a (by omega) (by omega) hlen hA
    (fun t ht => absurd ht (by omega))
  refine ⟨b, ?_, hperm, hblen, fun s t hst ht => hsorted s t hst (by omega)⟩
  unfold App.sort
  simp only [ge_iff_le, if_neg (show ¬ 50 ≤ i by omega), hb]
  rw [Nat.mod_eq_of_lt (by omega)]

/-- After `k` calls of `sort` from pass counter 0, `k` at most 50. -/
theorem calls_spec (a : List Int) (rebuilt : Nat → List Int) (hlen : a.length = 50) (k : Nat) :
    k ≤ 50 → ∃ b, calls k ⟨a, 0⟩ rebuilt = .ok ⟨b, k⟩ ∧ b.Perm a ∧ b.length = 50 ∧
      ∀ s t, s < t → t < k → b.getD s 0 ≤ b.getD t 0 := by
  induction k with
  | zero => intro _; exact ⟨a, rfl, List.Perm.refl _, hlen, fun s t _ ht => absurd ht (by omega)⟩
  | succ k ih =>
    intro hk
    obtain ⟨b, hb, hperm, hblen, hsorted⟩ := ih (by omega)
    obtain ⟨c, hc, hperm2, hclen, hsorted2⟩ := sort_spec b k (rebuilt k) (by omega) hblen hsorted
    refine ⟨c, ?_, hperm2.trans hperm, hclen, hsorted2⟩
    rw [calls, hb]
    exact hc

theorem pairwise_take (b : List Int) (k : Nat)
    (h : ∀ s t, s < t → t < k → b.getD s 0 ≤ b.getD t 0) :
    (b.take k).Pairwise (fun x y => x ≤ y) := by
  rw [List.pairwise_iff_getElem]
  intro s t hs ht hst
  have ht2 : t < k ∧ t < b.length := by simpa using ht
  have hs2 : s < k ∧ s < b.length := by simpa using hs
  have := h s t hst ht2.1
  rw [List.getD_eq_getElem?_getD, List.getD_eq_getElem?_getD,
    List.getElem?_eq_getElem hs2.2, List.getElem?_eq_getElem ht2.2] at this
  simpa using this

end SortVisualizer

namespace ImagePam

/-! ## `parse` and the heap -/

/-- On a heap that grants both allocations the code from `process_data` on does what
`process_data` says. -/
theorem process_data_alloc_plenty (self : image_pam) (ifs : ifstream) :
    process_data_alloc plenty self ifs = (process_data self ifs).map Outcome.withHeap := by
  unfold process_data_alloc process_data
  cases hv : validate self.hdr with
  | some e => rfl
  | none =>
    simp only [plenty, if_true]
    by_cases hm : (expected_size self.hdr : Int) = (measure ifs).2
    · simp only [if_pos hm]
      cases hr : rowLoop (expected_size self.hdr + 1) 0 0 self.hdr (measure ifs).1
          (List.replicate (stride self.hdr) 0) (List.replicate (buffer_size self.hdr) 0) with
      | error e => rfl
      | ok data => rfl
    · simp only [if_neg hm]
      rfl

/-- On a heap that grants both allocations `parse_alloc` is `parse`. -/
theorem parse_alloc_plenty (self : image_pam) (file : Option (List Nat)) :
    parse_alloc plenty self file = (parse self file).map Outcome.withHeap := by
  unfold parse_alloc parse
  cases file with
  | none => rfl
  | some bytes =>
    simp only
    cases hs : scan bytes with
    | error e => rfl
    | ok r =>
      obtain ⟨hdr, ifs, t⟩ := r
      cases t with
      | some e => rfl
      | none => exact process_data_alloc_plenty _ ifs

/-- An assertion that throws after the label `process_data` leaves the instance as it was. -/
theorem process_data_alloc_assertion (heap : Heap) (self inst : image_pam) (ifs : ifstream)
    (e : Failure) (h : process_data_alloc heap self ifs = .ok (inst, some (.assertion e))) :
    inst = self := by
  unfold process_data_alloc at h
  split at h
  · simp only [Except.ok.injEq, Prod.mk.injEq] at h
    exact h.1.symm
  · simp only at h
    split at h
    · split at h
      · split at h
        · split at h
          · simp at h
          · simp at h
        · simp at h
      · simp at h
    · simp only [Except.ok.injEq, Prod.mk.injEq] at h
      exact h.1.symm

/-- Whatever the heap, the file and the prior state of the instance, when an assertion of
`parse` throws the instance holds no bitmap afterwards: `data` is null and `size` is 0. -/
theorem assertion_leaves_no_bitmap (heap : Heap) (self inst : image_pam)
    (file : Option (List Nat)) (e : Failure)
    (h : parse_alloc heap self file = .ok (inst, some (.assertion e))) :
    inst.data = none ∧ inst.size = 0 := by
  unfold parse_alloc at h
  cases file with
  | none =>
    simp only [Except.ok.injEq, Prod.mk.injEq] at h
    rw [← h.1]
    exact ⟨rfl, rfl⟩
  | some bytes =>
    simp only at h
    obtain ⟨⟨hdr, ifs, t⟩, hr⟩ := scan_total bytes
    rw [hr] at h
    cases t with
    | some e1 =>
      simp only [Except.ok.injEq, Prod.mk.injEq] at h
      rw [← h.1]
      exact ⟨rfl, rfl⟩
    | none =>
      simp only at h
      rw [process_data_alloc_assertion _ _ _ _ _ h]
      exact ⟨rfl, rfl⟩

/-- Every file that decodes on a heap that grants both allocations, decoded on a heap that
refuses the row buffer: `parse` ends in `std::bad_alloc` and leaves in the instance the size of
the bitmap and a bitmap of that size, all zero. -/
theorem bad_alloc_row_buffer (heap : Heap) (self inst : image_pam) (file : List Nat)
    (h : parse self (some file) = .ok ⟨inst, none⟩)
    (h0 : ∀ n, heap 0 n = true) (h1 : ∀ n, heap 1 n = false) :
    parse_alloc heap self (some file) =
        .ok (⟨inst.hdr, some (List.replicate inst.size 0), inst.size⟩, some .bad_alloc) ∧
      0 < inst.size := by
  obtain ⟨hdr, ifs, out, hsc, hv, hs, hbuf, hg, hlen, hinst, -, -⟩ := parse_ok self file inst h
  obtain ⟨hw, hh, -⟩ := validate_none hdr hv
  have hsz : buffer_size hdr = 4 * (hdr.width * hdr.height) := buffer_size_eq hdr hs
  have hm : (expected_size hdr : Int) = (measure ifs).2 := by
    rw [measure_good ifs hg, expected_size_eq _ hs, hbuf, hlen]
    push_cast
    ring
  subst hinst
  refine ⟨?_, Nat.mul_pos (by omega) (Nat.mul_pos (by omega) (by omega))⟩
  unfold parse_alloc
  simp only [hsc]
  unfold process_data_alloc
  simp only [hv, if_pos hm, h0, h1, if_true, hsz]
  rfl

/-- Every file that decodes on a heap that grants both allocations, decoded on a heap that
refuses the bitmap: `parse` ends in `std::bad_alloc` with `data` null and `size` not 0. -/
theorem bad_alloc_bitmap (heap : Heap) (self inst : image_pam) (file : List Nat)
    (h : parse self (some file) = .ok ⟨inst, none⟩) (h0 : ∀ n, heap 0 n = false) :
    parse_alloc heap self (some file) = .ok (⟨inst.hdr, none, inst.size⟩, some .bad_alloc) ∧
      0 < inst.size := by
  obtain ⟨hdr, ifs, out, hsc, hv, hs, hbuf, hg, hlen, hinst, -, -⟩ := parse_ok self file inst h
  obtain ⟨hw, hh, -⟩ := validate_none hdr hv
  have hsz : buffer_size hdr = 4 * (hdr.width * hdr.height) := buffer_size_eq hdr hs
  have hm : (expected_size hdr : Int) = (measure ifs).2 := by
    rw [measure_good ifs hg, expected_size_eq _ hs, hbuf, hlen]
    push_cast
    ring
  subst hinst
  refine ⟨?_, Nat.mul_pos (by omega) (Nat.mul_pos (by omega) (by omega))⟩
  unfold parse_alloc
  simp only [hsc]
  unfold process_data_alloc
  simp only [hv, if_pos hm, h0, hsz]
  rfl

/-! ## Decimal numerals -/

theorem decimal_append (a b : List Nat) :
    decimal (a ++ b) = b.foldl (fun acc d => acc * 10 + (d - 48)) (decimal a) := by
  unfold decimal
  rw [List.foldl_append]

theorem decimal_zeros (z : Nat) : decimal (List.replicate z 48) = 0 := by
  induction z with
  | zero => rfl
  | succ z ih =>
    rw [List.replicate_succ', decimal_append, ih]
    rfl

/-- The conversion of `std::stoi` on a numeral with leading zeros gives back the number. -/
theorem decimal_numeral (z v : Nat) : decimal (List.replicate z 48 ++ numeral v) = v := by
  rw [decimal_append, decimal_zeros]
  have key : ∀ l : List Nat, (l.reverse.map (fun d => d + 48)).foldl
      (fun acc d => acc * 10 + (d - 48)) 0 = Nat.ofDigits 10 l := by
    intro l
    induction l with
    | nil => rfl
    | cons d l ih =>
      rw [List.reverse_cons, List.map_append, List.foldl_append, ih, Nat.ofDigits_cons]
      simp only [List.map_cons, List.map_nil, List.foldl_cons, List.foldl_nil]
      omega
  unfold numeral
  rw [key, Nat.ofDigits_digits]

theorem numeral_isdigit (v : Nat) : ∀ d ∈ numeral v, isdigit d = true := by
  intro d hd
  unfold numeral at hd
  simp only [List.mem_map, List.mem_reverse] at hd
  obtain ⟨a, ha, rfl⟩ := hd
  have := Nat.digits_lt_base (by norm_num : 1 < 10) ha
  simp only [isdigit, Bool.and_eq_true, decide_eq_true_eq]
  omega

theorem numeral_ne_nil (v : Nat) (h : 1 ≤ v) : numeral v ≠ [] := by
  unfold numeral
  intro h0
  simp only [List.map_eq_nil_iff, List.reverse_eq_nil_iff] at h0
  exact (Nat.digits_ne_nil_iff_ne_zero.2 (by omega)) h0

/-! ## Claims -/

/-- C1: when `parse` returns normally with tuple type RGB, the file ends in a terminator line
followed by a payload of `3 * width * height` bytes, and for every pixel index `p` the output
bytes at offsets `4p`, `4p+1`, `4p+2`, `4p+3` are `payload[3p+2]`, `payload[3p+1]`,
`payload[3p]` and 255 (blue, green, red, full opacity). -/
theorem C1_rgb_pixels (self : image_pam) (file : List Nat) (inst : image_pam)
    (h : parse self (some file) = .ok ⟨inst, none⟩) (hrgb : inst.hdr.tupltype = 1) :
    ∃ head line payload out, file = head ++ (line ++ [10]) ++ payload ∧
      c_str line = ENDHDR ∧ 10 ∉ line ∧
      payload.length = 3 * (inst.hdr.width * inst.hdr.height) ∧
      inst.data = some out ∧
      ∀ p, p < inst.hdr.width * inst.hdr.height →
        (∃ b, payload[3 * p + 2]? = some b ∧ out[4 * p]? = some b) ∧
        (∃ g, payload[3 * p + 1]? = some g ∧ out[4 * p + 1]? = some g) ∧
        (∃ r, payload[3 * p]? = some r ∧ out[4 * p + 2]? = some r) ∧
        out[4 * p + 3]? = some 255 := by
  obtain ⟨head, line, payload, out, h1, h2, h3, -, -, h4, h5, -, -, hq⟩ :=
    parse_ok_payload self file inst h
  have hb : bytes_per_pixel inst.hdr = 3 := by simp [bytes_per_pixel, hrgb]
  rw [hb] at h4
  refine ⟨head, line, payload, out, h1, h2, h3, h4, h5, ?_⟩
  intro p hp
  have get : ∀ i, i < payload.length → payload[i]? = some (payload.getD i 0) := by
    intro i hi
    simp [List.getD_eq_getElem?_getD, List.getElem?_eq_getElem hi]
  refine ⟨⟨payload.getD (3 * p + 2) 0, get _ (by omega), ?_⟩,
    ⟨payload.getD (3 * p + 1) 0, get _ (by omega), ?_⟩,
    ⟨payload.getD (3 * p) 0, get _ (by omega), ?_⟩, ?_⟩
  · rw [hq (4 * p) (by omega)]
    simp only [outByte, hrgb, if_true, rowByte]
    rw [if_neg (by omega)]
    congr 2
    omega
  · rw [hq (4 * p + 1) (by omega)]
    simp only [outByte, hrgb, if_true, rowByte]
    rw [if_neg (by omega)]
    congr 2
    omega
  · rw [hq (4 * p + 2) (by omega)]
    simp only [outByte, hrgb, if_true, rowByte]
    rw [if_neg (by omega)]
    congr 2
    omega
  · rw [hq (4 * p + 3) (by omega)]
    simp only [outByte, hrgb, if_true, rowByte]
    rw [if_pos (by omega)]

/-- C1, witness: the 1x1 RGB image with payload 10 20 30 decodes to 30 20 10 FF. -/
theorem C1_rgb_pixels_witness :
    parse fresh (some sample_rgb) =
        .ok ⟨⟨⟨1, 1, 3, 255, 1⟩, some [0x30, 0x20, 0x10, 0xFF], 4⟩, none⟩ ∧
      ∃ head line payload out, sample_rgb = head ++ (line ++ [10]) ++ payload ∧
        c_str line = ENDHDR ∧ 10 ∉ line ∧ payload.length = 3 * (1 * 1) ∧
        some [0x30, 0x20, 0x10, 0xFF] = some out ∧
        ∀ p, p < 1 * 1 →
          (∃ b, payload[3 * p + 2]? = some b ∧ out[4 * p]? = some b) ∧
          (∃ g, payload[3 * p + 1]? = some g ∧ out[4 * p + 1]? = some g) ∧
          (∃ r, payload[3 * p]? = some r ∧ out[4 * p + 2]? = some r) ∧
          out[4 * p + 3]? = some 255 :=
  ⟨rfl, C1_rgb_pixels fresh sample_rgb ⟨⟨1, 1, 3, 255, 1⟩, some [0x30, 0x20, 0x10, 0xFF], 4⟩
    rfl rfl⟩

/-- C2: when `parse` returns normally with tuple type RGB_ALPHA, the file ends in a terminator
line followed by a payload of `4 * width * height` bytes, and the output buffer is that
payload, byte for byte. -/
theorem C2_rgb_alpha_verbatim (self : image_pam) (file : List Nat) (inst : image_pam)
    (h : parse self (some file) = .ok ⟨inst, none⟩) (halpha : inst.hdr.tupltype = 2) :
    ∃ head line payload, file = head ++ (line ++ [10]) ++ payload ∧
      c_str line = ENDHDR ∧ 10 ∉ line ∧
      payload.length = 4 * (inst.hdr.width * inst.hdr.height) ∧
      inst.data = some payload := by
  obtain ⟨head, line, payload, out, h1, h2, h3, -, -, h4, h5, -, h6, hq⟩ :=
    parse_ok_payload self file inst h
  have hb : bytes_per_pixel inst.hdr = 4 := by simp [bytes_per_pixel, halpha]
  rw [hb] at h4
  refine ⟨head, line, payload, h1, h2, h3, h4, ?_⟩
  rw [h5]
  congr 1
  apply List.ext_getElem?
  intro q
  by_cases hlt : q < 4 * (inst.hdr.width * inst.hdr.height)
  · rw [hq q hlt]
    simp only [outByte, halpha, List.getD_eq_getElem?_getD]
    rw [List.getElem?_eq_getElem (by omega)]
    simp
  · rw [List.getElem?_eq_none (by omega), List.getElem?_eq_none (by omega)]

/-- C2, witness: the 1x1 RGB_ALPHA image with payload 10 20 30 80 decodes to 10 20 30 80. -/
theorem C2_rgb_alpha_verbatim_witness :
    parse fresh (some sample_rgba) =
        .ok ⟨⟨⟨1, 1, 4, 255, 2⟩, some [0x10, 0x20, 0x30, 0x80], 4⟩, none⟩ ∧
      ∃ head line payload, sample_rgba = head ++ (line ++ [10]) ++ payload ∧
        c_str line = ENDHDR ∧ 10 ∉ line ∧ payload.length = 4 * (1 * 1) ∧
        some [0x10, 0x20, 0x30, 0x80] = some payload :=
  ⟨rfl, C2_rgb_alpha_verbatim fresh sample_rgba
    ⟨⟨1, 1, 4, 255, 2⟩, some [0x10, 0x20, 0x30, 0x80], 4⟩ rfl rfl⟩

/-- C3: when `parse` returns normally, whatever the tuple type, the output stride
`actual_stride` is `width * 4`, and the member `size` and the length of the output buffer are
both `width * 4 * height`. -/
theorem C3_stride_and_size (self : image_pam) (file : List Nat) (inst : image_pam)
    (h : parse self (some file) = .ok ⟨inst, none⟩) :
    actual_stride inst.hdr = inst.hdr.width * 4 ∧
      inst.size = inst.hdr.width * 4 * inst.hdr.height ∧
      ∃ out, inst.data = some out ∧ out.length = inst.hdr.width * 4 * inst.hdr.height := by
  obtain ⟨head, line, payload, out, -, -, -, -, hs, -, h5, h6, h7, -⟩ :=
    parse_ok_payload self file inst h
  refine ⟨by rw [actual_stride_eq _ hs, Nat.mul_comm], ?_, out, h5, ?_⟩
  · rw [h6]; ring
  · rw [h7]; ring

/-- C3, witness: the 1x1 RGB image has stride 4 and a 4-byte buffer. -/
theorem C3_stride_and_size_witness :
    parse fresh (some sample_rgb) =
        .ok ⟨⟨⟨1, 1, 3, 255, 1⟩, some [0x30, 0x20, 0x10, 0xFF], 4⟩, none⟩ ∧
      actual_stride ⟨1, 1, 3, 255, 1⟩ = 1 * 4 ∧ 4 = 1 * 4 * 1 ∧
      ∃ out, some [0x30, 0x20, 0x10, 0xFF] = some out ∧ out.length = 1 * 4 * 1 :=
  ⟨rfl, C3_stride_and_size fresh sample_rgb ⟨⟨1, 1, 3, 255, 1⟩, some [0x30, 0x20, 0x10, 0xFF], 4⟩
    rfl⟩
/-- C4: when the scanner reaches `process_data` and the header validates (all five fields
non-zero, maxval 255), `parse` returns normally if and only if the number of bytes after the
scanner's position is exactly `bytes_per_pixel * width * height`; with any other number, in
particular one byte fewer or one byte more, it throws at the size check, reporting the expected
and the actual number. -/
theorem C4_size_check (self : image_pam) (file : List Nat) (hdr : header) (ifs : ifstream)
    (hscan : scan file = .ok (hdr, ifs, none)) (hval : validate hdr = none) :
    ((∃ inst, parse self (some file) = .ok ⟨inst, none⟩) ↔
        (file.drop ifs.pos).length = bytes_per_pixel hdr * hdr.width * hdr.height) ∧
      ((file.drop ifs.pos).length ≠ bytes_per_pixel hdr * hdr.width * hdr.height →
        parse self (some file) = .ok ⟨⟨hdr, none, 0⟩, some (.SizeMismatch
          (bytes_per_pixel hdr * hdr.width * hdr.height) (file.drop ifs.pos).length)⟩) ∧
      ((file.drop ifs.pos).length + 1 = bytes_per_pixel hdr * hdr.width * hdr.height →
        parse self (some file) = .ok ⟨⟨hdr, none, 0⟩, some (.SizeMismatch
          (bytes_per_pixel hdr * hdr.width * hdr.height) (file.drop ifs.pos).length)⟩) ∧
      ((file.drop ifs.pos).length = bytes_per_pixel hdr * hdr.width * hdr.height + 1 →
        parse self (some file) = .ok ⟨⟨hdr, none, 0⟩, some (.SizeMismatch
          (bytes_per_pixel hdr * hdr.width * hdr.height) (file.drop ifs.pos).length)⟩) := by
  obtain ⟨hbuf, hfail, hp, hs, heof, -⟩ := scan_inv file hdr ifs hscan
  have hpos := (expected_size_pos hdr hs hval).2
  rw [expected_size_eq hdr hs] at hpos
  have key : (file.drop ifs.pos).length ≠ bytes_per_pixel hdr * hdr.width * hdr.height →
      parse self (some file) = .ok ⟨⟨hdr, none, 0⟩, some (.SizeMismatch
        (bytes_per_pixel hdr * hdr.width * hdr.height) (file.drop ifs.pos).length)⟩ := by
    intro hne
    rw [parse_some, hscan]
    simp only
    rcases process_data_spec ⟨hdr, none, 0⟩ ifs hs hval with ⟨-, hl, -⟩ | ⟨hn, hb⟩
    · exfalso
      apply hne
      simp only at hl
      rw [List.length_drop, ← hbuf, hl, Nat.mul_assoc]
      omega
    · rw [hb]
      simp only [expected_size_eq hdr hs, Nat.mul_assoc]
      congr 4
      by_cases hg : ifs.good = true
      · rw [measure_good ifs hg, hbuf, List.length_drop]
        omega
      · rw [measure_not_good ifs (by simpa using hg)]
        have he : ifs.eofbit = true := by
          simp only [ifstream.good, ifstream.fail] at hg hfail
          simpa [hfail] using hg
        rw [List.length_drop, heof he]
        simp
  refine ⟨⟨?_, ?_⟩, key, fun h => key (by omega), fun h => key (by omega)⟩
  · rintro ⟨inst, hi⟩
    by_contra hne
    rw [key hne] at hi
    simp at hi
  · intro he
    rw [parse_some, hscan]
    simp only
    rcases process_data_spec ⟨hdr, none, 0⟩ ifs hs hval with ⟨-, -, out, ho, -⟩ | ⟨hn, -⟩
    · exact ⟨_, ho⟩
    · exfalso
      apply hn
      have hg : ifs.good = true := by
        by_contra hg
        have he2 : ifs.eofbit = true := by
          simp only [ifstream.good, ifstream.fail] at hg hfail
          simpa [hfail] using hg
        rw [List.length_drop, heof he2, Nat.mul_assoc] at he
        omega
      refine ⟨hg, ?_⟩
      simp only
      rw [List.length_drop, Nat.mul_assoc] at he
      rw [hbuf]
      omega

/-- C4, witness: the 1x1 RGB header followed by four bytes instead of three. -/
theorem C4_size_check_witness :
    scan (sample_rgb ++ [0x40]) =
        .ok (⟨1, 1, 3, 255, 1⟩, ⟨sample_rgb ++ [0x40], 59, false, false⟩, none) ∧
      validate ⟨1, 1, 3, 255, 1⟩ = none ∧
      parse fresh (some (sample_rgb ++ [0x40])) =
        .ok ⟨⟨⟨1, 1, 3, 255, 1⟩, none, 0⟩, some (.SizeMismatch 3 4)⟩ :=
  ⟨rfl, rfl, (C4_size_check fresh (sample_rgb ++ [0x40]) ⟨1, 1, 3, 255, 1⟩
    ⟨sample_rgb ++ [0x40], 59, false, false⟩ (by rfl) (by rfl)).2.2.2 (by rfl)⟩

/-- C5: when the scanner reaches `process_data` with width, height, depth and tupltype
non-zero and a maxval between 1 and 65535 other than 255, `parse` throws at the assertion
`hdr.maxval == 255` and leaves no buffer (null `data`, `size` 0). -/
theorem C5_unsupported_maxval (self : image_pam) (file : List Nat) (hdr : header)
    (ifs : ifstream) (hscan : scan file = .ok (hdr, ifs, none))
    (hw : hdr.width ≠ 0) (hh : hdr.height ≠ 0) (hd : hdr.depth ≠ 0) (ht : hdr.tupltype ≠ 0)
    (hlo : 1 ≤ hdr.maxval) (hhi : hdr.maxval ≤ 65535) (hne : hdr.maxval ≠ 255) :
    parse self (some file) = .ok ⟨⟨hdr, none, 0⟩, some .UnsupportedMaxval⟩ := by
  rw [parse_some, hscan]
  simp only
  apply process_data_invalid
  have hm : hdr.maxval ≠ 0 := by omega
  simp [validate, hw, hh, hd, ht, hm, hne]

/-- C5, witness: a header with MAXVAL 65535. -/
theorem C5_unsupported_maxval_witness :
    scan sample_maxval = .ok (⟨1, 1, 3, 65535, 1⟩, ⟨sample_maxval, 61, false, false⟩, none) ∧
      parse fresh (some sample_maxval) =
        .ok ⟨⟨⟨1, 1, 3, 65535, 1⟩, none, 0⟩, some .UnsupportedMaxval⟩ :=
  ⟨rfl, C5_unsupported_maxval fresh sample_maxval ⟨1, 1, 3, 65535, 1⟩
    ⟨sample_maxval, 61, false, false⟩ rfl (by decide) (by decide) (by decide) (by decide)
    (by decide) (by decide) (by decide)⟩

/-- C6: when the scanner reaches `process_data` while one of width, height, depth, maxval or
tupltype is zero, `parse` throws at the `!= 0` assertion of a field that is zero, whatever
the maxval is and however many bytes follow: those assertions come first. -/
theorem C6_missing_field (self : image_pam) (file : List Nat) (hdr : header) (ifs : ifstream)
    (hscan : scan file = .ok (hdr, ifs, none))
    (hz : hdr.width = 0 ∨ hdr.height = 0 ∨ hdr.depth = 0 ∨ hdr.maxval = 0 ∨ hdr.tupltype = 0) :
    ∃ f, hdr.get f = 0 ∧
      parse self (some file) = .ok ⟨⟨hdr, none, 0⟩, some (.MissingHeaderField f)⟩ := by
  rw [parse_some, hscan]
  simp only
  by_cases h1 : hdr.width = 0
  · exact ⟨.width, h1, process_data_invalid _ _ _ (by simp [validate, h1])⟩
  by_cases h2 : hdr.height = 0
  · exact ⟨.height, h2, process_data_invalid _ _ _ (by simp [validate, h1, h2])⟩
  by_cases h3 : hdr.depth = 0
  · exact ⟨.depth, h3, process_data_invalid _ _ _ (by simp [validate, h1, h2, h3])⟩
  by_cases h4 : hdr.maxval = 0
  · exact ⟨.maxval, h4, process_data_invalid _ _ _ (by simp [validate, h1, h2, h3, h4])⟩
  by_cases h5 : hdr.tupltype = 0
  · exact ⟨.tupltype, h5, process_data_invalid _ _ _ (by simp [validate, h1, h2, h3, h4, h5])⟩
  · exfalso
    rcases hz with h | h | h | h | h <;> contradiction

/-- C6, witness: a header without a HEIGHT line, whose maxval is not 255 and which has no
payload, is reported for the missing height. -/
theorem C6_missing_field_witness :
    scan sample_no_height =
        .ok (⟨1, 0, 3, 7, 1⟩, ⟨sample_no_height, 48, false, false⟩, none) ∧
      ∃ f, (⟨1, 0, 3, 7, 1⟩ : header).get f = 0 ∧
        parse fresh (some sample_no_height) =
          .ok ⟨⟨⟨1, 0, 3, 7, 1⟩, none, 0⟩, some (.MissingHeaderField f)⟩ :=
  ⟨rfl, C6_missing_field fresh sample_no_height ⟨1, 0, 3, 7, 1⟩
    ⟨sample_no_height, 48, false, false⟩ rfl (Or.inr (Or.inl rfl))⟩
/-- C7: when the file starts with the line "P7" and every line after it is a well-formed field
line (the last one possibly without its newline), so that no ENDHDR line occurs, `parse`
throws in the end-of-file branch; validation and transcoding are not reached and no buffer is
left. -/
theorem C7_unexpected_eof (self : image_pam) (lines : List (List Nat)) (tail : List Nat)
    (hlines : ∀ ln ∈ lines, 10 ∉ ln ∧ isFieldLine (c_str ln) = true)
    (htail : tail = [] ∨ (10 ∉ tail ∧ isFieldLine (c_str tail) = true)) :
    ∃ hdr, parse self (some (80 :: 55 :: 10 :: (joinLines lines ++ tail))) =
      .ok ⟨⟨hdr, none, 0⟩, some .UnexpectedEof⟩ := by
  obtain ⟨s, hs, hr, -⟩ := scan_magic (joinLines lines ++ tail)
  obtain ⟨hdr1, s1, h1⟩ := headerLoop_no_terminator lines
    ((joinLines lines ++ tail).length + 4) header.zero s tail hr hlines htail
    (by have := joinLines_length lines; simp only [List.length_append]; omega)
  refine ⟨hdr1, ?_⟩
  rw [parse_some, hs, h1]

/-- C7, witness: the five field lines after "P7" and then the end of the file. -/
theorem C7_unexpected_eof_witness :
    sample_no_endhdr = 80 :: 55 :: 10 :: (joinLines [ascii "WIDTH 1", ascii "HEIGHT 1",
        ascii "DEPTH 3", ascii "MAXVAL 255", ascii "TUPLTYPE RGB"] ++ []) ∧
      parse fresh (some sample_no_endhdr) =
        .ok ⟨⟨⟨1, 1, 3, 255, 1⟩, none, 0⟩, some .UnexpectedEof⟩ ∧
      ∃ hdr, parse fresh (some (80 :: 55 :: 10 :: (joinLines [ascii "WIDTH 1",
          ascii "HEIGHT 1", ascii "DEPTH 3", ascii "MAXVAL 255", ascii "TUPLTYPE RGB"] ++ []))) =
        .ok ⟨⟨hdr, none, 0⟩, some .UnexpectedEof⟩ :=
  ⟨by rfl, by rfl, C7_unexpected_eof fresh [ascii "WIDTH 1", ascii "HEIGHT 1", ascii "DEPTH 3",
    ascii "MAXVAL 255", ascii "TUPLTYPE RGB"] [] (by decide) (Or.inl rfl)⟩

/-- C8, as the code has it: when the file starts with the line "P7", the lines after it up to
some line are field lines read whole, and that line is shorter than 50 bytes and its text (up
to a first NUL) matches none of the six patterns of the table (the five field patterns and
ENDHDR), `parse` throws at the assertion `matched_any`, carrying that text. -/
theorem C8_header_syntax_error (self : image_pam) (lines : List (List Nat))
    (bad tail : List Nat)
    (hlines : ∀ ln ∈ lines, 10 ∉ ln ∧ ln.length < 50 ∧ isFieldLine (c_str ln) = true)
    (h10 : 10 ∉ bad) (hlen : bad.length < 50)
    (htail : (∃ rest, tail = 10 :: rest) ∨ (tail = [] ∧ bad ≠ []))
    (hnone : ∀ e ∈ reg_values, regex_match (c_str bad) e.1 = none) :
    ∃ hdr, parse self (some (80 :: 55 :: 10 :: (joinLines lines ++ (bad ++ tail)))) =
      .ok ⟨⟨hdr, none, 0⟩, some (.HeaderSyntaxError (c_str bad))⟩ := by
  obtain ⟨s, hs, hr, -⟩ := scan_magic (joinLines lines ++ (bad ++ tail))
  have hfuel : (joinLines lines ++ (bad ++ tail)).length + 4 =
      ((joinLines lines ++ (bad ++ tail)).length + 3 - lines.length + 1) + lines.length := by
    have := joinLines_length lines
    simp only [List.length_append] at this ⊢
    omega
  obtain ⟨s1, h1, h2, -⟩ := headerLoop_lines lines
    ((joinLines lines ++ (bad ++ tail)).length + 3 - lines.length + 1) header.zero s
    (bad ++ tail) hr hlines
  obtain ⟨s2, h3⟩ := headerLoop_unmatched
    ((joinLines lines ++ (bad ++ tail)).length + 3 - lines.length)
    (lines.foldl (fun h ln => lineEffect h (c_str ln)) header.zero) s1 bad tail h2 h10 hlen
    htail (forRegValues_no_match _ hnone)
  refine ⟨lines.foldl (fun h ln => lineEffect h (c_str ln)) header.zero, ?_⟩
  rw [parse_some, hs, hfuel, h1, h3]

/-- C8, witness: the unknown line "COMMENT x" after a WIDTH line. -/
theorem C8_header_syntax_error_witness :
    sample_unknown = 80 :: 55 :: 10 :: (joinLines [ascii "WIDTH 1"] ++
        (ascii "COMMENT x" ++ 10 :: ascii "HEIGHT 1\nENDHDR\n")) ∧
      parse fresh (some sample_unknown) =
        .ok ⟨⟨⟨1, 0, 0, 0, 0⟩, none, 0⟩, some (.HeaderSyntaxError (ascii "COMMENT x"))⟩ ∧
      ∃ hdr, parse fresh (some (80 :: 55 :: 10 :: (joinLines [ascii "WIDTH 1"] ++
          (ascii "COMMENT x" ++ 10 :: ascii "HEIGHT 1\nENDHDR\n")))) =
        .ok ⟨⟨hdr, none, 0⟩, some (.HeaderSyntaxError (c_str (ascii "COMMENT x")))⟩ :=
  ⟨by rfl, by rfl, C8_header_syntax_error fresh [ascii "WIDTH 1"] (ascii "COMMENT x")
    (10 :: ascii "HEIGHT 1\nENDHDR\n") (by decide) (by decide) (by decide)
    (Or.inl ⟨_, rfl⟩) (by decide)⟩

/-- C8, counterexample: a line of fifty letters X matches none of the five field patterns and
is not ENDHDR, yet `parse` does not throw at `matched_any`: `getline` fails on the line and
the end-of-file branch throws. -/
theorem C8_counterexample :
    sample_long_line = 80 :: 55 :: 10 :: (joinLines [ascii "WIDTH 1"] ++
        (fiftyX ++ 10 :: (ascii "HEIGHT 1\nDEPTH 3\nMAXVAL 255\nTUPLTYPE RGB\nENDHDR\n" ++
          [1, 2, 3]))) ∧
      10 ∉ fiftyX ∧ (∀ e ∈ reg_values, regex_match fiftyX e.1 = none) ∧
      parse fresh (some sample_long_line) =
        .ok ⟨⟨⟨1, 0, 0, 0, 0⟩, none, 0⟩, some .UnexpectedEof⟩ ∧
      parse fresh (some sample_long_line) ≠
        .ok ⟨⟨⟨1, 0, 0, 0, 0⟩, none, 0⟩, some (.HeaderSyntaxError fiftyX)⟩ := by
  refine ⟨by rfl, by decide, by decide, by rfl, ?_⟩
  rw [show parse fresh (some sample_long_line) =
    .ok ⟨⟨⟨1, 0, 0, 0, 0⟩, none, 0⟩, some .UnexpectedEof⟩ by rfl]
  simp

/-- C9: take a line, read whole before the terminator, that the TUPLTYPE pattern matches with
captured token `tok`. If `tok` is neither "RGB" nor "RGB_ALPHA", `parse` throws at the
unsupported-tupltype assertion, carrying the line. If `tok` is "RGB" the loop goes on with
`hdr.tupltype = 1`, and if it is "RGB_ALPHA" with `hdr.tupltype = 2`, the other fields
unchanged. -/
theorem C9_tupltype (self : image_pam) (lines : List (List Nat)) (ln rest tok : List Nat)
    (hlines : ∀ l ∈ lines, 10 ∉ l ∧ l.length < 50 ∧ isFieldLine (c_str l) = true)
    (h10 : 10 ∉ ln) (hlen : ln.length < 50)
    (hcap : regex_match (c_str ln) (.kw_space_any TUPLTYPE) = some tok) :
    (tok ≠ RGB → tok ≠ RGB_ALPHA →
        ∃ hdr, parse self (some (80 :: 55 :: 10 :: (joinLines lines ++ (ln ++ 10 :: rest)))) =
          .ok ⟨⟨hdr, none, 0⟩, some (.UnsupportedTupleType (c_str ln))⟩) ∧
      (tok = RGB → ∀ (fuel : Nat) (hdr : header) (s : ifstream), Reads s (ln ++ 10 :: rest) →
        ∃ s1, Reads s1 rest ∧
          headerLoop (fuel + 1) hdr s = headerLoop fuel { hdr with tupltype := 1 } s1) ∧
      (tok = RGB_ALPHA → ∀ (fuel : Nat) (hdr : header) (s : ifstream),
        Reads s (ln ++ 10 :: rest) →
        ∃ s1, Reads s1 rest ∧
          headerLoop (fuel + 1) hdr s = headerLoop fuel { hdr with tupltype := 2 } s1) := by
  have hd := forRegValues_tupltype _ _ hcap
  refine ⟨?_, ?_, ?_⟩
  · intro h1 h2
    obtain ⟨s, hs, hr, -⟩ := scan_magic (joinLines lines ++ (ln ++ 10 :: rest))
    have hfuel : (joinLines lines ++ (ln ++ 10 :: rest)).length + 4 =
        ((joinLines lines ++ (ln ++ 10 :: rest)).length + 3 - lines.length + 1) +
          lines.length := by
      have := joinLines_length lines
      simp only [List.length_append] at this ⊢
      omega
    obtain ⟨s1, h3, h4, -⟩ := headerLoop_lines lines
      ((joinLines lines ++ (ln ++ 10 :: rest)).length + 3 - lines.length + 1) header.zero s
      (ln ++ 10 :: rest) hr hlines
    obtain ⟨s2, -, h5⟩ := headerLoop_whole_line
      ((joinLines lines ++ (ln ++ 10 :: rest)).length + 3 - lines.length)
      (lines.foldl (fun h l => lineEffect h (c_str l)) header.zero) s1 ln rest h4 h10 hlen
    refine ⟨lines.foldl (fun h l => lineEffect h (c_str l)) header.zero, ?_⟩
    rw [parse_some, hs, hfuel, h3, h5, hd]
    simp [onMatch, h1, h2]
  · intro h1 fuel hdr s hr
    obtain ⟨s1, h2, h3⟩ := headerLoop_whole_line fuel hdr s ln rest hr h10 hlen
    refine ⟨s1, h2, ?_⟩
    rw [h3, hd]
    simp [onMatch, h1, header.assign, uint16_t]
  · intro h1 fuel hdr s hr
    obtain ⟨s1, h2, h3⟩ := headerLoop_whole_line fuel hdr s ln rest hr h10 hlen
    refine ⟨s1, h2, ?_⟩
    rw [h3, hd]
    have hne : RGB_ALPHA ≠ RGB := by decide
    simp [onMatch, h1, hne, header.assign, uint16_t]

/-- C9, witness: the line "TUPLTYPE GRAYSCALE" after a WIDTH line. -/
theorem C9_tupltype_witness :
    sample_grayscale = 80 :: 55 :: 10 :: (joinLines [ascii "WIDTH 1"] ++
        (ascii "TUPLTYPE GRAYSCALE" ++ 10 :: ascii "ENDHDR\n")) ∧
      regex_match (c_str (ascii "TUPLTYPE GRAYSCALE")) (.kw_space_any TUPLTYPE) =
        some (ascii "GRAYSCALE") ∧
      parse fresh (some sample_grayscale) =
        .ok ⟨⟨⟨1, 0, 0, 0, 0⟩, none, 0⟩,
          some (.UnsupportedTupleType (ascii "TUPLTYPE GRAYSCALE"))⟩ ∧
      ∃ hdr, parse fresh (some (80 :: 55 :: 10 :: (joinLines [ascii "WIDTH 1"] ++
          (ascii "TUPLTYPE GRAYSCALE" ++ 10 :: ascii "ENDHDR\n")))) =
        .ok ⟨⟨hdr, none, 0⟩,
          some (.UnsupportedTupleType (c_str (ascii "TUPLTYPE GRAYSCALE")))⟩ :=
  ⟨by rfl, by rfl, by rfl, (C9_tupltype fresh [ascii "WIDTH 1"] (ascii "TUPLTYPE GRAYSCALE")
    (ascii "ENDHDR\n") (ascii "GRAYSCALE") (by decide) (by decide) (by decide) (by rfl)).1
    (by decide) (by decide)⟩

/-- C10, as the code has it: `parse` throws at the magic assertion exactly when the first line
of the file does not begin with the two characters "P7"; what follows them on that line is
not examined. -/
theorem C10_magic_first_two (self : image_pam) (file : List Nat) :
    parse self (some file) = .ok ⟨⟨header.zero, none, 0⟩, some .MagicMismatch⟩ ↔
      ¬ [80, 55] <+: firstLine file := by
  rw [firstLine_magic, ← magic_ok_iff, parse_some]
  unfold scan
  simp only
  by_cases hm : magic_ok ((ifstream.mk file 0 false false).getline 50).2 = true
  · rw [if_pos hm]
    simp only [hm, not_true_eq_false, iff_false]
    intro h
    split at h
    · simp at h
    · rename_i hdr ifs e he
      simp only [Except.ok.injEq, Outcome.mk.injEq, Option.some.injEq] at h
      rw [h.2] at he
      exact headerLoop_ne_magic _ _ _ _ _ he
    · exact process_data_ne_magic _ _ _ h
  · rw [if_neg hm]
    simp [hm]

/-- C10, witness: a file whose first line is "Q7" is refused at the magic assertion. -/
theorem C10_magic_first_two_witness :
    ¬ [80, 55] <+: firstLine (ascii "Q7\nENDHDR\n") ∧
      parse fresh (some (ascii "Q7\nENDHDR\n")) =
        .ok ⟨⟨header.zero, none, 0⟩, some .MagicMismatch⟩ :=
  ⟨by decide, (C10_magic_first_two fresh (ascii "Q7\nENDHDR\n")).2 (by decide)⟩

/-- C10, counterexample: the first line "P7X" is not the two characters "P7", yet `parse`
does not throw at the magic assertion: the image decodes. -/
theorem C10_counterexample :
    firstLine sample_p7x = ascii "P7X" ∧ firstLine sample_p7x ≠ ascii "P7" ∧
      parse fresh (some sample_p7x) =
        .ok ⟨⟨⟨1, 1, 3, 255, 1⟩, some [0x30, 0x20, 0x10, 0xFF], 4⟩, none⟩ :=
  ⟨by rfl, by decide, by rfl⟩
/-- C11, the code at a failing input: in the file `sample_width_65537` the WIDTH line carries
the digits 65537, above the range of the `uint16_t` field, yet `parse` does not throw at the
conversion assertion: `std::stoi` accepts the value, the store keeps 65537 mod 65536 = 1,
and the image decodes as 1 pixel wide. -/
theorem C11_width_65537_accepted :
    regex_match (ascii "WIDTH 65537") (.kw_space_digits WIDTH) = some (ascii "65537") ∧
      decimal (ascii "65537") = 65537 ∧
      forRegValues (ascii "WIDTH 65537") reg_values = .assign .width 65537 ∧
      parse fresh (some sample_width_65537) =
        .ok ⟨⟨⟨1, 1, 3, 255, 1⟩, some [0x30, 0x20, 0x10, 0xFF], 4⟩, none⟩ :=
  ⟨by rfl, by rfl, by rfl, by rfl⟩


/-- C12: take a header made of field lines read whole, in which some numeric field occurs any
number of times, and let its last occurrence be the keyword, one whitespace character and the
decimal numeral of a value `v` in 1..65535, leading zeros allowed. Then the scanner reaches
`process_data` without an error (there is no duplicate check), and the header field, as the
scanner built it and as `parse` leaves it in the instance, is `v`. -/
theorem C12_last_wins (self : image_pam) (f : Field) (hf : f ≠ .tupltype)
    (pre post : List (List Nat)) (ws z v : Nat) (term payload : List Nat)
    (hpre : ∀ ln ∈ pre, 10 ∉ ln ∧ ln.length < 50 ∧ isFieldLine (c_str ln) = true)
    (hpost : ∀ ln ∈ post, 10 ∉ ln ∧ ln.length < 50 ∧ isFieldLine (c_str ln) = true)
    (hlast : ∀ ln ∈ post, regex_match (c_str ln) (fieldPattern f) = none)
    (hws : isspace ws = true) (hnl : ws ≠ 10)
    (hlen : (keyword f ++ ws :: (List.replicate z 48 ++ numeral v)).length < 50)
    (hlo : 1 ≤ v) (hhi : v ≤ 65535)
    (h10 : 10 ∉ term) (htlen : term.length < 50) (hterm : c_str term = ENDHDR) :
    ∃ hdr s o,
      scan (80 :: 55 :: 10 :: (joinLines (pre ++
        (keyword f ++ ws :: (List.replicate z 48 ++ numeral v)) :: post) ++
        (term ++ 10 :: payload))) = .ok (hdr, s, none) ∧
      hdr.get f = v ∧
      parse self (some (80 :: 55 :: 10 :: (joinLines (pre ++
        (keyword f ++ ws :: (List.replicate z 48 ++ numeral v)) :: post) ++
        (term ++ 10 :: payload)))) = .ok o ∧
      o.self.hdr.get f = v := by
  have hne : List.replicate z 48 ++ numeral v ≠ [] := by
    intro h0
    exact numeral_ne_nil v hlo (List.append_eq_nil.1 h0).2
  have hd : ∀ d ∈ List.replicate z 48 ++ numeral v, isdigit d = true := by
    intro d hd
    rcases List.mem_append.1 hd with h | h
    · rw [(List.mem_replicate.1 h).2]; rfl
    · exact numeral_isdigit v d h
  have hdec := decimal_numeral z v
  have hdisp := forRegValues_keyword f hf ws _ hws hne hd
  rw [if_pos (by omega), hdec] at hdisp
  have hcs := keyword_line_c_str f ws _ hws hd
  have hline : 10 ∉ keyword f ++ ws :: (List.replicate z 48 ++ numeral v) ∧
      (keyword f ++ ws :: (List.replicate z 48 ++ numeral v)).length < 50 ∧
      isFieldLine (c_str (keyword f ++ ws :: (List.replicate z 48 ++ numeral v))) = true := by
    refine ⟨keyword_line_no_newline f ws _ hnl hd, hlen, ?_⟩
    rw [hcs, isFieldLine_iff]
    exact ⟨_, _, hdisp⟩
  have hall : ∀ ln ∈ pre ++ (keyword f ++ ws :: (List.replicate z 48 ++ numeral v)) :: post,
      10 ∉ ln ∧ ln.length < 50 ∧ isFieldLine (c_str ln) = true := by
    intro ln hl
    simp only [List.mem_append, List.mem_cons] at hl
    rcases hl with h | h | h
    · exact hpre ln h
    · rw [h]; exact hline
    · exact hpost ln h
  obtain ⟨s, hs, -, -⟩ := scan_header_lines _ term payload hall h10 htlen hterm
  have hget : ((pre ++ (keyword f ++ ws :: (List.replicate z 48 ++ numeral v)) :: post).foldl
      (fun h ln => lineEffect h (c_str ln)) header.zero).get f = v := by
    rw [List.foldl_append, List.foldl_cons, foldl_lineEffect_get f post _ hlast, hcs]
    unfold lineEffect
    rw [hdisp]
    simp only
    rw [assign_get]
    omega
  obtain ⟨o, ho, hoh⟩ := parse_hdr self _ _ _ _ hs
  exact ⟨_, s, o, hs, hget, ho, by rw [hoh]; exact hget⟩

/-- C12, witness: "WIDTH 10" followed by "WIDTH 20" yields width 20, and the 20 pixels of the
payload decode. -/
theorem C12_last_wins_witness :
    numeral 20 = ascii "20" ∧
      parse fresh (some sample_two_widths) =
        .ok ⟨⟨⟨20, 1, 3, 255, 1⟩, some (List.replicate 20 [7, 7, 7, 255]).flatten, 80⟩, none⟩ ∧
      ∃ hdr s o,
        scan (80 :: 55 :: 10 :: (joinLines ([ascii "WIDTH 10"] ++
          (keyword .width ++ 32 :: (List.replicate 0 48 ++ numeral 20)) ::
            [ascii "HEIGHT 1", ascii "DEPTH 3", ascii "MAXVAL 255", ascii "TUPLTYPE RGB"]) ++
          (ascii "ENDHDR" ++ 10 :: List.replicate 60 7))) = .ok (hdr, s, none) ∧
        hdr.get .width = 20 ∧
        parse fresh (some (80 :: 55 :: 10 :: (joinLines ([ascii "WIDTH 10"] ++
          (keyword .width ++ 32 :: (List.replicate 0 48 ++ numeral 20)) ::
            [ascii "HEIGHT 1", ascii "DEPTH 3", ascii "MAXVAL 255", ascii "TUPLTYPE RGB"]) ++
          (ascii "ENDHDR" ++ 10 :: List.replicate 60 7)))) = .ok o ∧
        o.self.hdr.get .width = 20 :=
  ⟨by simp [numeral, ascii], by set_option maxRecDepth 100000 in rfl,
    C12_last_wins fresh .width (by decide) [ascii "WIDTH 10"]
    [ascii "HEIGHT 1", ascii "DEPTH 3", ascii "MAXVAL 255", ascii "TUPLTYPE RGB"] 32 0 20
    (ascii "ENDHDR") (List.replicate 60 7) (by decide) (by decide) (by decide)
    (by rfl) (by decide) (by simp [numeral, keyword, WIDTH]) (by decide) (by decide)
    (by decide) (by decide) (by rfl)⟩

/-- C13, the code at a failing input: `parse` assigns `size` (source line 106) before it
allocates the bitmap (107) and the row buffer (110). The 1x1 RGB image `sample_rgb` decodes on
a heap that grants both requests, where `parse_alloc` is `parse`. On a heap that refuses the
row buffer `parse` fails with `std::bad_alloc` and, whatever the prior state, leaves a blank
bitmap of full size in `data` and 4 in `size`; on a heap that refuses the bitmap it fails and
leaves `data` null and 4 in `size`. -/
theorem C13_bad_alloc_leaves_size_and_buffer :
    (∀ self file, parse_alloc plenty self file = (parse self file).map Outcome.withHeap) ∧
      parse fresh (some sample_rgb) =
        .ok ⟨⟨⟨1, 1, 3, 255, 1⟩, some [0x30, 0x20, 0x10, 0xFF], 4⟩, none⟩ ∧
      (∀ self, parse_alloc no_row_buffer self (some sample_rgb) =
        .ok (⟨⟨1, 1, 3, 255, 1⟩, some [0, 0, 0, 0], 4⟩, some .bad_alloc)) ∧
      (∀ self, parse_alloc no_bitmap self (some sample_rgb) =
        .ok (⟨⟨1, 1, 3, 255, 1⟩, none, 4⟩, some .bad_alloc)) :=
  ⟨parse_alloc_plenty, by rfl, fun _ => by rfl, fun _ => by rfl⟩

/-- C14: the outcome of `parse` on a file that opens does not depend on the prior state of the
instance: header, size, pixel bytes and the assertion thrown, if any, are the same from any
two prior states. Two decodes of the same input therefore give identical bitmaps, and a second
decode through an instance that holds an earlier result gives what a fresh instance gives. -/
theorem C14_prior_state_irrelevant (self1 self2 : image_pam) (file : List Nat) :
    parse self1 (some file) = parse self2 (some file) ∧
      ∀ o, parse self1 (some file) = .ok o → parse o.self (some file) = .ok o := by
  refine ⟨by rw [parse_some, parse_some], ?_⟩
  intro o h
  rw [← h, parse_some, parse_some]

/-- C14, witness: the 1x1 RGB image decoded through a fresh instance and through one that
holds an earlier bitmap, and decoded again through the instance it has just filled. -/
theorem C14_prior_state_irrelevant_witness :
    parse fresh (some sample_rgb) = parse used (some sample_rgb) ∧
      parse (⟨⟨⟨1, 1, 3, 255, 1⟩, some [0x30, 0x20, 0x10, 0xFF], 4⟩, none⟩ : Outcome).self
        (some sample_rgb) =
        .ok ⟨⟨⟨1, 1, 3, 255, 1⟩, some [0x30, 0x20, 0x10, 0xFF], 4⟩, none⟩ :=
  ⟨(C14_prior_state_irrelevant fresh used sample_rgb).1,
    (C14_prior_state_irrelevant fresh used sample_rgb).2 _ (by rfl)⟩

/-- C15: after every normal return of `parse` the header has width, height, depth, maxval and
tupltype all non-zero, maxval equal to 255, and tupltype equal to 1 (RGB) or 2 (RGB_ALPHA). -/
theorem C15_header_invariant (self : image_pam) (file : List Nat) (inst : image_pam)
    (h : parse self (some file) = .ok ⟨inst, none⟩) :
    inst.hdr.width ≠ 0 ∧ inst.hdr.height ≠ 0 ∧ inst.hdr.depth ≠ 0 ∧ inst.hdr.maxval ≠ 0 ∧
      inst.hdr.tupltype ≠ 0 ∧ inst.hdr.maxval = 255 ∧
      (inst.hdr.tupltype = 1 ∨ inst.hdr.tupltype = 2) := by
  obtain ⟨hdr, ifs, out, hsc, hv, -, -, -, -, rfl, -, -⟩ := parse_ok self file inst h
  obtain ⟨h1, h2, h3, h4, h5⟩ := validate_none hdr hv
  have h6 := scan_tupltype file hdr ifs none hsc
  simp only
  refine ⟨h1, h2, h3, by omega, h5, h4, by omega⟩

/-- C15, witness: the header of the decoded 1x1 RGB image. -/
theorem C15_header_invariant_witness :
    parse fresh (some sample_rgb) =
        .ok ⟨⟨⟨1, 1, 3, 255, 1⟩, some [0x30, 0x20, 0x10, 0xFF], 4⟩, none⟩ ∧
      (1 ≠ 0 ∧ 1 ≠ 0 ∧ 3 ≠ 0 ∧ 255 ≠ 0 ∧ 1 ≠ 0 ∧ 255 = 255 ∧ (1 = 1 ∨ 1 = 2)) :=
  ⟨by rfl, C15_header_invariant fresh sample_rgb
    ⟨⟨1, 1, 3, 255, 1⟩, some [0x30, 0x20, 0x10, 0xFF], 4⟩ (by rfl)⟩
/-- C16: take a file made of the line "P7", field lines read whole that assign pairwise
different fields (each field line at most once, as when each of the five appears exactly
once), a terminator line and a payload. Permuting the field lines, payload unchanged, does
not change the outcome of `parse`: the same assertion throws or, on a normal return, header,
size and pixel bytes are the same. -/
theorem C16_line_order (self : image_pam) (lines1 lines2 : List (List Nat))
    (term payload : List Nat) (hperm : lines1.Perm lines2)
    (hlines : ∀ ln ∈ lines1, 10 ∉ ln ∧ ln.length < 50 ∧ isFieldLine (c_str ln) = true)
    (honce : (lines1.map (fun ln => lineField (c_str ln))).Nodup)
    (h10 : 10 ∉ term) (hlen : term.length < 50) (hterm : c_str term = ENDHDR) :
    parse self (some (80 :: 55 :: 10 :: (joinLines lines1 ++ (term ++ 10 :: payload)))) =
      parse self (some (80 :: 55 :: 10 :: (joinLines lines2 ++ (term ++ 10 :: payload)))) := by
  rw [parse_header_lines self lines1 term payload hlines h10 hlen hterm,
    parse_header_lines self lines2 term payload
      (fun ln hl => hlines ln (hperm.mem_iff.2 hl)) h10 hlen hterm,
    headerOf_perm lines1 lines2 hperm honce]

/-- C16, witness: the five field lines of the 1x1 RGB image in source order and reversed. -/
theorem C16_line_order_witness :
    sample_rgb = 80 :: 55 :: 10 :: (joinLines [ascii "WIDTH 1", ascii "HEIGHT 1",
        ascii "DEPTH 3", ascii "MAXVAL 255", ascii "TUPLTYPE RGB"] ++
        (ascii "ENDHDR" ++ 10 :: [0x10, 0x20, 0x30])) ∧
      sample_rgb_reordered = 80 :: 55 :: 10 :: (joinLines [ascii "TUPLTYPE RGB",
        ascii "MAXVAL 255", ascii "DEPTH 3", ascii "HEIGHT 1", ascii "WIDTH 1"] ++
        (ascii "ENDHDR" ++ 10 :: [0x10, 0x20, 0x30])) ∧
      parse fresh (some sample_rgb_reordered) =
        .ok ⟨⟨⟨1, 1, 3, 255, 1⟩, some [0x30, 0x20, 0x10, 0xFF], 4⟩, none⟩ ∧
      parse fresh (some (80 :: 55 :: 10 :: (joinLines [ascii "WIDTH 1", ascii "HEIGHT 1",
        ascii "DEPTH 3", ascii "MAXVAL 255", ascii "TUPLTYPE RGB"] ++
        (ascii "ENDHDR" ++ 10 :: [0x10, 0x20, 0x30])))) =
      parse fresh (some (80 :: 55 :: 10 :: (joinLines [ascii "TUPLTYPE RGB",
        ascii "MAXVAL 255", ascii "DEPTH 3", ascii "HEIGHT 1", ascii "WIDTH 1"] ++
        (ascii "ENDHDR" ++ 10 :: [0x10, 0x20, 0x30])))) :=
  ⟨by rfl, by rfl, by rfl, C16_line_order fresh _ _ (ascii "ENDHDR") [0x10, 0x20, 0x30]
    (List.reverse_perm _).symm (by decide) (by decide) (by decide) (by decide) (by rfl)⟩
/-- C17: take two files that differ only in the digits of one DEPTH line, both values in
1..65535, the header being the line "P7", field lines read whole and a terminator line.
`parse` throws the same assertion on both or returns normally on both, and leaves the same
width, height, maxval, tupltype, size and pixel bytes: depth only has to be non-zero. -/
theorem C17_depth_unconstrained (self : image_pam) (pre post : List (List Nat)) (ws : Nat)
    (digits1 digits2 term payload : List Nat)
    (hpre : ∀ ln ∈ pre, 10 ∉ ln ∧ ln.length < 50 ∧ isFieldLine (c_str ln) = true)
    (hpost : ∀ ln ∈ post, 10 ∉ ln ∧ ln.length < 50 ∧ isFieldLine (c_str ln) = true)
    (hws : isspace ws = true) (hnl : ws ≠ 10)
    (hne1 : digits1 ≠ []) (hd1 : ∀ d ∈ digits1, isdigit d = true)
    (hlen1 : (DEPTH ++ ws :: digits1).length < 50)
    (hlo1 : 1 ≤ decimal digits1) (hhi1 : decimal digits1 ≤ 65535)
    (hne2 : digits2 ≠ []) (hd2 : ∀ d ∈ digits2, isdigit d = true)
    (hlen2 : (DEPTH ++ ws :: digits2).length < 50)
    (hlo2 : 1 ≤ decimal digits2) (hhi2 : decimal digits2 ≤ 65535)
    (h10 : 10 ∉ term) (htlen : term.length < 50) (hterm : c_str term = ENDHDR) :
    ∃ o1 o2,
      parse self (some (80 :: 55 :: 10 :: (joinLines (pre ++ (DEPTH ++ ws :: digits1) :: post) ++
        (term ++ 10 :: payload)))) = .ok o1 ∧
      parse self (some (80 :: 55 :: 10 :: (joinLines (pre ++ (DEPTH ++ ws :: digits2) :: post) ++
        (term ++ 10 :: payload)))) = .ok o2 ∧
      o1.thrown = o2.thrown ∧ o1.self.data = o2.self.data ∧ o1.self.size = o2.self.size ∧
      o1.self.hdr.width = o2.self.hdr.width ∧ o1.self.hdr.height = o2.self.hdr.height ∧
      o1.self.hdr.maxval = o2.self.hdr.maxval ∧ o1.self.hdr.tupltype = o2.self.hdr.tupltype := by
  have line : ∀ digits : List Nat, digits ≠ [] → (∀ d ∈ digits, isdigit d = true) →
      (DEPTH ++ ws :: digits).length < 50 → decimal digits ≤ 65535 →
      (10 ∉ DEPTH ++ ws :: digits ∧ (DEPTH ++ ws :: digits).length < 50 ∧
        isFieldLine (c_str (DEPTH ++ ws :: digits)) = true) ∧
      ∀ h : header, lineEffect h (c_str (DEPTH ++ ws :: digits)) =
        h.assign .depth (decimal digits) := by
    intro digits hne hd hlen hhi
    have hdisp := forRegValues_keyword .depth (by decide) ws digits hws hne hd
    rw [if_pos (by omega)] at hdisp
    have hcs := keyword_line_c_str .depth ws digits hws hd
    simp only [keyword] at hdisp hcs
    refine ⟨⟨keyword_line_no_newline .depth ws digits hnl hd, hlen, ?_⟩, ?_⟩
    · rw [hcs, isFieldLine_iff]
      exact ⟨_, _, hdisp⟩
    · intro h
      rw [hcs]
      unfold lineEffect
      rw [hdisp]
  obtain ⟨hl1, he1⟩ := line digits1 hne1 hd1 hlen1 hhi1
  obtain ⟨hl2, he2⟩ := line digits2 hne2 hd2 hlen2 hhi2
  have hall : ∀ (l : List Nat), (10 ∉ l ∧ l.length < 50 ∧ isFieldLine (c_str l) = true) →
      ∀ ln ∈ pre ++ l :: post, 10 ∉ ln ∧ ln.length < 50 ∧ isFieldLine (c_str ln) = true := by
    intro l hl ln hm
    simp only [List.mem_append, List.mem_cons] at hm
    rcases hm with h | h | h
    · exact hpre ln h
    · rw [h]; exact hl
    · exact hpost ln h
  have hrel : sameButDepth (headerOf (pre ++ (DEPTH ++ ws :: digits1) :: post))
      (headerOf (pre ++ (DEPTH ++ ws :: digits2) :: post)) := by
    unfold headerOf
    simp only [List.foldl_append, List.foldl_cons]
    apply sameButDepth_foldl
    rw [he1, he2]
    refine ⟨rfl, rfl, rfl, rfl, ?_⟩
    simp only [header.assign, uint16_t]
    omega
  obtain ⟨a, b, c, d, e, f, g, -⟩ := outcomeOf_sameButDepth _ _ payload hrel
  exact ⟨_, _, parse_header_lines self _ term payload (hall _ hl1) h10 htlen hterm,
    parse_header_lines self _ term payload (hall _ hl2) h10 htlen hterm, a, b, c, d, e, f, g⟩

/-- C17, witness: "DEPTH 1" and "DEPTH 3" in the header of the 1x1 RGB image: with DEPTH 1 the
three payload bytes are still transcoded as one RGB tuple. -/
theorem C17_depth_unconstrained_witness :
    sample_depth_1 = 80 :: 55 :: 10 :: (joinLines ([ascii "WIDTH 1", ascii "HEIGHT 1"] ++
        (DEPTH ++ 32 :: ascii "1") :: [ascii "MAXVAL 255", ascii "TUPLTYPE RGB"]) ++
        (ascii "ENDHDR" ++ 10 :: [0x10, 0x20, 0x30])) ∧
      parse fresh (some sample_depth_1) =
        .ok ⟨⟨⟨1, 1, 1, 255, 1⟩, some [0x30, 0x20, 0x10, 0xFF], 4⟩, none⟩ ∧
      ∃ o1 o2,
        parse fresh (some (80 :: 55 :: 10 :: (joinLines ([ascii "WIDTH 1", ascii "HEIGHT 1"] ++
          (DEPTH ++ 32 :: ascii "1") :: [ascii "MAXVAL 255", ascii "TUPLTYPE RGB"]) ++
          (ascii "ENDHDR" ++ 10 :: [0x10, 0x20, 0x30])))) = .ok o1 ∧
        parse fresh (some (80 :: 55 :: 10 :: (joinLines ([ascii "WIDTH 1", ascii "HEIGHT 1"] ++
          (DEPTH ++ 32 :: ascii "3") :: [ascii "MAXVAL 255", ascii "TUPLTYPE RGB"]) ++
          (ascii "ENDHDR" ++ 10 :: [0x10, 0x20, 0x30])))) = .ok o2 ∧
        o1.thrown = o2.thrown ∧ o1.self.data = o2.self.data ∧ o1.self.size = o2.self.size ∧
        o1.self.hdr.width = o2.self.hdr.width ∧ o1.self.hdr.height = o2.self.hdr.height ∧
        o1.self.hdr.maxval = o2.self.hdr.maxval ∧
        o1.self.hdr.tupltype = o2.self.hdr.tupltype :=
  ⟨by rfl, by rfl, C17_depth_unconstrained fresh [ascii "WIDTH 1", ascii "HEIGHT 1"]
    [ascii "MAXVAL 255", ascii "TUPLTYPE RGB"] 32 (ascii "1") (ascii "3") (ascii "ENDHDR")
    [0x10, 0x20, 0x30] (by decide) (by decide) (by rfl) (by decide) (by decide) (by decide)
    (by decide) (by decide) (by decide) (by decide) (by decide) (by decide) (by decide)
    (by decide) (by decide) (by decide) (by rfl)⟩
/-- C18: on a file made of the line "P7", field lines read whole, a terminator line and any
bytes `payload` after its newline, the scanner stops at that first ENDHDR line: it reaches
`process_data` with the header built from the field lines alone, the stream good and
positioned on the first byte of `payload`; the size check counts exactly `payload` and the
output is a function of header and `payload`. Nothing after the terminator is read as a
header line, whatever the payload spells. -/
theorem C18_scan_stops_at_endhdr (self : image_pam) (lines : List (List Nat))
    (term payload : List Nat)
    (hlines : ∀ ln ∈ lines, 10 ∉ ln ∧ ln.length < 50 ∧ isFieldLine (c_str ln) = true)
    (h10 : 10 ∉ term) (hlen : term.length < 50) (hterm : c_str term = ENDHDR) :
    ∃ s, scan (80 :: 55 :: 10 :: (joinLines lines ++ (term ++ 10 :: payload))) =
        .ok (headerOf lines, s, none) ∧
      s.good = true ∧
      s.pos = (80 :: 55 :: 10 :: (joinLines lines ++ (term ++ [10]))).length ∧
      (80 :: 55 :: 10 :: (joinLines lines ++ (term ++ 10 :: payload))).drop s.pos = payload ∧
      parse self (some (80 :: 55 :: 10 :: (joinLines lines ++ (term ++ 10 :: payload)))) =
        .ok (outcomeOf (headerOf lines) payload) := by
  obtain ⟨s, hs, hr, hb⟩ := scan_header_lines lines term payload hlines h10 hlen hterm
  obtain ⟨-, -, hp, -, -, -⟩ := scan_inv _ _ _ hs
  have hd : (80 :: 55 :: 10 :: (joinLines lines ++ (term ++ 10 :: payload))).drop s.pos =
      payload := by rw [← hb]; exact hr.2
  refine ⟨s, hs, hr.1, ?_, hd, parse_header_lines self lines term payload hlines h10 hlen hterm⟩
  have hl := congrArg List.length hd
  rw [List.length_drop] at hl
  simp only [List.length_cons, List.length_append, List.length_nil] at hl hp ⊢
  omega

/-- C18, witness: a payload that spells "WIDTH 9" and "ENDHDR" lines leaves width 2 and is
copied as pixel bytes. -/
theorem C18_scan_stops_at_endhdr_witness :
    sample_payload_text = 80 :: 55 :: 10 :: (joinLines [ascii "WIDTH 2", ascii "HEIGHT 2",
        ascii "DEPTH 4", ascii "MAXVAL 255", ascii "TUPLTYPE RGB_ALPHA"] ++
        (ascii "ENDHDR" ++ 10 :: ascii "WIDTH 9\nENDHDR\nx")) ∧
      parse fresh (some sample_payload_text) =
        .ok ⟨⟨⟨2, 2, 4, 255, 2⟩, some (ascii "WIDTH 9\nENDHDR\nx"), 16⟩, none⟩ ∧
      ∃ s, scan (80 :: 55 :: 10 :: (joinLines [ascii "WIDTH 2", ascii "HEIGHT 2",
          ascii "DEPTH 4", ascii "MAXVAL 255", ascii "TUPLTYPE RGB_ALPHA"] ++
          (ascii "ENDHDR" ++ 10 :: ascii "WIDTH 9\nENDHDR\nx"))) =
          .ok (headerOf [ascii "WIDTH 2", ascii "HEIGHT 2", ascii "DEPTH 4",
            ascii "MAXVAL 255", ascii "TUPLTYPE RGB_ALPHA"], s, none) ∧
        s.good = true ∧
        s.pos = (80 :: 55 :: 10 :: (joinLines [ascii "WIDTH 2", ascii "HEIGHT 2",
          ascii "DEPTH 4", ascii "MAXVAL 255", ascii "TUPLTYPE RGB_ALPHA"] ++
          (ascii "ENDHDR" ++ [10]))).length ∧
        (80 :: 55 :: 10 :: (joinLines [ascii "WIDTH 2", ascii "HEIGHT 2",
          ascii "DEPTH 4", ascii "MAXVAL 255", ascii "TUPLTYPE RGB_ALPHA"] ++
          (ascii "ENDHDR" ++ 10 :: ascii "WIDTH 9\nENDHDR\nx"))).drop s.pos =
          ascii "WIDTH 9\nENDHDR\nx" ∧
        parse fresh (some (80 :: 55 :: 10 :: (joinLines [ascii "WIDTH 2", ascii "HEIGHT 2",
          ascii "DEPTH 4", ascii "MAXVAL 255", ascii "TUPLTYPE RGB_ALPHA"] ++
          (ascii "ENDHDR" ++ 10 :: ascii "WIDTH 9\nENDHDR\nx")))) =
          .ok (outcomeOf (headerOf [ascii "WIDTH 2", ascii "HEIGHT 2", ascii "DEPTH 4",
            ascii "MAXVAL 255", ascii "TUPLTYPE RGB_ALPHA"]) (ascii "WIDTH 9\nENDHDR\nx")) :=
  ⟨by rfl, by rfl, C18_scan_stops_at_endhdr fresh [ascii "WIDTH 2", ascii "HEIGHT 2",
    ascii "DEPTH 4", ascii "MAXVAL 255", ascii "TUPLTYPE RGB_ALPHA"] (ascii "ENDHDR")
    (ascii "WIDTH 9\nENDHDR\nx") (by decide) (by decide) (by decide) (by rfl)⟩
/-- C19: take a header that validates, a good stream holding exactly
`bytes_per_pixel * width * height` unread bytes (the size check passed), an input row buffer
of `stride` bytes and an output buffer of `size = width * 4 * height` bytes with any contents.
Then (1) the outer loop ends without an out-of-bounds read or write whenever it may test its
condition more than `height` times, and every byte of the output is then the transcoded
payload byte, whatever the buffer held before: every byte is written; (2) allowed only
`height` tests it does not end: it runs exactly `height` times; (3) for RGB the inner loop on
any row ends in bounds when it may test its condition `width + 1` times and does not end
with `width` tests: it runs exactly `width` times. An access outside a buffer would make
the loops yield `Stuck.bounds`. -/
theorem C19_transcode_in_bounds (hdr : header) (hs : hdr.Small) (hv : validate hdr = none)
    (ifs : ifstream) (hg : ifs.good = true)
    (hlen : ifs.buf.length = ifs.pos + bytes_per_pixel hdr * (hdr.width * hdr.height))
    (sd0 data0 : List Nat) (hsd : sd0.length = stride hdr)
    (hdata : data0.length = buffer_size hdr) :
    (∀ fuel, hdr.height < fuel →
        ∃ out, rowLoop fuel 0 0 hdr ifs sd0 data0 = .ok out ∧
          out.length = hdr.width * 4 * hdr.height ∧
          ∀ q, q < hdr.width * 4 * hdr.height →
            out[q]? = some (outByte hdr (ifs.buf.drop ifs.pos) q)) ∧
      rowLoop hdr.height 0 0 hdr ifs sd0 data0 = .error .fuel ∧
      (hdr.tupltype = 1 → ∀ (l : Nat) (sd data : List Nat), sd.length = stride hdr →
        l + 4 * hdr.width ≤ data.length →
        (∃ out, pixelLoop (hdr.width + 1) 0 0 (stride hdr) l sd data = .ok out ∧
          out.length = data.length) ∧
        pixelLoop hdr.width 0 0 (stride hdr) l sd data = .error .fuel) := by
  obtain ⟨hw, hh, -⟩ := validate_none hdr hv
  rw [stride_eq hdr hs] at hsd
  rw [buffer_size_eq hdr hs] at hdata
  have hsz : hdr.width * 4 * hdr.height = 4 * (hdr.width * hdr.height) := by ring
  rw [hsz]
  refine ⟨?_, ?_, ?_⟩
  · intro fuel hf
    obtain ⟨out, ho, hl, hq⟩ := rowLoop_spec hdr hs (by omega) ifs.pos hdr.height 0 fuel ifs
      sd0 data0 hf (by rw [Nat.zero_add, Nat.mul_comm]) hg hlen (by simp) hsd hdata
    simp only [Nat.mul_zero] at ho hq
    refine ⟨out, ho, by omega, ?_⟩
    intro q hlt
    rw [hq q, if_pos ⟨Nat.zero_le _, hlt⟩]
  · have := rowLoop_short hdr hs (by omega) ifs.pos hdr.height 0 hdr.height ifs sd0 data0
      (Nat.le_refl _) (by rw [Nat.zero_add, Nat.mul_comm]) hg hlen (by simp) hsd hdata
    simpa only [Nat.mul_zero] using this
  · intro ht l sd data hsd1 hd1
    have hb : bytes_per_pixel hdr = 3 := by simp [bytes_per_pixel, ht]
    rw [stride_eq hdr hs, hb] at hsd1 ⊢
    constructor
    · obtain ⟨out, ho, hl, -⟩ := pixelLoop_spec hdr.width 0 (hdr.width + 1) l sd data
        (by omega) (by omega) (by omega)
      simp only [Nat.mul_zero, Nat.zero_add] at ho
      exact ⟨out, ho, hl⟩
    · have := pixelLoop_short hdr.width 0 hdr.width l sd data (Nat.le_refl _) (by omega)
        (by omega)
      simpa only [Nat.mul_zero, Nat.zero_add] using this

/-- C19, witness: the 1x1 RGB image after its header has been scanned. -/
theorem C19_transcode_in_bounds_witness :
    rowLoop 2 0 0 ⟨1, 1, 3, 255, 1⟩ ⟨sample_rgb, 59, false, false⟩ [0, 0, 0] [9, 9, 9, 9] =
        .ok [0x30, 0x20, 0x10, 0xFF] ∧
      rowLoop (1 : Nat) 0 0 ⟨1, 1, 3, 255, 1⟩ ⟨sample_rgb, 59, false, false⟩ [0, 0, 0]
        [9, 9, 9, 9] = .error .fuel :=
  ⟨by rfl, (C19_transcode_in_bounds ⟨1, 1, 3, 255, 1⟩ (by simp [header.Small]) (by rfl)
    ⟨sample_rgb, 59, false, false⟩ (by rfl) (by rfl) [0, 0, 0] [9, 9, 9, 9] (by rfl)
    (by rfl)).2.1⟩
/-- C20: a numeric header value is stored modulo 2^16, not range-checked. For a numeric field
line `KEYWORD`, whitespace, digits denoting `v`: the dispatch converts and assigns `v` when
`v <= 2147483647` and throws the conversion assertion only above that; the assignment leaves
`v mod 65536` in the field and the other fields as they were; and the header loop, on such a
line read whole, goes on with the assigned header. Consequently "WIDTH 65537" decodes as
width 1, "MAXVAL 65791" passes the `maxval == 255` assertion, and "WIDTH 65536" is reported as
a zero width. -/
theorem C20_stored_modulo (f : Field) (hf : f ≠ .tupltype) (ws : Nat) (digits : List Nat)
    (hws : isspace ws = true) (hne : digits ≠ []) (hd : ∀ d ∈ digits, isdigit d = true) :
    (forRegValues (keyword f ++ ws :: digits) reg_values =
        if decimal digits ≤ 2147483647 then .assign f (decimal digits)
        else .threw (.HeaderValueError (keyword f ++ ws :: digits))) ∧
      (∀ hdr : header, (hdr.assign f (decimal digits)).get f = decimal digits % 65536 ∧
        ∀ g, g ≠ f → (hdr.assign f (decimal digits)).get g = hdr.get g) ∧
      (∀ (fuel : Nat) (hdr : header) (s : ifstream) (rest : List Nat), ws ≠ 10 →
        (keyword f ++ ws :: digits).length < 50 →
        Reads s ((keyword f ++ ws :: digits) ++ 10 :: rest) →
        ∃ s1, Reads s1 rest ∧ headerLoop (fuel + 1) hdr s =
          if decimal digits ≤ 2147483647 then headerLoop fuel (hdr.assign f (decimal digits)) s1
          else .ok (hdr, s1, some (.HeaderValueError (keyword f ++ ws :: digits)))) ∧
      parse fresh (some sample_width_65537) =
        .ok ⟨⟨⟨1, 1, 3, 255, 1⟩, some [0x30, 0x20, 0x10, 0xFF], 4⟩, none⟩ ∧
      parse fresh (some sample_maxval_65791) =
        .ok ⟨⟨⟨1, 1, 3, 255, 1⟩, some [0x30, 0x20, 0x10, 0xFF], 4⟩, none⟩ ∧
      parse fresh (some sample_width_65536) =
        .ok ⟨⟨⟨0, 1, 3, 255, 1⟩, none, 0⟩, some (.MissingHeaderField .width)⟩ := by
  have hdisp := forRegValues_keyword f hf ws digits hws hne hd
  refine ⟨hdisp, fun hdr => ⟨assign_get hdr f _, fun g hg => assign_get_ne hdr f g _ hg⟩, ?_,
    by rfl, by rfl, by rfl⟩
  intro fuel hdr s rest hnl hlen hr
  obtain ⟨s1, h1, h2⟩ := headerLoop_whole_line fuel hdr s _ rest hr
    (keyword_line_no_newline f ws digits hnl hd) hlen
  refine ⟨s1, h1, ?_⟩
  rw [h2, keyword_line_c_str f ws digits hws hd, hdisp]
  by_cases hv : decimal digits ≤ 2147483647
  · simp only [if_pos hv]
  · simp only [if_neg hv]

/-- C20, witness: the line "WIDTH 65537". -/
theorem C20_stored_modulo_witness :
    forRegValues (ascii "WIDTH 65537") reg_values = .assign .width 65537 ∧
      (header.zero.assign .width 65537).get .width = 1 ∧
      forRegValues (ascii "WIDTH 2147483648") reg_values =
        .threw (.HeaderValueError (ascii "WIDTH 2147483648")) ∧
      ∀ hdr : header, (hdr.assign .width (decimal (ascii "65537"))).get .width =
        decimal (ascii "65537") % 65536 ∧
        ∀ g, g ≠ .width → (hdr.assign .width (decimal (ascii "65537"))).get g = hdr.get g :=
  ⟨by rfl, by rfl, by rfl, (C20_stored_modulo .width (by decide) 32 (ascii "65537") (by rfl)
    (by decide) (by decide)).2.1⟩

/-- C21, as the code has it: lines are read into a 50-byte buffer. When the first line begins
with "P7" and is 50 or more characters long, or when it begins with "P7", is shorter, and is
followed by field lines read whole and then a line of 50 or more characters, `parse` throws
in the end-of-file branch, whatever the long line holds: a well-formed field line and an
unrecognised line alike. -/
theorem C21_long_line (self : image_pam) :
    (∀ first rest : List Nat, [80, 55] <+: first → 10 ∉ first → 50 ≤ first.length →
        parse self (some (first ++ rest)) =
          .ok ⟨⟨header.zero, none, 0⟩, some .UnexpectedEof⟩) ∧
      (∀ (magic : List Nat) (lines : List (List Nat)) (long rest : List Nat),
        [80, 55] <+: magic → 10 ∉ magic → magic.length < 50 →
        (∀ ln ∈ lines, 10 ∉ ln ∧ ln.length < 50 ∧ isFieldLine (c_str ln) = true) →
        10 ∉ long → 50 ≤ long.length →
        ∃ hdr, parse self (some (magic ++ 10 :: (joinLines lines ++ (long ++ rest)))) =
          .ok ⟨⟨hdr, none, 0⟩, some .UnexpectedEof⟩) := by
  constructor
  · intro first rest hm h10 hlen
    have hr : Reads (ifstream.mk (first ++ rest) 0 false false) (first ++ rest) := ⟨rfl, rfl⟩
    have hfail := getline_long _ first rest hr h10 hlen
    have hmo : magic_ok ((ifstream.mk (first ++ rest) 0 false false).getline 50).2 = true := by
      obtain ⟨t, rfl⟩ := hm
      exact (magic_ok_iff _).2 ⟨t ++ rest, by simp⟩
    have hng : ((ifstream.mk (first ++ rest) 0 false false).getline 50).1.good = false := by
      simp only [ifstream.fail] at hfail
      simp [ifstream.good, hfail]
    rw [parse_some]
    unfold scan
    simp only [hmo, if_true]
    rw [headerLoop_getline_fail _ _ _ (getline_not_good _ 50 hng)]
  · intro magic lines long rest hm h10 hlen hlines hl10 hllen
    obtain ⟨s, hs, hr⟩ := scan_magic_line magic (joinLines lines ++ (long ++ rest)) hm h10 hlen
    have hfuel : (magic ++ 10 :: (joinLines lines ++ (long ++ rest))).length + 1 =
        ((magic ++ 10 :: (joinLines lines ++ (long ++ rest))).length - lines.length + 1) +
          lines.length := by
      have := joinLines_length lines
      simp only [List.length_append, List.length_cons] at this ⊢
      omega
    obtain ⟨s1, h1, h2, -⟩ := headerLoop_lines lines
      ((magic ++ 10 :: (joinLines lines ++ (long ++ rest))).length - lines.length + 1)
      header.zero s (long ++ rest) hr hlines
    refine ⟨lines.foldl (fun h ln => lineEffect h (c_str ln)) header.zero, ?_⟩
    rw [parse_some, hs, hfuel, h1,
      headerLoop_getline_fail _ _ _ (getline_long s1 long rest h2 hl10 hllen)]

/-- C21, witness: a WIDTH line of 51 characters, well formed but for its length, after the
line "P7". -/
theorem C21_long_line_witness :
    longWidthLine.length = 51 ∧
      regex_match longWidthLine (.kw_space_digits WIDTH) = some (List.replicate 44 48 ++ [49]) ∧
      ∃ hdr, parse fresh (some (ascii "P7" ++ 10 :: (joinLines [] ++
          (longWidthLine ++ ascii "\nENDHDR\n")))) =
        .ok ⟨⟨hdr, none, 0⟩, some .UnexpectedEof⟩ :=
  ⟨by rfl, by rfl, (C21_long_line fresh).2 (ascii "P7") [] longWidthLine (ascii "\nENDHDR\n")
    ⟨[], rfl⟩ (by decide) (by decide) (by decide) (by decide) (by decide)⟩

/-- C21, counterexample: a first line of 60 letters X is 50 or more characters long, yet
`parse` does not throw in the end-of-file branch but at the magic assertion, which comes
first. Likewise a long WIDTH line that follows an unknown line is never reached: the unknown
line throws. -/
theorem C21_counterexample :
    firstLine (sixtyX ++ ascii "\nENDHDR\n") = sixtyX ∧ 50 ≤ sixtyX.length ∧
      parse fresh (some (sixtyX ++ ascii "\nENDHDR\n")) =
        .ok ⟨⟨header.zero, none, 0⟩, some .MagicMismatch⟩ ∧
      50 ≤ longWidthLine.length ∧
      parse fresh (some (ascii "P7\nCOMMENT\n" ++ longWidthLine ++ ascii "\nENDHDR\n")) =
        .ok ⟨⟨header.zero, none, 0⟩, some (.HeaderSyntaxError (ascii "COMMENT"))⟩ :=
  ⟨by rfl, by decide, by rfl, by decide, by rfl⟩


/-- C22, as the code has it: the patterns are matched against the text of the line up to its
first NUL byte, which is the whole line when it has none (7). On that text a numeric field
line is recognised only as a whole-text match of its keyword, exactly one whitespace character
and digits. For a numeric field: (1) its pattern matches a text, with the digits captured,
exactly when the text is the keyword, one whitespace character and one or more digits;
(2) the loop, on a line shorter than 50 bytes whose text is the keyword, a single space or tab
and the numeral of a value up to 2147483647, leading zeros allowed, stores the value and goes
on with the next line; (3) on a line whose text is the keyword followed by anything else (a
second separator, a character after the digits, a sign) it throws the unknown-header-element
assertion carrying the text; (4) so it does on a line whose text begins with whitespace and
(5) on every line whose text has no match in the table; (6) the examples are evaluated
through `parse`. -/
theorem C22_whole_line_match (f : Field) (hf : f ≠ .tupltype) :
    (∀ t arg, regex_match t (fieldPattern f) = some arg ↔
        ∃ ws, t = keyword f ++ ws :: arg ∧ isspace ws = true ∧ arg ≠ [] ∧
          ∀ d ∈ arg, isdigit d = true) ∧
      (∀ (fuel : Nat) (hdr : header) (s : ifstream) (ln rest : List Nat) (ws z v : Nat),
        Reads s (ln ++ 10 :: rest) → 10 ∉ ln → ln.length < 50 →
        c_str ln = keyword f ++ ws :: (List.replicate z 48 ++ numeral v) →
        (ws = 32 ∨ ws = 9) → List.replicate z 48 ++ numeral v ≠ [] → v ≤ 2147483647 →
        ∃ s1, Reads s1 rest ∧
          headerLoop (fuel + 1) hdr s = headerLoop fuel (hdr.assign f v) s1) ∧
      (∀ (fuel : Nat) (hdr : header) (s : ifstream) (ln rest tail : List Nat),
        Reads s (ln ++ 10 :: rest) → 10 ∉ ln → ln.length < 50 →
        c_str ln = keyword f ++ tail →
        (¬ ∃ ws digits, tail = ws :: digits ∧ isspace ws = true ∧ digits ≠ [] ∧
          ∀ d ∈ digits, isdigit d = true) →
        ∃ s1, headerLoop (fuel + 1) hdr s =
          .ok (hdr, s1, some (.HeaderSyntaxError (c_str ln)))) ∧
      (∀ (fuel : Nat) (hdr : header) (s : ifstream) (ln rest : List Nat) (c : Nat)
          (t : List Nat),
        Reads s (ln ++ 10 :: rest) → 10 ∉ ln → ln.length < 50 →
        c_str ln = c :: t → isspace c = true →
        ∃ s1, headerLoop (fuel + 1) hdr s =
          .ok (hdr, s1, some (.HeaderSyntaxError (c_str ln)))) ∧
      (∀ (fuel : Nat) (hdr : header) (s : ifstream) (ln rest : List Nat),
        Reads s (ln ++ 10 :: rest) → 10 ∉ ln → ln.length < 50 →
        forRegValues (c_str ln) reg_values = .no_match →
        ∃ s1, headerLoop (fuel + 1) hdr s =
          .ok (hdr, s1, some (.HeaderSyntaxError (c_str ln)))) ∧
      (parse fresh (some (sample_with_line (ascii "WIDTH\t001"))) =
          .ok ⟨⟨⟨1, 1, 3, 255, 1⟩, some [0x30, 0x20, 0x10, 0xFF], 4⟩, none⟩ ∧
        parse fresh (some (sample_with_line (ascii "WIDTH  10"))) =
          .ok ⟨⟨header.zero, none, 0⟩, some (.HeaderSyntaxError (ascii "WIDTH  10"))⟩ ∧
        parse fresh (some (sample_with_line (ascii "WIDTH 10 "))) =
          .ok ⟨⟨header.zero, none, 0⟩, some (.HeaderSyntaxError (ascii "WIDTH 10 "))⟩ ∧
        parse fresh (some (sample_with_line (ascii "WIDTH 10\r"))) =
          .ok ⟨⟨header.zero, none, 0⟩, some (.HeaderSyntaxError (ascii "WIDTH 10\r"))⟩ ∧
        parse fresh (some (sample_with_line (ascii "WIDTH +10"))) =
          .ok ⟨⟨header.zero, none, 0⟩, some (.HeaderSyntaxError (ascii "WIDTH +10"))⟩ ∧
        parse fresh (some (sample_with_line (ascii " WIDTH 10"))) =
          .ok ⟨⟨header.zero, none, 0⟩, some (.HeaderSyntaxError (ascii " WIDTH 10"))⟩) ∧
      (∀ ln : List Nat, 0 ∉ ln → c_str ln = ln) := by
  have hp := fieldPattern_numeric f hf
  have hloop : ∀ (fuel : Nat) (hdr : header) (s : ifstream) (ln rest : List Nat),
      Reads s (ln ++ 10 :: rest) → 10 ∉ ln → ln.length < 50 →
      forRegValues (c_str ln) reg_values = .no_match →
      ∃ s1, headerLoop (fuel + 1) hdr s =
        .ok (hdr, s1, some (.HeaderSyntaxError (c_str ln))) := by
    intro fuel hdr s ln rest hr h10 hlen hno
    exact headerLoop_unmatched fuel hdr s ln (10 :: rest) hr h10 hlen (Or.inl ⟨rest, rfl⟩) hno
  refine ⟨?_, ?_, ?_, ?_, hloop, ⟨by rfl, by rfl, by rfl, by rfl, by rfl, by rfl⟩, ?_⟩
  · intro t arg
    rw [hp]
    exact regex_match_digits_iff (keyword f) t arg
  · intro fuel hdr s ln rest ws z v hr h10 hlen hcs hws hne hv
    have hs : isspace ws = true := by rcases hws with rfl | rfl <;> rfl
    have hd : ∀ d ∈ List.replicate z 48 ++ numeral v, isdigit d = true := by
      intro d hd
      rcases List.mem_append.1 hd with h | h
      · rw [(List.mem_replicate.1 h).2]; rfl
      · exact numeral_isdigit v d h
    have hdisp := forRegValues_keyword f hf ws _ hs hne hd
    rw [decimal_numeral, if_pos hv] at hdisp
    obtain ⟨s1, hr1, hl⟩ := headerLoop_whole_line fuel hdr s ln rest hr h10 hlen
    refine ⟨s1, hr1, ?_⟩
    rw [hl, hcs, hdisp]
  · intro fuel hdr s ln rest tail hr h10 hlen hcs htail
    apply hloop fuel hdr s ln rest hr h10 hlen
    rw [hcs]
    apply forRegValues_keyword_unmatched f hf
    cases hm : regex_match (keyword f ++ tail) (.kw_space_digits (keyword f)) with
    | none => rfl
    | some arg =>
      exfalso
      obtain ⟨ws, h1, h2, h3, h4⟩ := (regex_match_digits_iff _ _ _).1 hm
      exact htail ⟨ws, arg, List.append_cancel_left h1, h2, h3, h4⟩
  · intro fuel hdr s ln rest c t hr h10 hlen hcs hc
    apply hloop fuel hdr s ln rest hr h10 hlen
    rw [hcs]
    exact forRegValues_leading_space c t hc
  · intro ln h0
    exact c_str_eq_self ln (fun c hc hz => h0 (hz ▸ hc))

/-- C22, witness: the field WIDTH. The loop on the line "WIDTH 007" stores 7 and goes on; on
the line "WIDTH  10" with its two separators it throws the unknown-header-element assertion. -/
theorem C22_whole_line_match_witness :
    (∃ s1, Reads s1 (ascii "ENDHDR\n") ∧
        headerLoop (5 + 1) header.zero (ifstream.mk (ascii "WIDTH 007\nENDHDR\n") 0 false false) =
          headerLoop 5 (header.zero.assign .width 7) s1) ∧
      ∃ s1, headerLoop (5 + 1) header.zero
          (ifstream.mk (ascii "WIDTH  10\nENDHDR\n") 0 false false) =
        .ok (header.zero, s1, some (.HeaderSyntaxError (c_str (ascii "WIDTH  10")))) :=
  have h := C22_whole_line_match .width (by decide)
  ⟨h.2.1 5 header.zero (ifstream.mk (ascii "WIDTH 007\nENDHDR\n") 0 false false)
      (ascii "WIDTH 007") (ascii "ENDHDR\n") 32 2 7 ⟨rfl, rfl⟩ (by decide) (by decide)
      (by simp [numeral, c_str, ascii, keyword, WIDTH]) (Or.inl rfl) (by simp) (by decide),
    h.2.2.1 5 header.zero (ifstream.mk (ascii "WIDTH  10\nENDHDR\n") 0 false false)
      (ascii "WIDTH  10") (ascii "ENDHDR\n") (ascii "  10") ⟨rfl, rfl⟩ (by decide) (by decide)
      (by rfl) (by
        rintro ⟨ws, digits, h1, -, -, h4⟩
        have h2 : digits = ascii " 10" := by
          have := congrArg List.tail h1
          simpa using this.symm
        subst h2
        exact absurd (h4 32 (by decide)) (by decide))⟩

/-- C22, counterexample: the line "WIDTH 1", a NUL byte, "junk" has characters after the
digits, yet it is recognised as "WIDTH 1": the pattern is matched against the text up to the
NUL, the width is stored and the 1x1 image decodes. -/
theorem C22_counterexample :
    widthNulJunk = keyword .width ++ 32 :: (ascii "1" ++ 0 :: ascii "junk") ∧
      c_str widthNulJunk = ascii "WIDTH 1" ∧
      forRegValues (c_str widthNulJunk) reg_values = .assign .width 1 ∧
      parse fresh (some (sample_with_line widthNulJunk)) =
        .ok ⟨⟨⟨1, 1, 3, 255, 1⟩, some [0x30, 0x20, 0x10, 0xFF], 4⟩, none⟩ :=
  ⟨by rfl, by rfl, by rfl, by rfl⟩

end ImagePam

namespace SortVisualizer

/-- C23: starting from pass counter 0 on any 50-element array, `k` calls of `App::sort` with
`k ≤ 50` all return, leave the pass counter at `k`, and leave an array that is a permutation of
the original whose first `k` elements are in non-decreasing order; after 50 calls the whole
array is in non-decreasing order. The arrays that `build_array` would produce are never used. -/
theorem C23_sort_passes (a : List Int) (rebuilt : Nat → List Int) (k : Nat)
    (hlen : a.length = 50) (hk : k ≤ 50) :
    ∃ b, calls k ⟨a, 0⟩ rebuilt = .ok ⟨b, k⟩ ∧ b.Perm a ∧
      (b.take k).Pairwise (fun x y => x ≤ y) ∧
      (k = 50 → b.Pairwise (fun x y => x ≤ y)) := by
  obtain ⟨b, hb, hperm, hblen, hsorted⟩ := calls_spec a rebuilt hlen k hk
  refine ⟨b, hb, hperm, pairwise_take b k hsorted, ?_⟩
  intro h50
  have := pairwise_take b k hsorted
  rwa [h50, ← hblen, List.take_length] at this

theorem C23_sort_passes_witness :
    descending.length = 50 ∧
    ∃ b, calls 50 ⟨descending, 0⟩ (fun _ => []) = .ok ⟨b, 50⟩ ∧ b.Perm descending ∧
      (b.take 50).Pairwise (fun x y => x ≤ y) ∧
      ((50 : Nat) = 50 → b.Pairwise (fun x y => x ≤ y)) :=
  ⟨by decide, C23_sort_passes descending (fun _ => []) 50 (by decide) (by decide)⟩

end SortVisualizer

namespace ImagePam

/-- C24: for every header whose fields fit 16 bits (width and height up to 65535) and either
value of `bytes_per_pixel`, the size computations of `parse` do not wrap. The products
`bytes_per_pixel * width * height` and `width * 4 * height`, reduced modulo 2^64 as `size_t`
does, keep their mathematical values, which are at most `4 * 65535 * 65535`, below 2^64; the
`int` product `width * 4` stays below 2^31 and `width * bytes_per_pixel` below 2^64. So
`expected_size`, `size`, `actual_stride` and `stride` are the mathematical products. -/
theorem C24_sizes_do_not_wrap (hdr : header) (hs : hdr.Small) :
    (bytes_per_pixel hdr = 3 ∨ bytes_per_pixel hdr = 4) ∧
      expected_size hdr = bytes_per_pixel hdr * hdr.width * hdr.height ∧
      buffer_size hdr = hdr.width * 4 * hdr.height ∧
      actual_stride hdr = hdr.width * 4 ∧
      stride hdr = hdr.width * bytes_per_pixel hdr ∧
      bytes_per_pixel hdr * hdr.width * hdr.height ≤ 4 * 65535 * 65535 ∧
      hdr.width * 4 * hdr.height ≤ 4 * 65535 * 65535 ∧
      4 * 65535 * 65535 < 2 ^ 64 ∧
      hdr.width * 4 < 2 ^ 31 ∧
      hdr.width * bytes_per_pixel hdr < 2 ^ 64 := by
  have hm := mul_small hdr hs
  have hw := hs.1
  have hB : bytes_per_pixel hdr = 3 ∨ bytes_per_pixel hdr = 4 := by
    rcases bytes_per_pixel_cases hdr with ⟨h, -⟩ | ⟨h, -⟩ <;> simp [h]
  have e1 : bytes_per_pixel hdr * hdr.width * hdr.height =
      bytes_per_pixel hdr * (hdr.width * hdr.height) := Nat.mul_assoc _ _ _
  have e2 : hdr.width * 4 * hdr.height = 4 * (hdr.width * hdr.height) := by ring
  refine ⟨hB, ?_, ?_, ?_, ?_, ?_, ?_, by norm_num, by omega, ?_⟩
  · rw [expected_size_eq hdr hs, e1]
  · rw [buffer_size_eq hdr hs, e2]
  · rw [actual_stride_eq hdr hs, Nat.mul_comm]
  · rw [stride_eq hdr hs, Nat.mul_comm]
  · rw [e1]
    rcases hB with h | h <;> rw [h] <;> omega
  · rw [e2]; omega
  · rcases hB with h | h <;> rw [h] <;> omega

/-- C24, witness: the largest header, 65535 x 65535 with four bytes per pixel. -/
theorem C24_sizes_do_not_wrap_witness :
    expected_size ⟨65535, 65535, 4, 255, 2⟩ = 4 * 65535 * 65535 ∧
      buffer_size ⟨65535, 65535, 4, 255, 2⟩ = 65535 * 4 * 65535 ∧
      actual_stride ⟨65535, 65535, 4, 255, 2⟩ = 65535 * 4 ∧
      stride ⟨65535, 65535, 4, 255, 2⟩ = 65535 * 4 :=
  have h := C24_sizes_do_not_wrap ⟨65535, 65535, 4, 255, 2⟩ (by simp [header.Small])
  ⟨h.2.1, h.2.2.1, h.2.2.2.1, h.2.2.2.2.1⟩

end ImagePam
